import Mathlib

/-!
# FileStore: object-name codec, apply engine and UserTrans marshaller

A shallow embedding of `src/os/FileStore.cc`.

Conventions of the embedding.

* A byte is a `Char`; a C string (`char *`) is the `List Char` of its bytes up to, and
  without, the terminating NUL.  `c_str` cuts a byte sequence at its first NUL, which is
  what every `while (*i)`, `strlen` and `%s` of the source does.
* `u64` values are natural numbers; where the source converts or prints them the
  reduction modulo `2 ^ 64` is explicit.
* C `int` results are integers (negative = negated errno).
* Code that can hit `assert(0)`, or read outside a buffer, returns `Except Fault _`.
* Results of system calls are parameters of the functions that make the calls.
-/

namespace FileStore

/-! ## Data model -/

/-- Ways in which the embedded code can stop without returning. -/
inductive Fault where
  /-- The `default: assert(0)` of the unescape switch in `parse_object`. -/
  | bad_escape
  /-- The loop of `parse_object` started on an empty string reads `s[-1]`. -/
  | out_of_bounds
  /-- The `default: cerr << "bad op"; assert(0)` of an opcode switch. -/
  | bad_op
  /-- A typed argument reader of a Transaction was called on an exhausted stream. -/
  | stream_underrun
  /-- The `assert(len == bl.length())` of the WRITE/ZERO case of `_do_usertrans`. -/
  | length_mismatch
  /-- The `assert(actual == offset)` of `_write`. -/
  | seek_mismatch
  /-- The `assert(ut.ops_completed == ops.size())` of `_do_usertrans`. -/
  | ops_incomplete
  /-- The `assert(0)` after a failed `open(basedir)` in `_transaction_start`. -/
  | open_basedir_failed
  /-- The wait on `sig_cond` in `_transaction_start`: nothing signals the condition, so
  the call does not return. -/
  | sig_wait
  /-- The `assert(op_fd >= 0)` of `mount`. -/
  | op_fd_failed
  deriving DecidableEq, Repr

deriving instance DecidableEq for Except

/-- Modelled from the spec: the two sentinel values of `snap` ("NOSNAP (sentinel for the
live head), SNAPDIR (sentinel for the directory-of-snaps view)").  The header that
defines `CEPH_NOSNAP` and `CEPH_SNAPDIR` is not among the sources, so the two `u64`
constants are parameters of everything that compares against them. -/
structure SnapSentinels where
  CEPH_NOSNAP : Nat
  CEPH_SNAPDIR : Nat
  deriving DecidableEq, Repr

/-- The object identifier `sobject_t`: `oid.name` (a byte string) and `snap` (a `u64`). -/
structure sobject_t where
  name : List Char
  snap : Nat
  deriving DecidableEq, Repr

/-- Modelled from the spec: the collection identifier `coll_t`, "an opaque printable
token".  The class is declared in a header that is not among the sources; the model keeps
the token that `coll_t::print` writes. -/
structure coll_t where
  token : List Char
  deriving DecidableEq, Repr

/-- Modelled from the spec: `coll_t::print(char *s)` writes the token of the collection. -/
def coll_t.print (c : coll_t) : List Char := c.token

/-- The sentinel values of the Ceph headers, `(__u64)(-2)` and `(__u64)(-1)`; used for
concrete instances only. -/
def ceph_sentinels : SnapSentinels := { CEPH_NOSNAP := 2 ^ 64 - 2, CEPH_SNAPDIR := 2 ^ 64 - 1 }

/-! ## C string helpers -/

/-- The bytes of a buffer read as a C string: everything before the first NUL. -/
def c_str : List Char → List Char
  | [] => []
  | c :: cs => if c = Char.ofNat 0 then [] else c :: c_str cs

/-- The digit that `%x` prints for a value below 16. -/
def hexdigit (d : Nat) : Char :=
  if d < 10 then Char.ofNat (48 + d) else Char.ofNat (87 + d)

/-- Digit generation of `%llx`: the least significant digit is produced first and the
digits are stored right to left; `fuel` bounds the number of digits. -/
def llx_digits : Nat → Nat → List Char → List Char
  | 0, _, acc => acc
  | fuel + 1, n, acc =>
    if n < 16 then hexdigit n :: acc
    else llx_digits fuel (n / 16) (hexdigit (n % 16) :: acc)

/-- The text of `sprintf(t, "%llx", (long long unsigned) snap)`: a 64-bit value has at
most 16 hexadecimal digits. -/
def sprintf_llx (snap : Nat) : List Char :=
  llx_digits 16 (snap % 2 ^ 64) []

/-- The value of a character as a digit in base 16, as `strtoull` reads it. -/
def hexval (c : Char) : Option Nat :=
  if 48 ≤ c.toNat ∧ c.toNat ≤ 57 then some (c.toNat - 48)
  else if 97 ≤ c.toNat ∧ c.toNat ≤ 102 then some (c.toNat - 87)
  else if 65 ≤ c.toNat ∧ c.toNat ≤ 70 then some (c.toNat - 55)
  else none

/-- The digit loop of `strtoull`: accumulate digits until the first non-digit. -/
def strtoull_digits : List Char → Nat → Nat
  | [], acc => acc
  | c :: cs, acc =>
    match hexval c with
    | some d => strtoull_digits cs (acc * 16 + d)
    | none => acc

/-- The `isspace` of the C locale. -/
def isspace (c : Char) : Bool :=
  c.toNat = 32 || (9 ≤ c.toNat && c.toNat ≤ 13)

/-- The C library's `strtoull(s, _, 16)`: leading white space, an optional sign, an
optional `0x`/`0X`, then hexadecimal digits; a value that does not fit 64 bits is
clamped to `ULLONG_MAX`, a leading `-` negates modulo `2 ^ 64`. -/
def strtoull16 (s : List Char) : Nat :=
  let s1 := s.dropWhile isspace
  let neg := s1.head? = some '-'
  let s2 := if s1.head? = some '-' ∨ s1.head? = some '+' then s1.tail else s1
  let s3 := match s2 with
    | '0' :: x :: rest => if x = 'x' ∨ x = 'X' then rest else s2
    | _ => s2
  let v := strtoull_digits s3 0
  if 2 ^ 64 ≤ v then 2 ^ 64 - 1
  else if neg then (2 ^ 64 - v) % 2 ^ 64
  else v

/-! ## Naming and path codec (`append_oname`, `parse_object`, `get_cdir`, `get_coname`) -/

/-- The escape loop of `append_oname`; `idx` is `i - oid.oid.name.c_str()`, the position
of the byte under the read pointer. -/
def append_oname_loop : Nat → List Char → List Char
  | _, [] => []
  | idx, c :: rest =>
    (if c = '\\' then ['\\', '\\']
     else if c = '.' ∧ idx = 0 then ['\\', '.']
     else if c = '/' then ['\\', 's']
     else [c]) ++ append_oname_loop (idx + 1) rest

/-- The suffix that the three `sprintf` calls at the end of `append_oname` write. -/
def append_oname_tag (K : SnapSentinels) (snap : Nat) : List Char :=
  if snap = K.CEPH_NOSNAP then "_head".toList
  else if snap = K.CEPH_SNAPDIR then "_snapdir".toList
  else '_' :: sprintf_llx snap

/-- `FileStore::append_oname(oid, s)`: the content of the buffer `s` on return. -/
def append_oname (K : SnapSentinels) (oid : sobject_t) (s : List Char) : List Char :=
  c_str s ++ '/' :: (append_oname_loop 0 (c_str oid.name) ++ append_oname_tag K oid.snap)

/-- The backwards scan of `parse_object`: starting at index `bar`, step down while the
byte is not `_` and `bar > 0`; returns the final index. -/
def parse_object_bar (s : List Char) : Nat → Nat
  | 0 => 0
  | bar + 1 => if s[bar + 1]? = some '_' then bar + 1 else parse_object_bar s bar

/-- The unescape loop of `parse_object` over the bytes before the bar.  A backslash
followed by anything but a backslash, `.` or `s` (also by the bar itself) reaches the
`default: assert(0)`. -/
def parse_object_unescape : List Char → Except Fault (List Char)
  | [] => .ok []
  | c :: rest =>
    if c = '\\' then
      match rest with
      | [] => .error .bad_escape
      | e :: rest2 =>
        if e = '\\' then (parse_object_unescape rest2).map ('\\' :: ·)
        else if e = '.' then (parse_object_unescape rest2).map ('.' :: ·)
        else if e = 's' then (parse_object_unescape rest2).map ('/' :: ·)
        else .error .bad_escape
    else (parse_object_unescape rest).map (c :: ·)

/-- The snap that `parse_object` reads from the text after the bar. -/
def parse_object_snap (K : SnapSentinels) (tag : List Char) : Nat :=
  if tag = "head".toList then K.CEPH_NOSNAP
  else if tag = "snapdir".toList then K.CEPH_SNAPDIR
  else strtoull16 tag

/-- `FileStore::parse_object(s, o)`: `some o` when it returns true, `none` when it
returns false. -/
def parse_object (K : SnapSentinels) (s0 : List Char) : Except Fault (Option sobject_t) :=
  let s := c_str s0
  if s = [] then .error .out_of_bounds
  else
    let bar := parse_object_bar s (s.length - 1)
    if s[bar]? = some '_' then
      (parse_object_unescape (s.take bar)).map
        (fun name => some { name := name, snap := parse_object_snap K (s.drop (bar + 1)) })
    else .ok none

/-- `FileStore::get_cdir(cid, s)`: `sprintf(s, "%s/", basedir)` followed by `cid.print`. -/
def get_cdir (basedir : List Char) (cid : coll_t) : List Char :=
  c_str basedir ++ '/' :: cid.print

/-- `FileStore::get_coname(cid, oid, s)`. -/
def get_coname (K : SnapSentinels) (basedir : List Char) (cid : coll_t) (oid : sobject_t) :
    List Char :=
  append_oname K oid (get_cdir basedir cid)

/-- The test `de->d_name[0] == '.'` with which `collection_list`,
`collection_list_partial` and `collection_empty` skip a directory entry. -/
def is_dot_entry (d_name : List Char) : Bool :=
  (c_str d_name).head? = some '.'

/-! ## Reference encoding of the specification -/

/-- The escape map in the words of the specification: a backslash becomes two
backslashes, a `.` at index 0 becomes backslash-dot, a `/` becomes backslash-`s`, every
other byte is copied. -/
def spec_escape_byte (i : Nat) (c : Char) : List Char :=
  if c = '\\' then "\\\\".toList
  else if c = '.' ∧ i = 0 then "\\.".toList
  else if c = '/' then "\\s".toList
  else [c]

/-- The specification's `escape(name)`: every byte mapped by its index. -/
def spec_escape (name : List Char) : List Char :=
  (name.enum.map (fun p => spec_escape_byte p.1 p.2)).flatten

/-- Lowercase hexadecimal without leading zeros, most significant digit first. -/
def spec_hex (n : Nat) : List Char :=
  if n = 0 then ['0'] else ((Nat.digits 16 n).map hexdigit).reverse

/-- The specification's snaptag: `head`, `snapdir` or the hexadecimal of `snap`. -/
def spec_snaptag (K : SnapSentinels) (snap : Nat) : List Char :=
  if snap = K.CEPH_NOSNAP then "head".toList
  else if snap = K.CEPH_SNAPDIR then "snapdir".toList
  else spec_hex snap

/-- The file name of the specification's path invariant: `escape(name)_snaptag`. -/
def spec_oname (K : SnapSentinels) (oid : sobject_t) : List Char :=
  spec_escape oid.name ++ '_' :: spec_snaptag K oid.snap


/-! ## Transactions -/

/-- Modelled from the spec: a byte payload (`bufferptr`); the buffer classes are declared
in a header that is not among the sources. -/
abbrev bufferptr := List Char

/-- Modelled from the spec: a buffer list, the sequence `bl.buffers()` of its buffers. -/
abbrev bufferlist := List bufferptr

/-- Modelled from the spec: `bl.length()`, the total number of bytes. -/
def bufferlist.length (bl : bufferlist) : Nat := (bl.map List.length).sum

/-- Modelled from the spec: `bl.c_str()`, the payload as one contiguous byte sequence. -/
def bufferlist.c_str (bl : bufferlist) : List Char := bl.flatten

/-- Modelled from the spec: the opcodes of a Transaction, `Transaction::OP_*`.  The
enumeration is declared in a header that is not among the sources; its numeric values
play no role.  `OP_OTHER` stands for any integer that is none of the named constants. -/
inductive OpCode where
  | OP_TOUCH | OP_WRITE | OP_ZERO | OP_TRIMCACHE | OP_TRUNCATE | OP_REMOVE
  | OP_SETATTR | OP_SETATTRS | OP_RMATTR | OP_RMATTRS | OP_CLONE | OP_CLONERANGE
  | OP_MKCOLL | OP_RMCOLL | OP_COLL_ADD | OP_COLL_REMOVE | OP_COLL_SETATTR
  | OP_COLL_SETATTRS | OP_COLL_RMATTR | OP_STARTSYNC
  | OP_OTHER (n : Nat)
  deriving DecidableEq, Repr

/-- Modelled from the spec: the typed argument streams of a Transaction ("typed arg
readers"); each reader returns the next element of its own stream.  The head of a list
is the element the next read returns.  An attribute set is listed in the iteration order
of the `map<nstring,bufferptr>`. -/
structure TxArgs where
  bls : List bufferlist := []
  oids : List sobject_t := []
  cids : List coll_t := []
  lengths : List Nat := []
  attrnames : List (List Char) := []
  attrsets : List (List (List Char × bufferptr)) := []
  deriving DecidableEq, Repr

/-- Modelled from the spec: a Transaction, "an append-only ordered list of ops" with the
arguments and payloads it carries.  `ops` holds the opcodes that `get_op` has not yet
returned, so `have_op()` is `ops ≠ []`. -/
structure Transaction where
  ops : List OpCode := []
  args : TxArgs := {}
  deriving DecidableEq, Repr

/-- Modelled from the spec: `t.get_bl()`. -/
def TxArgs.get_bl (a : TxArgs) : Except Fault (bufferlist × TxArgs) :=
  match a.bls with
  | [] => .error .stream_underrun
  | x :: xs => .ok (x, { a with bls := xs })

/-- Modelled from the spec: `t.get_oid()`. -/
def TxArgs.get_oid (a : TxArgs) : Except Fault (sobject_t × TxArgs) :=
  match a.oids with
  | [] => .error .stream_underrun
  | x :: xs => .ok (x, { a with oids := xs })

/-- Modelled from the spec: `t.get_cid()`. -/
def TxArgs.get_cid (a : TxArgs) : Except Fault (coll_t × TxArgs) :=
  match a.cids with
  | [] => .error .stream_underrun
  | x :: xs => .ok (x, { a with cids := xs })

/-- Modelled from the spec: `t.get_length()`. -/
def TxArgs.get_length (a : TxArgs) : Except Fault (Nat × TxArgs) :=
  match a.lengths with
  | [] => .error .stream_underrun
  | x :: xs => .ok (x, { a with lengths := xs })

/-- Modelled from the spec: `t.get_attrname()`, a C string. -/
def TxArgs.get_attrname (a : TxArgs) : Except Fault (List Char × TxArgs) :=
  match a.attrnames with
  | [] => .error .stream_underrun
  | x :: xs => .ok (x, { a with attrnames := xs })

/-- Modelled from the spec: `t.get_attrset()`. -/
def TxArgs.get_attrset (a : TxArgs) :
    Except Fault (List (List Char × bufferptr) × TxArgs) :=
  match a.attrsets with
  | [] => .error .stream_underrun
  | x :: xs => .ok (x, { a with attrsets := xs })

/-! ## The POSIX apply engine (`_apply_transaction`) -/

/-- A call of one of the low-level operations, with its arguments, as
`_apply_transaction` makes it.  The argument names are those of the callee. -/
inductive LowCall where
  | _touch (cid : coll_t) (oid : sobject_t)
  | _write (cid : coll_t) (oid : sobject_t) (offset len : Nat) (bl : bufferlist)
  | _zero (cid : coll_t) (oid : sobject_t) (offset len : Nat)
  | trim_from_cache (cid : coll_t) (oid : sobject_t) (offset len : Nat)
  | _truncate (cid : coll_t) (oid : sobject_t) (size : Nat)
  | _remove (cid : coll_t) (oid : sobject_t)
  | _setattr (cid : coll_t) (oid : sobject_t) (name : List Char) (value : List Char)
      (size : Nat)
  | _setattrs (cid : coll_t) (oid : sobject_t) (aset : List (List Char × bufferptr))
  | _rmattr (cid : coll_t) (oid : sobject_t) (name : List Char)
  | _rmattrs (cid : coll_t) (oid : sobject_t)
  | _clone (cid : coll_t) (oldoid newoid : sobject_t)
  | _clone_range (cid : coll_t) (oldoid newoid : sobject_t) (off len : Nat)
  | _create_collection (c : coll_t)
  | _destroy_collection (c : coll_t)
  | _collection_add (c cid : coll_t) (o : sobject_t)
  | _collection_remove (c : coll_t) (o : sobject_t)
  | _collection_setattr (c : coll_t) (name : List Char) (value : List Char) (size : Nat)
  | _collection_rmattr (c : coll_t) (name : List Char)
  | _start_sync
  deriving DecidableEq, Repr

/-- One iteration of the `switch (op)` of `_apply_transaction`: read the arguments of the
op from the streams and make the call.  `run` is the behaviour of the low-level
operations on the world `W`: the new world and the `int` the callee returns.  The
returned `int` is dropped, as in the source, where no case reads it. -/
def _apply_transaction_case {W : Type} (run : LowCall → W → W × Int) (op : OpCode)
    (a : TxArgs) (w : W) : Except Fault (TxArgs × W) :=
  match op with
  | .OP_TOUCH => do
    let (cid, a) ← a.get_cid
    let (oid, a) ← a.get_oid
    pure (a, (run (._touch cid oid) w).1)
  | .OP_WRITE => do
    let (off, a) ← a.get_length
    let (len, a) ← a.get_length
    let (cid, a) ← a.get_cid
    let (oid, a) ← a.get_oid
    let (bl, a) ← a.get_bl
    pure (a, (run (._write cid oid off len bl) w).1)
  | .OP_ZERO => do
    let (off, a) ← a.get_length
    let (len, a) ← a.get_length
    let (cid, a) ← a.get_cid
    let (oid, a) ← a.get_oid
    pure (a, (run (._zero cid oid off len) w).1)
  | .OP_TRIMCACHE => do
    let (off, a) ← a.get_length
    let (len, a) ← a.get_length
    let (cid, a) ← a.get_cid
    let (oid, a) ← a.get_oid
    pure (a, (run (.trim_from_cache cid oid off len) w).1)
  | .OP_TRUNCATE => do
    let (cid, a) ← a.get_cid
    let (oid, a) ← a.get_oid
    let (size, a) ← a.get_length
    pure (a, (run (._truncate cid oid size) w).1)
  | .OP_REMOVE => do
    let (cid, a) ← a.get_cid
    let (oid, a) ← a.get_oid
    pure (a, (run (._remove cid oid) w).1)
  | .OP_SETATTR => do
    let (bl, a) ← a.get_bl
    let (cid, a) ← a.get_cid
    let (oid, a) ← a.get_oid
    let (name, a) ← a.get_attrname
    pure (a, (run (._setattr cid oid name bl.c_str bl.length) w).1)
  | .OP_SETATTRS => do
    let (cid, a) ← a.get_cid
    let (oid, a) ← a.get_oid
    let (aset, a) ← a.get_attrset
    pure (a, (run (._setattrs cid oid aset) w).1)
  | .OP_RMATTR => do
    let (cid, a) ← a.get_cid
    let (oid, a) ← a.get_oid
    let (name, a) ← a.get_attrname
    pure (a, (run (._rmattr cid oid name) w).1)
  | .OP_RMATTRS => do
    let (cid, a) ← a.get_cid
    let (oid, a) ← a.get_oid
    pure (a, (run (._rmattrs cid oid) w).1)
  | .OP_CLONE => do
    let (oid, a) ← a.get_oid
    let (noid, a) ← a.get_oid
    let (cid, a) ← a.get_cid
    pure (a, (run (._clone cid oid noid) w).1)
  | .OP_CLONERANGE => do
    let (oid, a) ← a.get_oid
    let (noid, a) ← a.get_oid
    let (off, a) ← a.get_length
    let (len, a) ← a.get_length
    let (cid, a) ← a.get_cid
    pure (a, (run (._clone_range cid oid noid off len) w).1)
  | .OP_MKCOLL => do
    let (cid, a) ← a.get_cid
    pure (a, (run (._create_collection cid) w).1)
  | .OP_RMCOLL => do
    let (cid, a) ← a.get_cid
    pure (a, (run (._destroy_collection cid) w).1)
  | .OP_COLL_ADD => do
    let (ocid, a) ← a.get_cid
    let (ncid, a) ← a.get_cid
    let (oid, a) ← a.get_oid
    pure (a, (run (._collection_add ocid ncid oid) w).1)
  | .OP_COLL_REMOVE => do
    let (cid, a) ← a.get_cid
    let (oid, a) ← a.get_oid
    pure (a, (run (._collection_remove cid oid) w).1)
  | .OP_COLL_SETATTR => do
    let (bl, a) ← a.get_bl
    let (cid, a) ← a.get_cid
    let (name, a) ← a.get_attrname
    pure (a, (run (._collection_setattr cid name bl.c_str bl.length) w).1)
  | .OP_COLL_RMATTR => do
    let (cid, a) ← a.get_cid
    let (name, a) ← a.get_attrname
    pure (a, (run (._collection_rmattr cid name) w).1)
  | .OP_STARTSYNC => pure (a, (run ._start_sync w).1)
  | .OP_COLL_SETATTRS => .error .bad_op
  | .OP_OTHER _ => .error .bad_op

/-- The `while (t.have_op())` loop of `_apply_transaction`. -/
def _apply_transaction_loop {W : Type} (run : LowCall → W → W × Int) :
    List OpCode → TxArgs → W → Except Fault (TxArgs × W)
  | [], a, w => .ok (a, w)
  | op :: rest, a, w => do
    let (a, w) ← _apply_transaction_case run op a w
    _apply_transaction_loop run rest a w

/-- `FileStore::_apply_transaction(t)`: the world after the loop and the returned value,
the constant of `return 0;  // FIXME count errors`.  The declared return type is
`unsigned`; the caller stores the value in an `int`. -/
def _apply_transaction {W : Type} (run : LowCall → W → W × Int) (t : Transaction) (w : W) :
    Except Fault (Int × W) := do
  let (_, w) ← _apply_transaction_loop run t.ops t.args w
  pure (0, w)

/-! ## `apply_transactions` -/

/-- A completion callback (`Context *`): `none` is the null pointer. -/
abbrev Context := Option Nat

/-- What `apply_transactions` itself does to the journal, the commit-sequence file and
the two callbacks, in the order of the calls. -/
inductive ApplyEv where
  | op_start
  | op_journal_start
  /-- The call `journal_transactions(tls, onjournal, ondisk)`. -/
  | journal_transactions (tls : List Transaction) (onjournal ondisk : Context)
  /-- The call `::pwrite(op_fd, &op_seq, sizeof(op_seq), 0)`. -/
  | pwrite_op_seq
  /-- The statement `delete c`: the callback is destroyed without being run. -/
  | delete_context (c : Context)
  | op_finish
  deriving DecidableEq, Repr

/-- The functions `apply_transactions` calls on the store, as behaviours on the world
`W`.  `_transaction_start` does not read its two arguments (the byte and op totals of
the batch), so the model does not pass them. -/
structure Callees (W : Type) where
  _do_usertrans : List Transaction → W → Except Fault (Int × W)
  _transaction_start : W → Except Fault (Int × W)
  _apply_transaction : Transaction → W → Except Fault (Int × W)
  _transaction_finish : Int → W → W

/-- The loop `for (p = tls.begin(); ...) { r = _apply_transaction(**p); if (r < 0) break; }`
with `r` initially `r0`. -/
def apply_transactions_loop {W : Type} (C : Callees W) :
    List Transaction → Int → W → Except Fault (Int × W)
  | [], r, w => .ok (r, w)
  | t :: rest, _, w => do
    let (r, w) ← C._apply_transaction t w
    if r < 0 then pure (r, w) else apply_transactions_loop C rest r w

/-- `FileStore::apply_transactions(tls, onjournal, ondisk)`: the returned value, the
world and the events.  The declared return type is `unsigned`; every caller stores the
value in an `int`, and converting an `int` to `unsigned` and back is the identity, so the
model returns the `int`. -/
def apply_transactions {W : Type} (C : Callees W) (btrfs_usertrans : Bool)
    (tls : List Transaction) (onjournal ondisk : Context) (w : W) :
    Except Fault (Int × W × List ApplyEv) := do
  let tail (r : Int) : List ApplyEv :=
    if 0 ≤ r then [.op_journal_start, .journal_transactions tls onjournal ondisk,
      .pwrite_op_seq, .op_finish]
    else [.op_journal_start, .delete_context onjournal, .delete_context ondisk, .op_finish]
  if btrfs_usertrans then
    let (r, w) ← C._do_usertrans tls w
    pure (r, w, .op_start :: tail r)
  else
    let (id, w) ← C._transaction_start w
    if id < 0 then
      pure (id, w, [.op_start, .op_journal_start, .op_finish])
    else
      let (r, w) ← apply_transactions_loop C tls 0 w
      let w := C._transaction_finish id w
      pure (r, w, .op_start :: tail r)

/-! ## The UserTrans marshaller (`_do_usertrans`) -/

/-- The flags of `open(2)` that the source uses, as a set; `O_RDONLY` is the empty set
and `|` is the union. -/
structure OpenFlags where
  O_WRONLY : Bool := false
  O_CREAT : Bool := false
  O_TRUNC : Bool := false
  deriving DecidableEq, Repr

/-- The access mode `O_RDONLY`. -/
def O_RDONLY : OpenFlags := {}

/-- The opcodes `BTRFS_IOC_UT_OP_*` of a UserTrans op record. -/
inductive UtOpcode where
  | OPEN | CLOSE | PWRITE | UNLINK | LINK | MKDIR | RMDIR | TRUNCATE | SETXATTR
  | REMOVEXATTR | CLONERANGE
  deriving DecidableEq, Repr

/-- One cell of `args[5]`: a number, or the address of a string or of a byte buffer,
represented by what it points to, or a set of open flags. -/
inductive UtArg where
  | num (n : Nat)
  | str (s : List Char)
  | buf (b : List Char)
  | oflags (f : OpenFlags)
  deriving DecidableEq, Repr

/-- The flag bits `BTRFS_IOC_UT_OP_FLAG_*` of a record, as a set. -/
structure UtFlags where
  FD_SAVE : Bool := false
  FD_ARG0 : Bool := false
  FD_ARG1 : Bool := false
  FD_ARG2 : Bool := false
  FD_ARG3 : Bool := false
  FD_ARG4 : Bool := false
  deriving DecidableEq, Repr

/-- A record `btrfs_ioctl_usertrans_op`.  The defaults are the zeros that
`memset(&op, 0, sizeof(op))` leaves in the fields a case does not assign. -/
structure btrfs_ioctl_usertrans_op where
  op : UtOpcode
  args0 : UtArg := .num 0
  args1 : UtArg := .num 0
  args2 : UtArg := .num 0
  args3 : UtArg := .num 0
  args4 : UtArg := .num 0
  flags : UtFlags := {}
  fd_num : Nat := 0
  deriving DecidableEq, Repr

/-- The text of `sprintf(aname, "user.ceph.%s", name)`. -/
def usertrans_aname (name : List Char) : List Char :=
  "user.ceph.".toList ++ c_str name

/-- The PWRITE loop of the WRITE/ZERO case: one record per buffer, each at the running
offset `off`, which then advances by the length of the buffer (`off += op.args[2]` on
the `__u64` `off`). -/
def usertrans_pwrites : List bufferptr → Nat → List btrfs_ioctl_usertrans_op
  | [], _ => []
  | b :: rest, off =>
    { op := .PWRITE, args0 := .num 0, args1 := .buf b, args2 := .num b.length,
      args3 := .num off, flags := { FD_ARG0 := true } } ::
      usertrans_pwrites rest ((off + b.length) % 2 ^ 64)

/-- One iteration of the `switch (opcode)` of `_do_usertrans`: read the arguments from
the streams and push the records onto `ops`; STARTSYNC sets `start_sync`.  `getattrs fn`
is the key list of the map that `_getattrs(fn, aset)` fills.  A cell that holds an
address is represented by the bytes at that address when the record is pushed.  In the
ZERO case the zeroed buffer belongs to the local `bl` of the case block, which is
destroyed at the end of the block, before the ioctl reads the vector: the bytes of that
record are those at the time of the push only. -/
def _do_usertrans_case (K : SnapSentinels) (basedir : List Char)
    (getattrs : List Char → List (List Char)) (opcode : OpCode) (a : TxArgs)
    (ops : List btrfs_ioctl_usertrans_op) (start_sync : Bool) :
    Except Fault (TxArgs × List btrfs_ioctl_usertrans_op × Bool) :=
  match opcode with
  | .OP_TOUCH => do
    let (cid, a) ← a.get_cid
    let (oid, a) ← a.get_oid
    let fn := get_coname K basedir cid oid
    pure (a, ops ++ [
      { op := .OPEN, args0 := .str fn, args1 := .oflags { O_WRONLY := true, O_CREAT := true },
        args2 := .num 0o644, flags := { FD_SAVE := true }, fd_num := 0 },
      { op := .CLOSE, args0 := .num 0, flags := { FD_ARG0 := true } }], start_sync)
  | .OP_WRITE => do
    let (off, a) ← a.get_length
    let (len, a) ← a.get_length
    let (bl, a) ← a.get_bl
    let (cid, a) ← a.get_cid
    let (oid, a) ← a.get_oid
    let fn := get_coname K basedir cid oid
    if len ≠ bufferlist.length bl then .error .length_mismatch
    else pure (a, ops ++ [
      { op := .OPEN, args0 := .str fn, args1 := .oflags { O_WRONLY := true, O_CREAT := true },
        args2 := .num 0o644, flags := { FD_SAVE := true }, fd_num := 0 }] ++
      usertrans_pwrites bl off ++
      [{ op := .CLOSE, args0 := .num 0, flags := { FD_ARG0 := true } }], start_sync)
  | .OP_ZERO => do
    let (off, a) ← a.get_length
    let (len, a) ← a.get_length
    let bl : bufferlist := [List.replicate len (Char.ofNat 0)]
    let (cid, a) ← a.get_cid
    let (oid, a) ← a.get_oid
    let fn := get_coname K basedir cid oid
    if len ≠ bufferlist.length bl then .error .length_mismatch
    else pure (a, ops ++ [
      { op := .OPEN, args0 := .str fn, args1 := .oflags { O_WRONLY := true, O_CREAT := true },
        args2 := .num 0o644, flags := { FD_SAVE := true }, fd_num := 0 }] ++
      usertrans_pwrites bl off ++
      [{ op := .CLOSE, args0 := .num 0, flags := { FD_ARG0 := true } }], start_sync)
  | .OP_TRUNCATE => do
    let (cid, a) ← a.get_cid
    let (oid, a) ← a.get_oid
    let fn := get_coname K basedir cid oid
    let (size, a) ← a.get_length
    pure (a, ops ++ [{ op := .TRUNCATE, args0 := .str fn, args1 := .num size }], start_sync)
  | .OP_COLL_REMOVE | .OP_REMOVE => do
    let (cid, a) ← a.get_cid
    let (oid, a) ← a.get_oid
    let fn := get_coname K basedir cid oid
    pure (a, ops ++ [{ op := .UNLINK, args0 := .str fn }], start_sync)
  | .OP_SETATTR => do
    let (bl, a) ← a.get_bl
    let (cid, a) ← a.get_cid
    let (oid, a) ← a.get_oid
    let fn := get_coname K basedir cid oid
    let (name, a) ← a.get_attrname
    pure (a, ops ++ [
      { op := .SETXATTR, args0 := .str fn, args1 := .str (usertrans_aname name),
        args2 := .buf bl.c_str, args3 := .num bl.length, args4 := .num 0 }], start_sync)
  | .OP_COLL_SETATTR => do
    let (bl, a) ← a.get_bl
    let (cid, a) ← a.get_cid
    let fn := get_cdir basedir cid
    let (name, a) ← a.get_attrname
    pure (a, ops ++ [
      { op := .SETXATTR, args0 := .str fn, args1 := .str (usertrans_aname name),
        args2 := .buf bl.c_str, args3 := .num bl.length, args4 := .num 0 }], start_sync)
  | .OP_SETATTRS => do
    let (cid, a) ← a.get_cid
    let (oid, a) ← a.get_oid
    let fn := get_coname K basedir cid oid
    let (aset, a) ← a.get_attrset
    pure (a, ops ++ aset.map (fun p =>
      { op := .SETXATTR, args0 := .str fn, args1 := .str (usertrans_aname p.1),
        args2 := .buf p.2, args3 := .num p.2.length, args4 := .num 0 }), start_sync)
  | .OP_COLL_SETATTRS => do
    let (cid, a) ← a.get_cid
    let fn := get_cdir basedir cid
    let (aset, a) ← a.get_attrset
    pure (a, ops ++ aset.map (fun p =>
      { op := .SETXATTR, args0 := .str fn, args1 := .str (usertrans_aname p.1),
        args2 := .buf p.2, args3 := .num p.2.length, args4 := .num 0 }), start_sync)
  | .OP_RMATTR => do
    let (cid, a) ← a.get_cid
    let (oid, a) ← a.get_oid
    let fn := get_coname K basedir cid oid
    let (name, a) ← a.get_attrname
    pure (a, ops ++ [
      { op := .REMOVEXATTR, args0 := .str fn, args1 := .str (usertrans_aname name) }],
      start_sync)
  | .OP_COLL_RMATTR => do
    let (cid, a) ← a.get_cid
    let fn := get_cdir basedir cid
    let (name, a) ← a.get_attrname
    pure (a, ops ++ [
      { op := .REMOVEXATTR, args0 := .str fn, args1 := .str (usertrans_aname name) }],
      start_sync)
  | .OP_RMATTRS => do
    let (cid, a) ← a.get_cid
    let (oid, a) ← a.get_oid
    let fn := get_coname K basedir cid oid
    pure (a, ops ++ (getattrs fn).map (fun name =>
      { op := .REMOVEXATTR, args0 := .str fn, args1 := .str (usertrans_aname name) }),
      start_sync)
  | .OP_CLONE => do
    let (cid, a) ← a.get_cid
    let (oid, a) ← a.get_oid
    let fn := get_coname K basedir cid oid
    let (oid2, a) ← a.get_oid
    let fn2 := get_coname K basedir cid oid2
    pure (a, ops ++ [
      { op := .OPEN, args0 := .str fn, args1 := .oflags O_RDONLY, fd_num := 0 },
      { op := .OPEN, args0 := .str fn2,
        args1 := .oflags { O_WRONLY := true, O_CREAT := true, O_TRUNC := true },
        args2 := .num 0o644, fd_num := 1 },
      { op := .CLONERANGE, args0 := .num 1, args1 := .num 0, args2 := .num 0,
        args3 := .num 0, flags := { FD_ARG0 := true, FD_ARG1 := true } },
      { op := .CLOSE, args0 := .num 0, flags := { FD_ARG0 := true } },
      { op := .CLOSE, args0 := .num 1, flags := { FD_ARG0 := true } }], start_sync)
  | .OP_CLONERANGE => do
    let (cid, a) ← a.get_cid
    let (oid, a) ← a.get_oid
    let fn := get_coname K basedir cid oid
    let (oid2, a) ← a.get_oid
    let fn2 := get_coname K basedir cid oid2
    let (off, a) ← a.get_length
    let (len, a) ← a.get_length
    pure (a, ops ++ [
      { op := .OPEN, args0 := .str fn, args1 := .oflags O_RDONLY, fd_num := 0 },
      { op := .OPEN, args0 := .str fn2,
        args1 := .oflags { O_WRONLY := true, O_CREAT := true, O_TRUNC := true },
        args2 := .num 0o644, fd_num := 1 },
      { op := .CLONERANGE, args0 := .num 1, args1 := .num 0, args2 := .num off,
        args3 := .num len, flags := { FD_ARG0 := true, FD_ARG1 := true } },
      { op := .CLOSE, args0 := .num 0, flags := { FD_ARG0 := true } },
      { op := .CLOSE, args0 := .num 1, flags := { FD_ARG0 := true } }], start_sync)
  | .OP_MKCOLL => do
    let (cid, a) ← a.get_cid
    let fn := get_cdir basedir cid
    pure (a, ops ++ [{ op := .MKDIR, args0 := .str fn, args1 := .num 0o755 }], start_sync)
  | .OP_RMCOLL => do
    let (cid, a) ← a.get_cid
    let fn := get_cdir basedir cid
    pure (a, ops ++ [{ op := .RMDIR, args0 := .str fn }], start_sync)
  | .OP_COLL_ADD => do
    let (oid, a) ← a.get_oid
    let (cid, a) ← a.get_cid
    let fn := get_coname K basedir cid oid
    let (cid2, a) ← a.get_cid
    let nfn := get_coname K basedir cid2 oid
    pure (a, ops ++ [{ op := .LINK, args0 := .str fn, args1 := .str nfn }], start_sync)
  | .OP_STARTSYNC => pure (a, ops, true)
  | .OP_TRIMCACHE => .error .bad_op
  | .OP_OTHER _ => .error .bad_op

/-- The `while (t->have_op())` loop of `_do_usertrans` over one Transaction. -/
def _do_usertrans_ops (K : SnapSentinels) (basedir : List Char)
    (getattrs : List Char → List (List Char)) :
    List OpCode → TxArgs → List btrfs_ioctl_usertrans_op → Bool →
      Except Fault (List btrfs_ioctl_usertrans_op × Bool)
  | [], _, ops, start_sync => .ok (ops, start_sync)
  | opcode :: rest, a, ops, start_sync => do
    let (a, ops, start_sync) ← _do_usertrans_case K basedir getattrs opcode a ops start_sync
    _do_usertrans_ops K basedir getattrs rest a ops start_sync

/-- The `for (p = ls.begin(); p != ls.end(); p++)` loop of `_do_usertrans`: the vector
`ops` and the flag `start_sync` after the Transactions of `ls`, starting from the given
values.  (The counter `ut.data_bytes` is not modelled.) -/
def _do_usertrans_loop (K : SnapSentinels) (basedir : List Char)
    (getattrs : List Char → List (List Char)) :
    List Transaction → List btrfs_ioctl_usertrans_op → Bool →
      Except Fault (List btrfs_ioctl_usertrans_op × Bool)
  | [], ops, start_sync => .ok (ops, start_sync)
  | t :: rest, ops, start_sync => do
    let (ops, start_sync) ← _do_usertrans_ops K basedir getattrs t.ops t.args ops start_sync
    _do_usertrans_loop K basedir getattrs rest ops start_sync

/-- The marshalling part of `_do_usertrans(ls)`: the vector `ops` handed to the ioctl
and the flag `start_sync`. -/
def _do_usertrans_marshal (K : SnapSentinels) (basedir : List Char)
    (getattrs : List Char → List (List Char)) (ls : List Transaction) :
    Except Fault (List btrfs_ioctl_usertrans_op × Bool) :=
  _do_usertrans_loop K basedir getattrs ls [] false

/-- `FileStore::_do_usertrans(ls)`.  `ioctl ops` is what
`::ioctl(op_fd, BTRFS_IOC_USERTRANS, &ut)` returns for the vector `ops` together with
the `ut.ops_completed` it leaves.  The result is the returned `int`, the vector, and
whether `_start_sync()` was called. -/
def _do_usertrans (K : SnapSentinels) (basedir : List Char)
    (getattrs : List Char → List (List Char))
    (ioctl : List btrfs_ioctl_usertrans_op → Int × Nat) (ls : List Transaction) :
    Except Fault (Int × List btrfs_ioctl_usertrans_op × Bool) := do
  let (ops, start_sync) ← _do_usertrans_marshal K basedir getattrs ls
  let (r, ops_completed) := ioctl ops
  if 0 ≤ r then
    if ops_completed = ops.length then pure (0, ops, start_sync)
    else .error .ops_incomplete
  else pure (r, ops, start_sync)

/-! ## Low-level operations -/

/-- What `_collection_add` does: with `fake_collections` it hands over to the in-memory
shim, otherwise it makes the one system call `::link(of, cof)`, whose first argument is
the existing path and whose second is the new path, as for link(2). -/
inductive CollectionAddCall where
  | fake (c : coll_t) (o : sobject_t)
  | link (existing new : List Char)
  deriving DecidableEq, Repr

/-- `FileStore::_collection_add(c, cid, o)`: `cof` is the name of `o` in `c`, `of` the
name of `o` in `cid`, and the call is `::link(of, cof)`. -/
def _collection_add (K : SnapSentinels) (basedir : List Char) (fake_collections : Bool)
    (c cid : coll_t) (o : sobject_t) : CollectionAddCall :=
  if fake_collections then .fake c o
  else
    let cof := get_coname K basedir c o
    let of := get_coname K basedir cid o
    .link of cof

/-- The results of the system calls `_clone` makes.  An `errno_*` field is the value of
`errno` after the call when the call failed. -/
structure CloneEnv where
  /-- The store's `btrfs` level. -/
  btrfs : Nat
  /-- `::open(ofn, O_RDONLY)`. -/
  open_old : Int
  errno_open_old : Int
  /-- `::open(nfn, O_CREAT|O_TRUNC|O_WRONLY, 0644)`. -/
  open_new : Int
  errno_open_new : Int
  /-- `::ioctl(n, BTRFS_IOC_CLONE, o)`. -/
  ioctl_clone : Int
  /-- `_do_clone_range(o, n, 0, st.st_size)`. -/
  do_clone_range : Int
  /-- The `errno` left by the clone or the copy. -/
  errno_clone : Int
  deriving DecidableEq, Repr

/-- The local `r` and the returned value of `_clone`. -/
structure CloneResult where
  /-- The value of `r` at the final `dout(10) << "clone ... = " << r`. -/
  r : Int
  /-- The value of the `return` statement. -/
  ret : Int
  deriving DecidableEq, Repr

/-- `FileStore::_clone(cid, oldoid, newoid)` (not DARWIN).  `r` receives `-errno` on each
failing path; the function ends in `return 0;`. -/
def _clone (e : CloneEnv) : CloneResult :=
  let r : Int :=
    if e.open_old < 0 then -e.errno_open_old
    else if e.open_new < 0 then -e.errno_open_new
    else
      let r := if e.btrfs ≠ 0 then e.ioctl_clone else e.do_clone_range
      if r < 0 then -e.errno_clone else r
  { r := r, ret := 0 }

/-- The conversion of a value to `int`: 32 bits, two's complement. -/
def to_int (x : Int) : Int := (x + 2 ^ 31) % 2 ^ 32 - 2 ^ 31

/-- The loop over `bl.buffers()` in `_write`, with the `::write` calls it makes.
`write_res i` is the result of the `i`-th call; it is stored in the `int r`, and the
`int did` accumulates the positive `r`.  `pos` is the file position of the descriptor: a
call that returns a positive count has written that many bytes and moved the position by
it.  The result is `did` and the list of the calls, each with the position of the
descriptor and the buffer handed over. -/
def _write_loop (write_res : Nat → Int) :
    List bufferptr → Nat → Nat → Int → Int × List (Nat × bufferptr)
  | [], _, _, did => (did, [])
  | b :: rest, i, pos, did =>
    let res := write_res i
    let r := to_int res
    let out := _write_loop write_res rest (i + 1) (if 0 < res then pos + res.toNat else pos)
      (if 0 < r then to_int (did + r) else did)
    (out.1, (pos, b) :: out.2)

/-- `FileStore::_write(cid, oid, offset, len, bl)` with the `::write` calls it makes.
`open_fd` is the result of `::open(fn, O_WRONLY|O_CREAT, 0644)` and `open_errno` the
`errno` it leaves on failure, `actual` the result of `::lseek64(fd, offset, SEEK_SET)`,
which is also the position of the descriptor when the loop starts.  The result is the
returned `int` and the `::write` calls. -/
def _write_calls (open_fd open_errno : Int) (actual : Nat) (write_res : Nat → Int)
    (offset : Nat) (bl : bufferlist) : Except Fault (Int × List (Nat × bufferptr)) :=
  if open_fd < 0 then .ok (-open_errno, [])
  else if actual ≠ offset then .error .seek_mismatch
  else .ok (_write_loop write_res bl 0 actual 0)

/-- `FileStore::_write(cid, oid, offset, len, bl)`: the returned `int`. -/
def _write (open_fd open_errno : Int) (actual : Nat) (write_res : Nat → Int) (offset : Nat)
    (bl : bufferlist) : Except Fault Int :=
  (_write_calls open_fd open_errno actual write_res offset bl).map Prod.fst

/-! ## Concrete worlds for instances -/

/-- A world that is the log of the low-level calls made so far; every call succeeds
(returns 0). -/
def log_run : LowCall → List LowCall → List LowCall × Int :=
  fun c w => (w ++ [c], 0)

/-- A world that is the log of the low-level calls made so far, in which `_remove`
fails with `-ENOENT` (-2) and every other call returns 0. -/
def failing_remove_run : LowCall → List LowCall → List LowCall × Int :=
  fun c w => (w ++ [c], match c with | ._remove _ _ => -2 | _ => 0)

/-- The callees of `apply_transactions` on a store without btrfs (`btrfs == 0`,
the setting in which `btrfs_usertrans` is false): `_transaction_start` returns 0 at its
first test and `_transaction_finish` returns at once.  `_do_usertrans` is not called in
that setting; the field holds the -1 of the unsupported ioctl. -/
def posix_callees {W : Type} (run : LowCall → W → W × Int) : Callees W :=
  { _do_usertrans := fun _ w => .ok (-1, w)
    _transaction_start := fun w => .ok (0, w)
    _apply_transaction := _apply_transaction run
    _transaction_finish := fun _ w => w }

/-- The collection `c1` of the instances. -/
def coll_c1 : coll_t := { token := "c1".toList }

/-- The collection `c2` of the instances. -/
def coll_c2 : coll_t := { token := "c2".toList }

/-- The head object `x` of the instances. -/
def obj_x : sobject_t := { name := "x".toList, snap := ceph_sentinels.CEPH_NOSNAP }

/-- The head object `y` of the instances. -/
def obj_y : sobject_t := { name := "y".toList, snap := ceph_sentinels.CEPH_NOSNAP }

/-- The Transaction `REMOVE(c1, x); TOUCH(c1, y)`. -/
def tx_remove_touch : Transaction :=
  { ops := [.OP_REMOVE, .OP_TOUCH], args := { cids := [coll_c1, coll_c1], oids := [obj_x, obj_y] } }

/-- The Transaction `COLL_ADD` with the collection ids `c1`, `c2` (in this order) and the
object `x`. -/
def tx_coll_add : Transaction :=
  { ops := [.OP_COLL_ADD], args := { cids := [coll_c1, coll_c2], oids := [obj_x] } }

/-- The Transaction `TRIMCACHE(c1, x, 0, 10); TOUCH(c1, y)`. -/
def tx_trimcache_touch : Transaction :=
  { ops := [.OP_TRIMCACHE, .OP_TOUCH],
    args := { cids := [coll_c1, coll_c1], oids := [obj_x, obj_y], lengths := [0, 10] } }


/-! ## ZERO and CLONE -/

/-- `FileStore::_zero(cid, oid, offset, len)`: the call of `_write` it makes.
`fresh len` is the content of the buffer that `bufferptr bp(len)` allocates; `_zero`
pushes that buffer as it is (it does not call `bp.zero()`, which the ZERO case of
`_do_usertrans` does). -/
def _zero (fresh : Nat → bufferptr) (cid : coll_t) (oid : sobject_t) (offset len : Nat) :
    LowCall :=
  ._write cid oid offset len [fresh len]

/-- An allocator whose fresh buffers hold the bytes `x` of an earlier use. -/
def fresh_dirty : Nat → bufferptr := fun n => List.replicate n 'x'

/-- The Transaction `ZERO(c1, x, off = 8, len = 4)`. -/
def tx_zero : Transaction :=
  { ops := [.OP_ZERO], args := { cids := [coll_c1], oids := [obj_x], lengths := [8, 4] } }

/-- The Transaction `CLONE(c1, x, y)`. -/
def tx_clone : Transaction :=
  { ops := [.OP_CLONE], args := { cids := [coll_c1], oids := [obj_x, obj_y] } }

/-! ## Xattr adapter and attributes -/

/-- The errno `ENOENT` of Linux. -/
def ENOENT : Int := 2

/-- The errno `ERANGE` of Linux. -/
def ERANGE : Int := 34

/-- The errno `ENODATA` of Linux. -/
def ENODATA : Int := 61

/-- The extended attributes of one file, `(name, value)` in the order in which
`listxattr` reports them. -/
abbrev XattrList := List (List Char × List Char)

/-- The name list that `listxattr` produces: every name followed by a NUL. -/
def xattr_names_buf (xs : XattrList) : List Char :=
  (xs.map (fun p => p.1 ++ [Char.ofNat 0])).flatten

/-- `do_listxattr(fn, names, len)` on a file whose attributes are `xs` (`none`: the path
does not exist): the returned `int` and the bytes stored in `names`.  With `len = 0` the
call reports the size of the list; a list that does not fit `len` bytes gives `-ERANGE`. -/
def do_listxattr (xs : Option XattrList) (len : Nat) : Int × List Char :=
  match xs with
  | none => (-ENOENT, [])
  | some xs =>
    if len = 0 then ((xattr_names_buf xs).length, [])
    else if (xattr_names_buf xs).length ≤ len then
      ((xattr_names_buf xs).length, xattr_names_buf xs)
    else (-ERANGE, [])

/-- `do_getxattr(fn, name, val, size)`: the returned `int` and the bytes stored in `val`.
With `size = 0` the call reports the size of the value. -/
def do_getxattr (xs : Option XattrList) (name : List Char) (size : Nat) : Int × List Char :=
  match xs with
  | none => (-ENOENT, [])
  | some xs =>
    match xs.lookup (c_str name) with
    | none => (-ENODATA, [])
    | some v =>
      if size = 0 then (v.length, [])
      else if v.length ≤ size then (v.length, v)
      else (-ERANGE, [])

/-- `do_setxattr(fn, name, val, size)`: the returned `int` and the attributes of the file
afterwards; an existing attribute is replaced in place, a new one is added at the end. -/
def do_setxattr (xs : Option XattrList) (name : List Char) (val : List Char) (size : Nat) :
    Int × Option XattrList :=
  match xs with
  | none => (-ENOENT, none)
  | some xs =>
    if (xs.lookup (c_str name)).isSome then
      (0, some (xs.map (fun p => if p.1 = c_str name then (p.1, val.take size) else p)))
    else (0, some (xs ++ [(c_str name, val.take size)]))

/-- `do_removexattr(fn, name)`: the returned `int` and the attributes afterwards. -/
def do_removexattr (xs : Option XattrList) (name : List Char) : Int × Option XattrList :=
  match xs with
  | none => (-ENOENT, none)
  | some xs =>
    if (xs.lookup (c_str name)).isSome then
      (0, some (xs.filter (fun p => p.1 ≠ c_str name)))
    else (-ENODATA, some xs)

/-- `get_attrname(name, buf)`: the text of `sprintf(buf, "user.ceph.%s", name)`. -/
def get_attrname (name : List Char) : List Char :=
  "user.ceph.".toList ++ c_str name

/-- `parse_attrname(&name)`: `some rest` when `strncmp(*name, "user.ceph.", 10) == 0`,
with `rest` the string at `*name + 10`; `none` when it returns false. -/
def parse_attrname (name : List Char) : Option (List Char) :=
  if (c_str name).take 10 = "user.ceph.".toList then some ((c_str name).drop 10) else none

/-- The strings that the loop `while (name < end) { ...; name += strlen(name) + 1; }` of
`_getattrs` visits in a buffer: `cur` holds, reversed, the bytes of the string under
way.  A string without a closing NUL at the end of the buffer is closed by the
`name[len] = 0` of the source; an empty rest is not visited. -/
def _getattrs_names : List Char → List Char → List (List Char)
  | [], cur => if cur = [] then [] else [cur.reverse]
  | c :: cs, cur =>
    if c = Char.ofNat 0 then cur.reverse :: _getattrs_names cs []
    else _getattrs_names cs (c :: cur)

/-- `FileStore::_getattr(fn, name, bp)`: the returned `int` and the buffer stored in
`bp` (`none`: `bp` is left as it was).  When the read that follows the size query fails,
`bp` is a fresh buffer of unspecified content; the model stores the empty buffer. -/
def _getattr (xs : Option XattrList) (name : List Char) : Int × Option bufferptr :=
  let (l, val) := do_getxattr xs name 100
  if 0 ≤ l then (l, some val)
  else if l = -ERANGE then
    let (l, _) := do_getxattr xs name 0
    if l ≠ 0 then
      let (l2, val) := do_getxattr xs name l.toNat
      (l2, some val)
    else (l, none)
  else (l, none)

/-- The map `aset` of `_getattrs`, as the list of its `(key, value)` entries; the
iteration order of the map is not modelled.  `map_assign m k v` is `m[k] = v`. -/
def map_assign (m : List (List Char × bufferptr)) (k : List Char) (v : bufferptr) :
    List (List Char × bufferptr) :=
  if (m.lookup k).isSome then m.map (fun p => if p.1 = k then (k, v) else p)
  else m ++ [(k, v)]

/-- The body of the loop of `_getattrs` for the strings of the name buffer: for a string
with the prefix, `set_name` is the rest, or with `user_only` the rest after a leading
`_`; a non-empty `set_name` that may be read is looked up into `aset[set_name]` (an entry
the map creates, empty, when it is new), and an error of `_getattr` ends the function
with that error. -/
def _getattrs_loop (xs : Option XattrList) (user_only : Bool) :
    List (List Char) → List (List Char × bufferptr) → Int × List (List Char × bufferptr)
  | [], aset => (0, aset)
  | attrname :: rest, aset =>
    match parse_attrname attrname with
    | none => _getattrs_loop xs user_only rest aset
    | some name =>
      let set_name := if user_only then (if name.head? = some '_' then name.tail else name)
        else name
      let can_get := if user_only then decide (name.head? = some '_') else true
      if set_name ≠ [] ∧ can_get = true then
        let (r, bp) := _getattr xs attrname
        let aset := match bp with
          | some v => map_assign aset set_name v
          | none => if (aset.lookup set_name).isSome then aset else aset ++ [(set_name, [])]
        if r < 0 then (r, aset) else _getattrs_loop xs user_only rest aset
      else _getattrs_loop xs user_only rest aset

/-- `FileStore::_getattrs(fn, aset, user_only)` on a file whose attributes are `xs`,
with `aset` the content of the map on entry: the returned `int` and the map on return. -/
def _getattrs (xs : Option XattrList) (user_only : Bool)
    (aset : List (List Char × bufferptr)) : Int × List (List Char × bufferptr) :=
  let (len, names1) := do_listxattr xs 99
  if len = -ERANGE then
    let (len, _) := do_listxattr xs 0
    if len < 0 then (len, aset)
    else
      let (len, names2) := do_listxattr xs len.toNat
      if len < 0 then (len, aset)
      else _getattrs_loop xs user_only (_getattrs_names (names2.take len.toNat) []) aset
  else if len < 0 then (len, aset)
  else _getattrs_loop xs user_only (_getattrs_names (names1.take len.toNat) []) aset

/-- The entry that an attribute `(name, value)` of the file contributes to the result of
`_getattrs`, in the words of the amended claims: with `user_only` false, an attribute
whose name is the prefix followed by a non-empty `key` gives `(key, value)`; with
`user_only` true, an attribute whose name is the prefix, `_` and a non-empty `key` gives
`(key, value)`; every other attribute gives nothing. -/
def getattrs_entry (user_only : Bool) (p : List Char × List Char) :
    Option (List Char × bufferptr) :=
  if p.1.take 10 = "user.ceph.".toList then
    if user_only then
      (if (p.1.drop 10).head? = some '_' ∧ (p.1.drop 11) ≠ [] then some (p.1.drop 11, p.2)
       else none)
    else (if p.1.drop 10 ≠ [] then some (p.1.drop 10, p.2) else none)
  else none

/-- The attribute state of the file system: for every path the attributes of the file,
`none` when the path does not exist. -/
abbrev XattrFs := List Char → Option XattrList

/-- The state in which the file `path` has the attributes `x` and every other path is as
in `fs`. -/
def XattrFs.update (fs : XattrFs) (path : List Char) (x : Option XattrList) : XattrFs :=
  fun p => if p = path then x else fs p

/-- `FileStore::getattrs(cid, oid, aset, user_only)` with `fake_attrs` off. -/
def getattrs (K : SnapSentinels) (basedir : List Char) (fs : XattrFs) (cid : coll_t)
    (oid : sobject_t) (user_only : Bool) (aset : List (List Char × bufferptr)) :
    Int × List (List Char × bufferptr) :=
  _getattrs (fs (get_coname K basedir cid oid)) user_only aset

/-- `FileStore::_setattr(cid, oid, name, value, size)` with `fake_attrs` off: the
returned `int` and the state afterwards. -/
def _setattr (K : SnapSentinels) (basedir : List Char) (fs : XattrFs) (cid : coll_t)
    (oid : sobject_t) (name : List Char) (value : List Char) (size : Nat) : Int × XattrFs :=
  let fn := get_coname K basedir cid oid
  let (r, x) := do_setxattr (fs fn) (get_attrname name) value size
  (r, fs.update fn x)

/-- `FileStore::_rmattr(cid, oid, name)` with `fake_attrs` off. -/
def _rmattr (K : SnapSentinels) (basedir : List Char) (fs : XattrFs) (cid : coll_t)
    (oid : sobject_t) (name : List Char) : Int × XattrFs :=
  let fn := get_coname K basedir cid oid
  let (r, x) := do_removexattr (fs fn) (get_attrname name)
  (r, fs.update fn x)

/-- The loop of `_rmattrs` over the entries of `aset`: `do_removexattr` of each prefixed
name, stopping at the first negative result; `r` is the result so far. -/
def _rmattrs_loop (fn : List Char) : List (List Char × bufferptr) → Int → XattrFs →
    Int × XattrFs
  | [], r, fs => (r, fs)
  | p :: rest, _, fs =>
    let (r, x) := do_removexattr (fs fn) (get_attrname p.1)
    if r < 0 then (r, fs.update fn x) else _rmattrs_loop fn rest r (fs.update fn x)

/-- `FileStore::_rmattrs(cid, oid)`: `_getattrs(fn, aset)` (with the default
`user_only = false`) on the state at the time of the call, then the removal loop. -/
def _rmattrs (K : SnapSentinels) (basedir : List Char) (fs : XattrFs) (cid : coll_t)
    (oid : sobject_t) : Int × XattrFs :=
  let fn := get_coname K basedir cid oid
  let (r, aset) := _getattrs (fs fn) false []
  if 0 ≤ r then _rmattrs_loop fn aset r fs else (r, fs)

/-- The low-level attribute operations of objects on the attribute state; the calls that
are not modelled here leave the state as it is and return 0. -/
def xattr_run (K : SnapSentinels) (basedir : List Char) : LowCall → XattrFs → XattrFs × Int
  | ._setattr cid oid name value size, fs =>
    ((_setattr K basedir fs cid oid name value size).2,
      (_setattr K basedir fs cid oid name value size).1)
  | ._rmattr cid oid name, fs =>
    ((_rmattr K basedir fs cid oid name).2, (_rmattr K basedir fs cid oid name).1)
  | ._rmattrs cid oid, fs =>
    ((_rmattrs K basedir fs cid oid).2, (_rmattrs K basedir fs cid oid).1)
  | _, fs => (fs, 0)

/-- Modelled from the spec: the kernel's application of a UserTrans op vector, for
vectors of SETXATTR and REMOVEXATTR records ("the kernel applies the whole vector", each
record with the arguments of the system call of its name).  `none` when the vector holds
another record or a call fails. -/
def usertrans_apply_xattr : XattrFs → List btrfs_ioctl_usertrans_op → Option XattrFs
  | fs, [] => some fs
  | fs, op :: rest =>
    match op.op, op.args0, op.args1, op.args2, op.args3 with
    | .SETXATTR, .str path, .str name, .buf val, .num size =>
      if (do_setxattr (fs path) name val size).1 < 0 then none
      else usertrans_apply_xattr (fs.update path (do_setxattr (fs path) name val size).2) rest
    | .REMOVEXATTR, .str path, .str name, _, _ =>
      if (do_removexattr (fs path) name).1 < 0 then none
      else usertrans_apply_xattr (fs.update path (do_removexattr (fs path) name).2) rest
    | _, _, _, _, _ => none

/-- The state in which the object `x` of `c1` exists on the store `/d` without
attributes, and nothing else exists. -/
def fs_x_no_attrs : XattrFs :=
  fun p => if p = "/d/c1/x_head".toList then some [] else none

/-- The Transaction `SETATTR(c1, x, "k", "v"); RMATTRS(c1, x)`. -/
def tx_setattr_rmattrs : Transaction :=
  { ops := [.OP_SETATTR, .OP_RMATTRS],
    args := { cids := [coll_c1, coll_c1], oids := [obj_x, obj_x], bls := [["v".toList]],
              attrnames := ["k".toList] } }

/-- The attributes `user.ceph.foo`, `user.ceph._bar` and `user.other` of the instances. -/
def xattrs_foo_bar : XattrList :=
  [("user.ceph.foo".toList, "1".toList), ("user.ceph._bar".toList, "2".toList),
   ("user.other".toList, "3".toList)]

/-! ## Listing a collection -/

/-- A directory entry as `readdir_r` returns it: the inode number and the name. -/
structure dirent where
  d_ino : Nat
  d_name : List Char
  deriving DecidableEq, Repr

/-- The scan loop of `collection_list` over the entries that `readdir_r` returns, in
order: an entry whose name begins with `.` is skipped, an entry that `parse_object`
accepts is pushed onto `inolist` with its inode number.  The result is `inolist` in the
order of the `push_back` calls. -/
def collection_list_scan (K : SnapSentinels) : List dirent →
    Except Fault (List (Nat × sobject_t))
  | [] => .ok []
  | de :: rest =>
    if is_dot_entry de.d_name then collection_list_scan K rest
    else
      match parse_object K de.d_name with
      | .error e => .error e
      | .ok none => collection_list_scan K rest
      | .ok (some o) => (collection_list_scan K rest).map ((de.d_ino, o) :: ·)

/-- The `operator<` of `pair<ino_t,sobject_t>`: by inode number, then by the
`operator<` of `sobject_t`, `obj_lt`, which is declared in a header that is not among the
sources and is a parameter. -/
def ino_pair_lt (obj_lt : sobject_t → sobject_t → Bool) (a b : Nat × sobject_t) : Bool :=
  a.1 < b.1 || (!(b.1 < a.1) && obj_lt a.2 b.2)

/-- The `sort(inolist.begin(), inolist.end())` of `collection_list`, as an insertion
sort: an element goes before the first element that is not smaller than it. -/
def sort_inolist (obj_lt : sobject_t → sobject_t → Bool) (l : List (Nat × sobject_t)) :
    List (Nat × sobject_t) :=
  l.insertionSort (fun a b => ino_pair_lt obj_lt b a = false)

/-- The `ls.resize(n)` of a vector: cut to `n` elements, or filled up with `dflt`. -/
def vector_resize (ls : List sobject_t) (n : Nat) (dflt : sobject_t) : List sobject_t :=
  ls.take n ++ List.replicate (n - ls.length) dflt

/-- The loop `for (p = inolist.begin(); ...) ls[i++] = p->second` of `collection_list`,
from index `i`. -/
def collection_list_assign (ls : List sobject_t) : Nat → List (Nat × sobject_t) →
    List sobject_t
  | _, [] => ls
  | i, p :: rest => collection_list_assign (ls.set i p.2) (i + 1) rest

/-- `FileStore::collection_list(c, ls)` with `fake_collections` off.  `dir` is what
`opendir` gives: `none` when it fails, leaving `errno`, otherwise the entries of the
directory as `readdir_r` returns them up to the end.  `ls` is the vector on entry and
`dflt` the default `sobject_t` with which `resize` would fill.  The result is the
returned `int` and the vector on return. -/
def collection_list (K : SnapSentinels) (obj_lt : sobject_t → sobject_t → Bool)
    (dflt : sobject_t) (dir : Option (List dirent)) (errno : Int) (ls : List sobject_t) :
    Except Fault (Int × List sobject_t) :=
  match dir with
  | none => .ok (-errno, ls)
  | some entries => do
    let inolist ← collection_list_scan K entries
    let ls := ls ++ inolist.map Prod.snd
    let inolist := sort_inolist obj_lt inolist
    let ls := vector_resize ls inolist.length dflt
    pure (0, collection_list_assign ls 0 inolist)

/-- The object that a directory entry stands for in a listing, in the words of the
claims: nothing for an entry whose name begins with `.`, and otherwise the object that
`parse_object` yields when it accepts the name, with the inode number of the entry. -/
def listed_entry (K : SnapSentinels) (de : dirent) : Option (Nat × sobject_t) :=
  if is_dot_entry de.d_name then none
  else
    match parse_object K de.d_name with
    | .ok (some o) => some (de.d_ino, o)
    | _ => none

/-- How the loop of `collection_list_partial` ends: by the `return -errno` after a
failed `readdir_r`, or by leaving the loop with the flag `end`. -/
inductive PartialExit where
  | read_error (errno : Int)
  | left (end_ : Bool)
  deriving DecidableEq, Repr

/-- The loop `while (i < max_count)` of `collection_list_partial` over the entries that
follow the cursor.  `i` counts the objects pushed, `pos` is the cursor (the number of
entries read so far, the value of `telldir`), `end_` the flag `end`, `pushed` the objects
pushed so far.  `end_errno` is the `errno` of the `readdir_r` that follows the last
entry: 0 when it reports the end of the directory.  The result is the objects pushed,
the cursor and the way the loop ended. -/
def collection_list_partial_loop (K : SnapSentinels) (seq : Nat) (max_count : Int)
    (end_errno : Int) : List dirent → Int → Nat → Bool → List sobject_t →
    Except Fault (List sobject_t × Nat × PartialExit)
  | [], i, pos, end_, pushed =>
    if i < max_count then
      if end_errno ≠ 0 then .ok (pushed, pos, .read_error end_errno)
      else .ok (pushed, pos, .left true)
    else .ok (pushed, pos, .left end_)
  | de :: rest, i, pos, end_, pushed =>
    if i < max_count then
      if is_dot_entry de.d_name then
        collection_list_partial_loop K seq max_count end_errno rest i (pos + 1) false pushed
      else
        match parse_object K de.d_name with
        | .error e => .error e
        | .ok none =>
          collection_list_partial_loop K seq max_count end_errno rest i (pos + 1) false pushed
        | .ok (some o) =>
          if seq ≤ o.snap then
            collection_list_partial_loop K seq max_count end_errno rest (i + 1) (pos + 1)
              false (pushed ++ [o])
          else
            collection_list_partial_loop K seq max_count end_errno rest i (pos + 1) false
              pushed
    else .ok (pushed, pos, .left end_)

/-- `FileStore::collection_list_partial(c, seq, ls, max_count, handle)` with
`fake_collections` off.  `dir` is what `opendir` gives (`none`: it fails, leaving
`errno`), with `end_errno` as in the loop; a directory cursor is the number of entries
before it, so that `seekdir` to a value of `telldir` resumes after the entries read.
`handle` is `none` for a null pointer and otherwise the value of `*handle` on entry;
`uninit_end` is the value that the uninitialised local `end` holds when the loop body
never runs.  The result is the returned `int`, the objects appended to `ls`, and
`*handle` on return. -/
def collection_list_partial (K : SnapSentinels) (dir : Option (List dirent))
    (errno end_errno : Int) (uninit_end : Bool) (seq : Nat) (max_count : Int)
    (handle : Option Nat) : Except Fault (Int × List sobject_t × Option Nat) :=
  match dir with
  | none => .ok (-errno, [], handle)
  | some entries => do
    let start := match handle with
      | some h => if h ≠ 0 then h else 0
      | none => 0
    let handle := handle.map (fun _ => 0)
    let (pushed, pos, exit) ←
      collection_list_partial_loop K seq max_count end_errno (entries.drop start) 0 start
        uninit_end []
    match exit with
    | .read_error e => pure (-e, pushed, handle)
    | .left end_ =>
      if end_ then pure (0, pushed, handle)
      else pure (0, pushed, handle.map (fun _ => pos))

/-- The caller's loop of the partial listing: call `collection_list_partial` with the
handle left by the previous call until the handle is left zero, at most `fuel` times.
The result is the list of the pages, or `none` when `fuel` calls did not reach a zero
handle or a call returned an error. -/
def list_pages (K : SnapSentinels) (entries : List dirent) (seq : Nat) (max_count : Int) :
    Nat → Nat → Except Fault (Option (List (List sobject_t)))
  | 0, _ => .ok none
  | fuel + 1, handle => do
    let (r, page, handle) ←
      collection_list_partial K (some entries) 0 0 false seq max_count (some handle)
    if r ≠ 0 then pure none
    else
      match handle with
      | none => pure none
      | some 0 => pure (some [page])
      | some (h + 1) => do
        let more ← list_pages K entries seq max_count fuel (h + 1)
        pure (more.map (page :: ·))

/-- The objects of a directory with `snap ≥ seq`, in directory order, dot-files
excluded: the reference of the partial listing. -/
def listed_objects (K : SnapSentinels) (seq : Nat) (entries : List dirent) :
    List sobject_t :=
  ((entries.filterMap (listed_entry K)).map Prod.snd).filter (fun o => decide (seq ≤ o.snap))

/-- The names of a directory are readable: `parse_object` returns (true or false),
without stopping at an assertion, on every name that does not begin with `.`. -/
def names_readable (K : SnapSentinels) (entries : List dirent) : Bool :=
  entries.all (fun de => is_dot_entry de.d_name || (parse_object K de.d_name).isOk)

/-! ## The signal barrier -/

/-- The process-wide state of the signal barrier, with `exited` recording that
`_handle_signal` has called `_exit`. -/
structure SigState where
  trans_running : Int := 0
  sig_pending : Int := 0
  exited : Bool := false
  deriving DecidableEq, Repr

/-- `_handle_signal(signal)`: the exit path. -/
def _handle_signal (_signal : Int) (s : SigState) : SigState :=
  { s with exited := true }

/-- The part of `handle_signal(signal, info, p)` under `sig_lock`: read `trans_running`
into the local `running` and store the signal in `sig_pending`.  The result is `running`
and the state. -/
def handle_signal_locked (signal : Int) (s : SigState) : Int × SigState :=
  (s.trans_running, { s with sig_pending := signal })

/-- The part of `handle_signal` after `sig_lock.Unlock()`:
`if (!running) _handle_signal(signal)`, on the local copy `running`. -/
def handle_signal_unlocked (running signal : Int) (s : SigState) : SigState :=
  if running = 0 then _handle_signal signal s else s

/-- `handle_signal(signal, info, p)` when no other thread runs between its two parts. -/
def handle_signal (signal : Int) (s : SigState) : SigState :=
  handle_signal_unlocked (handle_signal_locked signal s).1 signal
    (handle_signal_locked signal s).2

/-- The part of `_transaction_start` under `sig_lock`: `none` when the thread waits on
`sig_cond` (a transaction is running and a signal is pending), otherwise the state with
`trans_running` incremented. -/
def _transaction_start_locked (s : SigState) : Option SigState :=
  if s.trans_running ≠ 0 ∧ s.sig_pending ≠ 0 then none
  else some { s with trans_running := s.trans_running + 1 }

/-- The part of `_transaction_finish` under `sig_lock`: decrement `trans_running`, and
take the exit path when it is 0 and a signal is pending. -/
def _transaction_finish_locked (s : SigState) : SigState :=
  let s := { s with trans_running := s.trans_running - 1 }
  if s.trans_running = 0 ∧ s.sig_pending ≠ 0 then _handle_signal s.sig_pending s else s

/-- The flags that `_transaction_start` and `_transaction_finish` test first. -/
structure BracketFlags where
  btrfs : Nat
  btrfs_trans_start_end : Bool
  /-- The setting `g_conf.filestore_btrfs_trans`. -/
  filestore_btrfs_trans : Bool
  deriving DecidableEq, Repr

/-- `FileStore::_transaction_start(bytes, ops)` (not DARWIN).  `open_fd` is the result of
`::open(basedir, O_RDONLY)`, `ioctl_r` the result of `::ioctl(fd, BTRFS_IOC_TRANS_START)`
and `errno` the `errno` it leaves when it fails.  The result is the returned `int` and
the state of the barrier. -/
def _transaction_start (f : BracketFlags) (open_fd ioctl_r errno : Int) (s : SigState) :
    Except Fault (Int × SigState) :=
  if f.btrfs = 0 ∨ f.btrfs_trans_start_end = false ∨ f.filestore_btrfs_trans = false then
    .ok (0, s)
  else if open_fd < 0 then .error .open_basedir_failed
  else if ioctl_r < 0 then .ok (-errno, s)
  else
    match _transaction_start_locked s with
    | none => .error .sig_wait
    | some s => .ok (open_fd, s)

/-- `FileStore::_transaction_finish(fd)` (not DARWIN), on the state of the barrier. -/
def _transaction_finish (f : BracketFlags) (s : SigState) : SigState :=
  if f.btrfs = 0 ∨ f.btrfs_trans_start_end = false ∨ f.filestore_btrfs_trans = false then s
  else _transaction_finish_locked s

/-- A step of the barrier, each atomic under `sig_lock` or local to one thread: a
`_transaction_start` that gets through, the `_transaction_finish` of a transaction that
was started, the locked part of `handle_signal`, and its part after the unlock. -/
inductive SigEvent where
  | start
  | finish
  | signal_locked (signo : Int)
  | signal_unlocked
  deriving DecidableEq, Repr

/-- The barrier during a run: the shared state, the number of transactions started and
not yet finished, and the locals `(running, signal)` of a `handle_signal` that has
released `sig_lock` and not yet made its test. -/
structure SigRun where
  s : SigState := {}
  started : Nat := 0
  handler : Option (Int × Int) := none
  deriving DecidableEq, Repr

/-- Run a sequence of steps.  `none` when the sequence cannot happen: a step after the
exit, a start that has to wait, a finish with no transaction started, a signal number 0,
a signal while a handler is running (`sa_mask` blocks SIGINT and SIGTERM in the
handler), or the second part of a handler that has not run its first. -/
def sig_run : SigRun → List SigEvent → Option SigRun
  | c, [] => some c
  | c, .start :: rest =>
    if c.s.exited then none
    else (_transaction_start_locked c.s).bind
      (fun s => sig_run { c with s := s, started := c.started + 1 } rest)
  | c, .finish :: rest =>
    if c.s.exited then none
    else
      match c.started with
      | 0 => none
      | n + 1 => sig_run { c with s := _transaction_finish_locked c.s, started := n } rest
  | c, .signal_locked signo :: rest =>
    if c.s.exited then none
    else if signo = 0 then none
    else
      match c.handler with
      | some _ => none
      | none =>
        sig_run { c with s := (handle_signal_locked signo c.s).2,
                         handler := some ((handle_signal_locked signo c.s).1, signo) } rest
  | c, .signal_unlocked :: rest =>
    if c.s.exited then none
    else
      match c.handler with
      | none => none
      | some (running, signo) =>
        sig_run { c with s := handle_signal_unlocked running signo c.s, handler := none } rest

/-! ## The commit sequence -/

/-- The commit sequence of the store: the member `op_seq` and the `u64` held by the file
`commit_op_seq`. -/
structure SeqState where
  op_seq : Nat
  file : Nat
  deriving DecidableEq, Repr

/-- Modelled from the spec: the effect of one event of `apply_transactions` on the commit
sequence.  `journal_transactions` belongs to the journaling base class, which is not
among the sources; after the spec ("`op_seq`: monotone count of applied batches",
"overwrite the commit-sequence file in place with the new `op_seq`") it advances
`op_seq` by one for the batch it is handed.  The `pwrite` of `apply_transactions` stores
`op_seq` in the file. -/
def apply_event_seq (s : SeqState) : ApplyEv → SeqState
  | .journal_transactions _ _ _ => { s with op_seq := (s.op_seq + 1) % 2 ^ 64 }
  | .pwrite_op_seq => { s with file := s.op_seq }
  | _ => s

/-- The commit sequence after the events of one call of `apply_transactions`. -/
def run_apply_events (s : SeqState) (tr : List ApplyEv) : SeqState :=
  tr.foldl apply_event_seq s

/-! ## `mount` -/

/-- The errno `EIO` of Linux. -/
def EIO : Int := 5

/-- The errno `EBADF` of Linux. -/
def EBADF : Int := 9

/-- The errno `EBUSY` of Linux. -/
def EBUSY : Int := 16

/-- The errno `EINVAL` of Linux. -/
def EINVAL : Int := 22

/-- The errno `ENOTSUP` of Linux. -/
def ENOTSUP : Int := 95

/-- `FileStore::lock_fsid()`: `fcntl_r` is the result of `::fcntl(fsid_fd, F_SETLK, &l)`
and `errno` the `errno` it leaves when it fails. -/
def lock_fsid (fcntl_r errno : Int) : Int :=
  if fcntl_r < 0 then -errno else 0

/-- The first branch of `_do_clone_range` (`btrfs >= 2`): `r` is the result of
`::ioctl(to, BTRFS_IOC_CLONE_RANGE, &a)` and `errno` the `errno` it leaves. -/
def _do_clone_range_ioctl (r errno : Int) : Int :=
  if 0 ≤ r then r else -errno

/-- The members of the store that `mount` sets. -/
structure StoreFlags where
  btrfs : Nat
  btrfs_usertrans : Bool
  btrfs_trans_start_end : Bool
  fake_collections : Bool
  fake_attrs : Bool
  deriving DecidableEq, Repr

/-- The configuration and the results of the system calls that `mount` makes. -/
structure MountEnv where
  /-- `::stat(basedir, &st)` and the `errno` it leaves when it fails. -/
  stat_r : Int
  stat_errno : Int
  /-- The settings `g_conf.filestore_fake_collections`, `g_conf.filestore_fake_attrs` and
  `g_conf.filestore_btrfs_trans`. -/
  filestore_fake_collections : Bool
  filestore_fake_attrs : Bool
  filestore_btrfs_trans : Bool
  /-- The value of `rand()` in the xattr test. -/
  x : Int
  /-- What `do_getxattr` stores in `y` (`none`: nothing, `y` stays `x + 1`). -/
  y_read : Option Int
  /-- The `errno` that the xattr calls of the test leave behind. -/
  probe_errno : Int
  /-- `::fcntl(fsid_fd, F_SETLK, &l)` in `lock_fsid` and the `errno` it leaves. -/
  fcntl_r : Int
  fcntl_errno : Int
  /-- `::open(".../commit_op_seq", O_CREAT|O_RDWR, 0644)`. -/
  op_fd : Int
  /-- The result of `journal_replay()`. -/
  journal_replay : Int
  /-- `::ioctl(op_fd, BTRFS_IOC_USERTRANS, &ut)`: the result and `ut.ops_completed`. -/
  usertrans_ioctl : List btrfs_ioctl_usertrans_op → Int × Nat
  /-- `::open(basedir, O_RDONLY)` in `_transaction_start`. -/
  open_basedir : Int
  /-- `::ioctl(fd, BTRFS_IOC_TRANS_START)` and the `errno` it leaves. -/
  ioctl_trans_start : Int
  errno_trans_start : Int
  /-- `::ioctl(-1, BTRFS_IOC_CLONE_RANGE, &a)` and the `errno` it leaves. -/
  ioctl_clone_range : Int
  errno_clone_range : Int

/-- The callees of `apply_transactions` on a store with the flags `fl`, over the state of
the signal barrier.  The low-level calls `low` and the UserTrans ioctl act on the file
system, which is not part of this state. -/
def store_callees (K : SnapSentinels) (basedir : List Char) (e : MountEnv)
    (low : LowCall → SigState → SigState × Int) (fl : StoreFlags) : Callees SigState :=
  { _do_usertrans := fun ls s =>
      (_do_usertrans K basedir (fun _ => []) e.usertrans_ioctl ls).map (fun p => (p.1, s))
    _transaction_start :=
      _transaction_start ⟨fl.btrfs, fl.btrfs_trans_start_end, e.filestore_btrfs_trans⟩
        e.open_basedir e.ioctl_trans_start e.errno_trans_start
    _apply_transaction := _apply_transaction low
    _transaction_finish := fun _ s =>
      _transaction_finish ⟨fl.btrfs, fl.btrfs_trans_start_end, e.filestore_btrfs_trans⟩ s }

/-- `FileStore::apply_transaction(t, onjournal, ondisk)` on a store with the flags
`fl`: push `&t` on an empty list `tls` and return
`apply_transactions(tls, onjournal, ondisk)`. -/
def apply_transaction (K : SnapSentinels) (basedir : List Char) (e : MountEnv)
    (low : LowCall → SigState → SigState × Int) (fl : StoreFlags) (t : Transaction)
    (onjournal ondisk : Context) (s : SigState) :
    Except Fault (Int × SigState × List ApplyEv) :=
  apply_transactions (store_callees K basedir e low fl) fl.btrfs_usertrans [t] onjournal
    ondisk s

/-- The capability probe of `mount` (from `// is this btrfs?` to the end of the
function): the flags and the state of the barrier afterwards. -/
def mount_probe (K : SnapSentinels) (basedir : List Char) (e : MountEnv)
    (low : LowCall → SigState → SigState × Int) (fl : StoreFlags) (s : SigState) :
    Except Fault (StoreFlags × SigState) := do
  let empty : Transaction := {}
  let fl := { fl with btrfs := 1, btrfs_usertrans := true, btrfs_trans_start_end := true }
  let (r, s, _) ← apply_transaction K basedir e low fl empty none none s
  let (r, fl, s) ←
    (if r = 0 then pure (r, fl, s)
     else do
      let fl := { fl with btrfs_usertrans := false }
      let (r, s, _) ← apply_transaction K basedir e low fl empty none none s
      pure (r, fl, s) : Except Fault (Int × StoreFlags × SigState))
  if r = 0 then
    let fl := { fl with btrfs := 2 }
    let r := _do_clone_range_ioctl e.ioctl_clone_range e.errno_clone_range
    if r = -EBADF then pure (fl, s) else pure ({ fl with btrfs := 1 }, s)
  else pure ({ fl with btrfs := 0 }, s)

/-- `FileStore::mount()`: the returned `int`, the flags of the store and the state of
the signal barrier.  `fl` holds the flags on entry. -/
def mount (K : SnapSentinels) (basedir : List Char) (e : MountEnv)
    (low : LowCall → SigState → SigState × Int) (fl : StoreFlags) (s : SigState) :
    Except Fault (Int × StoreFlags × SigState) :=
  if e.stat_r ≠ 0 then .ok (-e.stat_errno, fl, s)
  else
    let fl := if e.filestore_fake_collections then { fl with fake_collections := true } else fl
    let fl := if e.filestore_fake_attrs then { fl with fake_attrs := true } else fl
    if e.filestore_fake_attrs = false ∧ e.x ≠ e.y_read.getD (e.x + 1) then
      .ok (-e.probe_errno, fl, s)
    else if lock_fsid e.fcntl_r e.fcntl_errno < 0 then .ok (-EBUSY, fl, s)
    else if e.op_fd < 0 then .error .op_fd_failed
    else if e.journal_replay = -EINVAL then .ok (e.journal_replay, fl, s)
    else do
      let (fl, s) ← mount_probe K basedir e low fl s
      pure (0, fl, s)

/-- The xattr test of `mount` fails: attributes are not faked and the `y` read back
differs from the `x` written (`if (x != y)` in the `else` branch). -/
def xattr_probe_failed (e : MountEnv) : Bool :=
  e.filestore_fake_attrs = false && e.x != e.y_read.getD (e.x + 1)

/-- Low-level calls that leave the barrier alone and return 0. -/
def low_ok : LowCall → SigState → SigState × Int :=
  fun _ s => (s, 0)

/-- The flags of a store before `mount`. -/
def flags_unmounted : StoreFlags :=
  { btrfs := 0, btrfs_usertrans := false, btrfs_trans_start_end := false,
    fake_collections := false, fake_attrs := false }

/-- A healthy store on a file system without btrfs: every call of `mount` succeeds,
except the three btrfs ioctls, which fail with `ENOTTY` (25). -/
def mount_env : MountEnv :=
  { stat_r := 0, stat_errno := 0
    filestore_fake_collections := false, filestore_fake_attrs := false
    filestore_btrfs_trans := true
    x := 1804289383, y_read := some 1804289383, probe_errno := 0
    fcntl_r := 0, fcntl_errno := 0
    op_fd := 5
    journal_replay := 0
    usertrans_ioctl := fun _ => (-1, 0)
    open_basedir := 6
    ioctl_trans_start := -1, errno_trans_start := 25
    ioctl_clone_range := -1, errno_clone_range := 25 }

/-- The store of `mount_env` with the base directory missing: `stat` fails with `ENOENT`. -/
def mount_env_missing : MountEnv :=
  { mount_env with stat_r := -1, stat_errno := 2 }

/-- The store of `mount_env` on a file system mounted without `user_xattr`: both xattr
calls fail with `ENOTSUP` (95) and `y` keeps its initial value. -/
def mount_env_no_xattr : MountEnv :=
  { mount_env with y_read := none, probe_errno := 95 }

/-- The store of `mount_env` with `fsid` locked by another process: `fcntl` fails with
`EAGAIN` (11). -/
def mount_env_locked : MountEnv :=
  { mount_env with fcntl_r := -1, fcntl_errno := 11 }

/-- The store of `mount_env` with a journal that `journal_replay` cannot open. -/
def mount_env_bad_journal : MountEnv :=
  { mount_env with journal_replay := -22 }

/-! ## The FD table of a UserTrans vector -/

/-- The number of slots of the FD table: `ut.num_fds = 2` in `_do_usertrans`. -/
def usertrans_num_fds : Nat := 2

/-- The cells of `args` that a record takes from the FD table: `args[i]` for every `i`
whose flag `FD_ARGi` is set. -/
def fd_args (r : btrfs_ioctl_usertrans_op) : List UtArg :=
  (if r.flags.FD_ARG0 then [r.args0] else []) ++
  (if r.flags.FD_ARG1 then [r.args1] else []) ++
  (if r.flags.FD_ARG2 then [r.args2] else []) ++
  (if r.flags.FD_ARG3 then [r.args3] else []) ++
  (if r.flags.FD_ARG4 then [r.args4] else [])

/-- The slot numbers among the cells of `fd_args`. -/
def fd_slots (r : btrfs_ioctl_usertrans_op) : List Nat :=
  (fd_args r).filterMap (fun a => match a with | .num k => some k | _ => none)

/-- Well-formedness of the records of one Transaction op against the FD table, in the
words of the claim.  `saved` holds the slots that an OPEN with `FD_SAVE` has filled and
no CLOSE has emptied yet.  Every cell that a record takes from the table is the number
of a slot below `num_fds` that is in `saved`; a record with `FD_SAVE` is an OPEN whose
`fd_num` is below `num_fds` and not in `saved`; a CLOSE empties the slots it takes; at
the end of the group no slot is left in `saved`. -/
def fd_table_wf : List Nat → List btrfs_ioctl_usertrans_op → Bool
  | saved, [] => saved.isEmpty
  | saved, r :: rest =>
    (fd_args r).all (fun a =>
      match a with
      | .num k => decide (k < usertrans_num_fds) && decide (k ∈ saved)
      | _ => false) &&
    (if r.flags.FD_SAVE then
      decide (r.op = .OPEN) && decide (r.fd_num < usertrans_num_fds) &&
        decide (r.fd_num ∉ saved)
     else true) &&
    fd_table_wf
      (let saved := if r.flags.FD_SAVE then r.fd_num :: saved else saved
       if r.op = .CLOSE then saved.filter (fun k => decide (k ∉ fd_slots r)) else saved)
      rest

/-- The Transaction `TOUCH(c1, x)`. -/
def tx_touch : Transaction :=
  { ops := [.OP_TOUCH], args := { cids := [coll_c1], oids := [obj_x] } }

/-- The Transaction `CLONERANGE(c1, x, y, off = 2, len = 2)`. -/
def tx_clonerange : Transaction :=
  { ops := [.OP_CLONERANGE],
    args := { cids := [coll_c1], oids := [obj_x, obj_y], lengths := [2, 2] } }

/-! ## The byte ranges of a WRITE -/

/-- The store of `mount_env` with `filestore_btrfs_trans` switched off: the file system
has no btrfs ioctl (the USERTRANS ioctl fails, a TRANS_START ioctl would fail), and the
CLONE_RANGE ioctl on the descriptor -1 fails with `EBADF` (9) as on any file system. -/
def mount_env_trans_off : MountEnv :=
  { mount_env with filestore_btrfs_trans := false, errno_clone_range := 9 }

/-- The store of `mount_env` where the CLONE_RANGE ioctl on the descriptor -1 fails with
`EBADF` (9). -/
def mount_env_ebadf : MountEnv :=
  { mount_env with errno_clone_range := 9 }

/-- The store of `mount_env` on btrfs with the USERTRANS ioctl: the ioctl completes the
whole vector. -/
def mount_env_usertrans : MountEnv :=
  { mount_env with usertrans_ioctl := fun ops => (0, ops.length), errno_clone_range := 9 }

/-! ## Copying a range (`_do_clone_range`, `_clone_range`) -/

/-- The chunk size of the buffered copy, `int buflen = 4096*32`. -/
def clone_buflen : Nat := 4096 * 32

/-- A `::read` or `::write` call of the buffered copy: the count asked for and the
result. -/
inductive CloneCall where
  | read (count : Nat) (r : Int)
  | write (count : Nat) (r : Int)
  deriving DecidableEq, Repr

/-- The state that the buffered copy acts on: the file positions of the descriptors
`from` and `to`, the content of the file behind `to`, the array `buf`, and the calls
made so far. -/
structure CloneState where
  from_pos : Nat
  to_pos : Nat
  dst : List Char
  buf : Nat → Char
  calls : List CloneCall

/-- The content of a file after `bytes` have been written at the position `pos`: a gap
between the old end and `pos` reads as zeros. -/
def file_pwrite (content : List Char) (pos : Nat) (bytes : List Char) : List Char :=
  content.take pos ++ List.replicate (pos - content.length) (Char.ofNat 0) ++ bytes ++
    content.drop (pos + bytes.length)

/-- The arguments `btrfs_ioctl_clone_range_args` of the range-clone ioctl (without
`src_fd`, which is `from`). -/
structure btrfs_ioctl_clone_range_args where
  src_offset : Nat
  src_length : Nat
  dest_offset : Nat
  deriving DecidableEq, Repr

/-- The loop `while (op < l)` of the buffered copy: write `buf[op .. l)` to `to` until
`l` bytes are written or a write fails.  `write_res pos count` is the result of the
`::write` of `count` bytes with the descriptor at `pos`.  The result is `none` when the
loop has not ended within `fuel` iterations, otherwise the failing `r2` (if any) and the
state. -/
def _do_clone_range_write (write_res : Nat → Nat → Int) (l : Nat) :
    Nat → Nat → CloneState → Option (Option Int × CloneState)
  | 0, _, _ => none
  | fuel + 1, op, st =>
    if op < l then
      let r2 := write_res st.to_pos (l - op)
      let st1 := { st with calls := st.calls ++ [.write (l - op) r2] }
      if r2 < 0 then some (some r2, st1)
      else
        let n := r2.toNat
        let bytes := (List.range n).map (fun i => st.buf (op + i))
        _do_clone_range_write write_res l fuel (op + n)
          { st1 with dst := file_pwrite st.dst st.to_pos bytes, to_pos := st.to_pos + n }
    else some (none, st)

/-- The loop `while (pos < end)` of the buffered copy, on the `loff_t` values `pos` and
`end`.  `src` is the content of the file
behind `from`, `read_res pos count` the result of the `::read` of `count` bytes with the
descriptor at `pos`; a read that returns `r ≥ 0` has stored the `r` bytes at the
position in `buf[0 .. r)` and moved the position by `r`.  `r` is the local `r`.  The
result is `none` when the loops have not ended within `fuel` iterations, otherwise the
returned `r` and the state. -/
def _do_clone_range_loop (src : List Char) (read_res write_res : Nat → Nat → Int)
    (end_ : Int) : Nat → Int → Int → CloneState → Option (Int × CloneState)
  | 0, _, _, _ => none
  | fuel + 1, pos, r, st =>
    if pos < end_ then
      let l := (min (end_ - pos) clone_buflen).toNat
      let r := read_res st.from_pos l
      let st := { st with calls := st.calls ++ [.read l r] }
      if r < 0 then some (r, st)
      else
        let n := r.toNat
        let st := { st with
          buf := fun i => if i < n then src.getD (st.from_pos + i) (Char.ofNat 0) else st.buf i
          from_pos := st.from_pos + n }
        match _do_clone_range_write write_res l fuel 0 st with
        | none => none
        | some (some r2, st) => some (r2, st)
        | some (none, st) => _do_clone_range_loop src read_res write_res end_ fuel (pos + r) r st
    else some (r, st)

/-- The conversion of a `__u64` value to `loff_t`: 64 bits, two's complement. -/
def to_loff (x : Nat) : Int := ((x : Int) + 2 ^ 63) % 2 ^ 64 - 2 ^ 63

/-- `FileStore::_do_clone_range(from, to, off, len)`.  With `btrfs >= 2` the one call is
the ioctl with the arguments `src_offset = off`, `src_length = len`, `dest_offset = off`;
`ioctl a st` is its result and the state it leaves, `errno` the `errno` when it fails.
Otherwise the buffered copy runs with `loff_t pos = off`, `loff_t end = off + len` (the
sum of the two `__u64`) and `r = 0`. -/
def _do_clone_range (btrfs : Nat)
    (ioctl : btrfs_ioctl_clone_range_args → CloneState → Int × CloneState) (errno : Int)
    (src : List Char) (read_res write_res : Nat → Nat → Int) (off len : Nat) (fuel : Nat)
    (st : CloneState) : Option (Int × CloneState) :=
  if 2 ≤ btrfs then
    let (r, st) := ioctl { src_offset := off, src_length := len, dest_offset := off } st
    some (_do_clone_range_ioctl r errno, st)
  else _do_clone_range_loop src read_res write_res (to_loff (off + len)) fuel (to_loff off) 0 st

/-- A system call of `_clone_range` on a path or a descriptor. -/
inductive CloneRangeCall where
  | open_ (path : List Char) (flags : OpenFlags) (mode : Option Nat)
  | _do_clone_range (fd_from fd_to : Int) (off len : Nat)
  | close (fd : Int)
  deriving DecidableEq, Repr

/-- `FileStore::_clone_range(cid, oldoid, newoid, off, len)`: the returned `r` and the
calls made.  `open_old` and `open_new` are the results of the two `::open` calls with
the `errno` they leave on failure, `do_clone_range` the result of `_do_clone_range`. -/
def _clone_range (K : SnapSentinels) (basedir : List Char)
    (open_old errno_open_old open_new errno_open_new : Int)
    (do_clone_range : Int → Int → Nat → Nat → Int)
    (cid : coll_t) (oldoid newoid : sobject_t) (off len : Nat) :
    Int × List CloneRangeCall :=
  let ofn := get_coname K basedir cid oldoid
  let nfn := get_coname K basedir cid newoid
  if open_old < 0 then (-errno_open_old, [.open_ ofn O_RDONLY none])
  else if open_new < 0 then
    (-errno_open_new,
      [.open_ ofn O_RDONLY none, .open_ nfn { O_CREAT := true, O_WRONLY := true } (some 0o644),
       .close open_old])
  else
    (do_clone_range open_old open_new off len,
      [.open_ ofn O_RDONLY none, .open_ nfn { O_CREAT := true, O_WRONLY := true } (some 0o644),
       ._do_clone_range open_old open_new off len, .close open_new, .close open_old])

/-- The content of a regular file after `open` with the given flags: `none` for a file
that does not exist; `O_CREAT` creates a missing file empty, `O_TRUNC` cuts an existing
file to length 0. -/
def open_content (flags : OpenFlags) : Option (List Char) → Option (List Char)
  | none => if flags.O_CREAT then some [] else none
  | some c => if flags.O_TRUNC then some [] else some c

/-- A `::read` on a regular file with the content `src`: at most `cap` bytes at a time
(a short read when `cap` is below the count), and no bytes at or behind the end. -/
def file_read (src : List Char) (cap : Nat) (pos count : Nat) : Int :=
  ((min count (min cap (src.length - pos)) : Nat) : Int)

/-- A `::write` that writes all the bytes it is given. -/
def full_write (_pos count : Nat) : Int := (count : Int)

/-- The state right after the two `::open` calls of `_clone_range`: both descriptors at
position 0, the destination with the content `dst`, the array `buf` holding `x`. -/
def clone_state_opened (dst : List Char) : CloneState :=
  { from_pos := 0, to_pos := 0, dst := dst, buf := fun _ => 'x', calls := [] }

/-- The range clone in the words of the claim: the destination bytes `[off, off + len)`
become the source bytes `[off, off + len)`, and nothing else changes. -/
def spec_clone_range (src dst : List Char) (off len : Nat) : List Char :=
  file_pwrite dst off ((src.drop off).take len)

/-- The bytes returned by the reads of a call list. -/
def bytes_read : List CloneCall → Int
  | [] => 0
  | .read _ r :: rest => (if 0 < r then r else 0) + bytes_read rest
  | .write _ _ :: rest => bytes_read rest

/-- The bytes written by the writes of a call list. -/
def bytes_written : List CloneCall → Int
  | [] => 0
  | .read _ _ :: rest => bytes_written rest
  | .write _ r :: rest => (if 0 < r then r else 0) + bytes_written rest

/-- Modelled from the spec: the kernel's range-clone primitive behind
`BTRFS_IOC_CLONE_RANGE`, which is not part of the sources: `src_length` bytes at
`src_offset` of the source replace the bytes at `dest_offset` of the destination, and the
call returns 0. -/
def clone_range_ioctl_ok (src : List Char) (a : btrfs_ioctl_clone_range_args)
    (st : CloneState) : Int × CloneState :=
  (0, { st with dst := file_pwrite st.dst a.dest_offset ((src.drop a.src_offset).take a.src_length) })

/-! ## Instances for the callbacks and for wrapping offsets -/

/-- The flags of a store on which `mount` found the TRANS_START interface only. -/
def flags_bracket : StoreFlags :=
  { btrfs := 1, btrfs_usertrans := false, btrfs_trans_start_end := true,
    fake_collections := false, fake_attrs := false }

/-- The flags of a store on which `mount` found the USERTRANS ioctl. -/
def flags_usertrans : StoreFlags :=
  { btrfs := 2, btrfs_usertrans := true, btrfs_trans_start_end := true,
    fake_collections := false, fake_attrs := false }

theorem c_str_eq_self (l : List Char) (h : ∀ c ∈ l, c ≠ Char.ofNat 0) : c_str l = l := by
  induction l with
  | nil => rfl
  | cons c cs ih =>
    have hc : c ≠ Char.ofNat 0 := h c (List.mem_cons_self _ _)
    have hcs : ∀ d ∈ cs, d ≠ Char.ofNat 0 := fun d hd => h d (List.mem_cons_of_mem _ hd)
    simp [c_str, hc, ih hcs]

theorem c_str_no_nul (l : List Char) : ∀ c ∈ c_str l, c ≠ Char.ofNat 0 := by
  induction l with
  | nil => simp [c_str]
  | cons c cs ih =>
    by_cases hc : c = Char.ofNat 0
    · simp [c_str, hc]
    · intro d hd
      simp only [c_str, hc, if_false, List.mem_cons] at hd
      rcases hd with rfl | hd
      · exact hc
      · exact ih d hd

theorem unescape_append_oname_loop (name : List Char) :
    ∀ idx, parse_object_unescape (append_oname_loop idx name) = .ok name := by
  induction name with
  | nil => intro idx; rfl
  | cons c rest ih =>
    intro idx
    simp only [append_oname_loop]
    split_ifs with h1 h2 h3
    · subst h1
      simp [parse_object_unescape, ih, Except.map]
    · obtain ⟨hc, _⟩ := h2
      subst hc
      simp [parse_object_unescape, ih, Except.map]
    · subst h3
      simp [parse_object_unescape, ih, Except.map]
    · rw [List.singleton_append, parse_object_unescape.eq_def]
      simp [ih, Except.map, h1]

theorem parse_object_bar_spec (a b : List Char) (hb : '_' ∉ b) :
    ∀ k, k ≤ b.length → parse_object_bar (a ++ '_' :: b) (a.length + k) = a.length := by
  intro k
  induction k with
  | zero =>
    intro _
    cases h : a.length with
    | zero => rfl
    | succ n =>
      have : (a ++ '_' :: b)[n + 1]? = some '_' := by
        rw [← h, List.getElem?_append_right (le_refl _)]
        simp
      simp [parse_object_bar, this]
  | succ k ih =>
    intro hk
    have hlt : k < b.length := hk
    have hget : (a ++ '_' :: b)[a.length + k + 1]? = some (b[k]) := by
      rw [List.getElem?_append_right (by omega)]
      have : a.length + k + 1 - a.length = k + 1 := by omega
      rw [this]
      simp [List.getElem?_eq_getElem hlt]
    have hne : b[k] ≠ '_' := fun h => hb (h ▸ List.getElem_mem hlt)
    have : a.length + (k + 1) = (a.length + k) + 1 := by omega
    rw [this, parse_object_bar, hget]
    simp only [Option.some.injEq, hne, if_false]
    exact ih (by omega)

theorem hexval_hexdigit : ∀ d, d < 16 → hexval (hexdigit d) = some d := by decide

theorem llx_char_facts : ∀ d, d < 16 →
    isspace (hexdigit d) = false ∧ hexdigit d ≠ '-' ∧ hexdigit d ≠ '+' ∧ hexdigit d ≠ 'x' ∧
    hexdigit d ≠ 'X' ∧ hexdigit d ≠ '_' ∧ hexdigit d ≠ '/' ∧ hexdigit d ≠ '.' ∧
    hexdigit d ≠ 'h' ∧ hexdigit d ≠ 's' ∧ hexdigit d ≠ Char.ofNat 0 := by decide

theorem spec_hex_chars (n : Nat) : ∀ c ∈ spec_hex n, (∃ d, d < 16 ∧ c = hexdigit d) := by
  intro c hc
  unfold spec_hex at hc
  split_ifs at hc with h0
  · simp at hc
    exact ⟨0, by decide, by rw [hc]; rfl⟩
  · simp only [List.mem_reverse, List.mem_map] at hc
    obtain ⟨d, hd, rfl⟩ := hc
    exact ⟨d, Nat.digits_lt_base (by decide) hd, rfl⟩

theorem spec_hex_ne_nil (n : Nat) : spec_hex n ≠ [] := by
  unfold spec_hex
  split_ifs with h0
  · simp
  · simp [Nat.digits_eq_nil_iff_eq_zero, h0]

theorem llx_digits_eq : ∀ fuel n acc, 0 < fuel → n < 16 ^ fuel →
    llx_digits fuel n acc = spec_hex n ++ acc := by
  intro fuel
  induction fuel with
  | zero => intro n acc h; omega
  | succ f ih =>
    intro n acc _ hn
    rw [llx_digits]
    split_ifs with h16
    · unfold spec_hex
      split_ifs with h0
      · subst h0; rfl
      · rw [Nat.digits_of_lt 16 n h0 h16]; rfl
    · have hf : 0 < f := by
        rcases Nat.eq_zero_or_pos f with h | h
        · subst h; simp at hn; omega
        · exact h
      have hdiv : n / 16 < 16 ^ f := by
        rw [Nat.div_lt_iff_lt_mul (by decide)]
        rw [pow_succ] at hn
        exact hn
      rw [ih (n / 16) _ hf hdiv]
      have hn0 : n ≠ 0 := by omega
      have hq0 : n / 16 ≠ 0 := by
        intro h
        have := Nat.div_eq_zero_iff (by decide : 0 < 16) |>.mp h
        omega
      unfold spec_hex
      rw [if_neg hn0, if_neg hq0]
      conv_rhs => rw [Nat.digits_def' (by decide : 1 < 16) (Nat.pos_of_ne_zero hn0)]
      simp

theorem sprintf_llx_eq (snap : Nat) (h : snap < 2 ^ 64) : sprintf_llx snap = spec_hex snap := by
  unfold sprintf_llx
  rw [Nat.mod_eq_of_lt h, llx_digits_eq 16 snap [] (by decide) (by norm_num at h ⊢; exact h)]
  simp

theorem strtoull_digits_map (l : List Nat) (hl : ∀ d ∈ l, d < 16) :
    ∀ a, strtoull_digits (l.map hexdigit) a = l.foldl (fun a d => a * 16 + d) a := by
  induction l with
  | nil => intro a; rfl
  | cons d ds ih =>
    intro a
    have hd : d < 16 := hl d (List.mem_cons_self _ _)
    have hds : ∀ e ∈ ds, e < 16 := fun e he => hl e (List.mem_cons_of_mem _ he)
    simp [strtoull_digits, hexval_hexdigit d hd, ih hds]

theorem foldl_digits_reverse (l : List Nat) :
    l.reverse.foldl (fun a d => a * 16 + d) 0 = Nat.ofDigits 16 l := by
  induction l with
  | nil => rfl
  | cons d ds ih =>
    simp [List.foldl_append, ih, Nat.ofDigits_cons]
    ring

theorem strtoull_digits_spec_hex (n : Nat) : strtoull_digits (spec_hex n) 0 = n := by
  unfold spec_hex
  split_ifs with h0
  · subst h0; rfl
  · rw [← List.map_reverse, strtoull_digits_map, foldl_digits_reverse, Nat.ofDigits_digits]
    intro d hd
    exact Nat.digits_lt_base (by decide) (List.mem_reverse.mp hd)

theorem strtoull16_of_llx (s : List Char) (hne : s ≠ []) (hs : ∀ c ∈ s, (∃ d, d < 16 ∧ c = hexdigit d))
    (hv : strtoull_digits s 0 < 2 ^ 64) : strtoull16 s = strtoull_digits s 0 := by
  obtain ⟨c, t, rfl⟩ := List.exists_cons_of_ne_nil hne
  obtain ⟨d, hd, rfl⟩ := hs c (List.mem_cons_self _ _)
  obtain ⟨hsp, hm, hp, _, _, _, _, _, _, _, _⟩ := llx_char_facts d hd
  have h1 : List.dropWhile isspace (hexdigit d :: t) = hexdigit d :: t := by
    simp [List.dropWhile, hsp]
  have h3 : (match hexdigit d :: t with
      | '0' :: x :: rest => if x = 'x' ∨ x = 'X' then rest else hexdigit d :: t
      | _ => hexdigit d :: t) = hexdigit d :: t := by
    split
    · rename_i x rest heq
      have hx : x ∈ hexdigit d :: t := by rw [heq]; simp
      obtain ⟨e, he, rfl⟩ := hs x hx
      obtain ⟨_, _, _, hx1, hx2, _⟩ := llx_char_facts e he
      simp [hx1, hx2]
    · rfl
  unfold strtoull16
  simp only [h1, List.head?_cons, Option.some.injEq, hm, hp, or_self, if_false, h3]
  rw [if_neg (by omega)]

theorem parse_object_snap_tag (K : SnapSentinels) (snap : Nat) (h : snap < 2 ^ 64) :
    ∃ tag, append_oname_tag K snap = '_' :: tag ∧ '_' ∉ tag ∧
      (∀ c ∈ tag, c ≠ Char.ofNat 0 ∧ c ≠ '/') ∧ parse_object_snap K tag = snap := by
  unfold append_oname_tag
  split_ifs with h1 h2
  · refine ⟨"head".toList, rfl, by decide, by decide, ?_⟩
    simp [parse_object_snap, h1]
  · refine ⟨"snapdir".toList, rfl, by decide, by decide, ?_⟩
    unfold parse_object_snap
    rw [if_neg (by decide), if_pos rfl, h2]
  · have hchars := spec_hex_chars snap
    have hne := spec_hex_ne_nil snap
    refine ⟨sprintf_llx snap, rfl, ?_, ?_, ?_⟩
    · rw [sprintf_llx_eq snap h]
      intro hmem
      obtain ⟨d, hd, hc⟩ := hchars _ hmem
      exact (llx_char_facts d hd).2.2.2.2.2.1 hc.symm
    · rw [sprintf_llx_eq snap h]
      intro c hmem
      obtain ⟨d, hd, rfl⟩ := hchars _ hmem
      exact ⟨(llx_char_facts d hd).2.2.2.2.2.2.2.2.2.2, (llx_char_facts d hd).2.2.2.2.2.2.1⟩
    · rw [sprintf_llx_eq snap h]
      unfold parse_object_snap
      have hhead : spec_hex snap ≠ "head".toList := by
        intro heq
        obtain ⟨d, hd, hc⟩ := hchars 'h' (by rw [heq]; decide)
        exact (llx_char_facts d hd).2.2.2.2.2.2.2.2.1 hc.symm
      have hsd : spec_hex snap ≠ "snapdir".toList := by
        intro heq
        obtain ⟨d, hd, hc⟩ := hchars 's' (by rw [heq]; decide)
        exact (llx_char_facts d hd).2.2.2.2.2.2.2.2.2.1 hc.symm
      rw [if_neg hhead, if_neg hsd, strtoull16_of_llx _ hne hchars, strtoull_digits_spec_hex]
      rw [strtoull_digits_spec_hex]
      exact h

theorem append_oname_loop_no_nul (name : List Char) (h : ∀ c ∈ name, c ≠ Char.ofNat 0) :
    ∀ idx, ∀ c ∈ append_oname_loop idx name, c ≠ Char.ofNat 0 := by
  induction name with
  | nil => intro idx c hc; simp [append_oname_loop] at hc
  | cons a rest ih =>
    intro idx c hc
    have ha : a ≠ Char.ofNat 0 := h a (List.mem_cons_self _ _)
    have hrest : ∀ d ∈ rest, d ≠ Char.ofNat 0 := fun d hd => h d (List.mem_cons_of_mem _ hd)
    simp only [append_oname_loop, List.mem_append] at hc
    rcases hc with hc | hc
    · split_ifs at hc <;> simp at hc
      · rw [hc]; decide
      · rcases hc with rfl | rfl <;> decide
      · rcases hc with rfl | rfl <;> decide
      · rw [hc]; exact ha
    · exact ih hrest _ c hc

theorem append_oname_drop (K : SnapSentinels) (oid : sobject_t) (s : List Char) :
    (append_oname K oid s).drop ((c_str s).length + 1) =
      append_oname_loop 0 (c_str oid.name) ++ append_oname_tag K oid.snap := by
  unfold append_oname
  have : c_str s ++ '/' :: (append_oname_loop 0 (c_str oid.name) ++ append_oname_tag K oid.snap)
      = (c_str s ++ ['/']) ++ (append_oname_loop 0 (c_str oid.name) ++ append_oname_tag K oid.snap) := by
    simp
  rw [this]
  exact List.drop_left' (by simp)

theorem parse_object_encoded (K : SnapSentinels) (name : List Char) (snap : Nat)
    (hname : ∀ c ∈ name, c ≠ Char.ofNat 0) (hsnap : snap < 2 ^ 64) :
    parse_object K (append_oname_loop 0 name ++ append_oname_tag K snap) =
        .ok (some ⟨name, snap⟩) ∧
      parse_object_bar (append_oname_loop 0 name ++ append_oname_tag K snap)
        ((append_oname_loop 0 name ++ append_oname_tag K snap).length - 1) =
        (append_oname_loop 0 name).length := by
  obtain ⟨tag, htag, hbar, hchars, hsnapv⟩ := parse_object_snap_tag K snap hsnap
  rw [htag]
  set e := append_oname_loop 0 name with he
  have hnonul : ∀ c ∈ e ++ '_' :: tag, c ≠ Char.ofNat 0 := by
    intro c hc
    simp only [List.mem_append, List.mem_cons] at hc
    rcases hc with hc | rfl | hc
    · exact append_oname_loop_no_nul name hname 0 c hc
    · decide
    · exact (hchars c hc).1
  have hlen : (e ++ '_' :: tag).length - 1 = e.length + tag.length := by simp
  have hb : parse_object_bar (e ++ '_' :: tag) ((e ++ '_' :: tag).length - 1) = e.length := by
    rw [hlen]
    exact parse_object_bar_spec e tag hbar tag.length (le_refl _)
  refine ⟨?_, hb⟩
  unfold parse_object
  simp only [c_str_eq_self _ hnonul]
  rw [if_neg (by simp), hb]
  have hget : (e ++ '_' :: tag)[e.length]? = some '_' := by
    rw [List.getElem?_append_right (le_refl _)]
    simp
  rw [if_pos hget]
  have htake : (e ++ '_' :: tag).take e.length = e := by simp
  have hdrop : (e ++ '_' :: tag).drop (e.length + 1) = tag := by
    have : e ++ '_' :: tag = (e ++ ['_']) ++ tag := by simp
    rw [this]
    exact List.drop_left' (by simp)
  rw [htake, hdrop, he, unescape_append_oname_loop name 0, hsnapv]
  rfl

theorem append_oname_loop_eq_spec (name : List Char) : ∀ idx,
    append_oname_loop idx name =
      ((name.enumFrom idx).map (fun p => spec_escape_byte p.1 p.2)).flatten := by
  induction name with
  | nil => intro idx; rfl
  | cons c rest ih =>
    intro idx
    simp only [append_oname_loop, List.enumFrom_cons, List.map_cons, List.flatten_cons, ih,
      spec_escape_byte]
    split_ifs <;> rfl

theorem append_oname_tag_eq_spec (K : SnapSentinels) (snap : Nat) (h : snap < 2 ^ 64) :
    append_oname_tag K snap = '_' :: spec_snaptag K snap := by
  unfold append_oname_tag spec_snaptag
  split_ifs
  · rfl
  · rfl
  · rw [sprintf_llx_eq snap h]

theorem append_oname_head_ne_dot (name : List Char) (tag : List Char) :
    (append_oname_loop 0 name ++ '_' :: tag).head? ≠ some '.' := by
  cases name with
  | nil => simp [append_oname_loop]
  | cons c rest =>
    simp only [append_oname_loop]
    split_ifs with h1 h2 h3
    · simp
    · simp
    · simp
    · have : c ≠ '.' := fun h => h2 (by simp [h])
      simpa using this

theorem append_oname_loop_no_slash (name : List Char) :
    ∀ idx, '/' ∉ append_oname_loop idx name := by
  induction name with
  | nil => intro idx; simp [append_oname_loop]
  | cons c rest ih =>
    intro idx
    simp only [append_oname_loop, List.mem_append, not_or]
    refine ⟨?_, ih _⟩
    split_ifs with h1 h2 h3
    · decide
    · decide
    · decide
    · simpa using fun h => h3 h.symm

theorem append_oname_tag_shape (K : SnapSentinels) (snap : Nat) :
    ∃ tag, append_oname_tag K snap = '_' :: tag ∧ '/' ∉ tag := by
  unfold append_oname_tag
  split_ifs
  · exact ⟨"head".toList, rfl, by decide⟩
  · exact ⟨"snapdir".toList, rfl, by decide⟩
  · refine ⟨sprintf_llx snap, rfl, ?_⟩
    have hmod : sprintf_llx snap = spec_hex (snap % 2 ^ 64) := by
      rw [← sprintf_llx_eq (snap % 2 ^ 64) (Nat.mod_lt _ (by norm_num))]
      simp [sprintf_llx]
    rw [hmod]
    intro hmem
    obtain ⟨d, hd, hc⟩ := spec_hex_chars _ _ hmem
    exact (llx_char_facts d hd).2.2.2.2.2.2.1 hc.symm


/-! ## Claims C1 to C3: the object-name codec -/

/-- C1: round trip of the object-name codec.  For every object id whose name has no NUL
byte and every 64-bit snap, `parse_object` applied to the file name that `append_oname`
writes after the `/` returns true with exactly `(name, snap)` (so the unknown-escape
assertion is not reached), and the backwards scan stops at the `_` that the encoder
inserted, that is, right after the escaped name. -/
theorem parse_object_append_oname (K : SnapSentinels) (name : List Char) (snap : Nat)
    (s : List Char) (hname : ∀ c ∈ name, c ≠ Char.ofNat 0) (hsnap : snap < 2 ^ 64) :
    parse_object K ((append_oname K ⟨name, snap⟩ s).drop ((c_str s).length + 1)) =
        .ok (some ⟨name, snap⟩) ∧
      parse_object_bar ((append_oname K ⟨name, snap⟩ s).drop ((c_str s).length + 1))
        (((append_oname K ⟨name, snap⟩ s).drop ((c_str s).length + 1)).length - 1) =
        (append_oname_loop 0 name).length := by
  rw [append_oname_drop]
  simp only [c_str_eq_self name hname]
  exact parse_object_encoded K name snap hname hsnap

/-- Witness of C1: the name `a_.b/c\` with an underscore, a dot, a slash and a backslash,
at snap 0x2a under the collection directory `/d/c`. -/
theorem parse_object_append_oname_witness :
    (∀ c ∈ "a_.b/c\\".toList, c ≠ Char.ofNat 0) ∧ 42 < 2 ^ 64 ∧
    (parse_object ceph_sentinels
        ((append_oname ceph_sentinels ⟨"a_.b/c\\".toList, 42⟩ "/d/c".toList).drop
          ((c_str "/d/c".toList).length + 1)) =
        .ok (some ⟨"a_.b/c\\".toList, 42⟩) ∧
      parse_object_bar
        ((append_oname ceph_sentinels ⟨"a_.b/c\\".toList, 42⟩ "/d/c".toList).drop
          ((c_str "/d/c".toList).length + 1))
        (((append_oname ceph_sentinels ⟨"a_.b/c\\".toList, 42⟩ "/d/c".toList).drop
          ((c_str "/d/c".toList).length + 1)).length - 1) =
        (append_oname_loop 0 "a_.b/c\\".toList).length) :=
  ⟨by decide, by decide,
    parse_object_append_oname ceph_sentinels "a_.b/c\\".toList 42 "/d/c".toList
      (by decide) (by decide)⟩

/-- C2 (amended): `append_oname` equals the reference encoding on every name without a
NUL byte.  For such a name and every 64-bit snap it appends `/`, the specification's
`escape(name)`, `_` and the specification's snaptag; and the three instances of the
specification hold: `.secret/with\slash` at NOSNAP gives `\.secret\swith\\slash_head`,
`("x", 0x2a)` gives `x_2a` when 0x2a is not a sentinel, and `("x", SNAPDIR)` gives
`x_snapdir`. -/
theorem append_oname_eq_spec :
    (∀ (K : SnapSentinels) (name : List Char) (snap : Nat) (s : List Char),
      (∀ c ∈ name, c ≠ Char.ofNat 0) → snap < 2 ^ 64 →
      append_oname K ⟨name, snap⟩ s = c_str s ++ '/' :: spec_oname K ⟨name, snap⟩) ∧
    (∀ K : SnapSentinels,
      append_oname K ⟨".secret/with\\slash".toList, K.CEPH_NOSNAP⟩ [] =
        "/\\.secret\\swith\\\\slash_head".toList) ∧
    (∀ K : SnapSentinels, K.CEPH_NOSNAP ≠ 0x2a → K.CEPH_SNAPDIR ≠ 0x2a →
      append_oname K ⟨"x".toList, 0x2a⟩ [] = "/x_2a".toList) ∧
    (∀ K : SnapSentinels, K.CEPH_SNAPDIR ≠ K.CEPH_NOSNAP →
      append_oname K ⟨"x".toList, K.CEPH_SNAPDIR⟩ [] = "/x_snapdir".toList) := by
  refine ⟨?_, ?_, ?_, ?_⟩
  · intro K name snap s hname hsnap
    unfold append_oname spec_oname spec_escape List.enum
    simp only [c_str_eq_self name hname, append_oname_loop_eq_spec,
      append_oname_tag_eq_spec K snap hsnap]
  · intro K
    have h : append_oname_tag K K.CEPH_NOSNAP = "_head".toList := by simp [append_oname_tag]
    simp only [append_oname, h]
    decide
  · intro K h1 h2
    have h : append_oname_tag K 0x2a = "_2a".toList := by
      unfold append_oname_tag
      rw [if_neg (fun e => h1 e.symm), if_neg (fun e => h2 e.symm)]
      decide
    simp only [append_oname, h]
    decide
  · intro K h1
    have h : append_oname_tag K K.CEPH_SNAPDIR = "_snapdir".toList := by
      simp [append_oname_tag, h1]
    simp only [append_oname, h]
    decide

/-- Witness of C2: the general statement at the name `.secret/with\slash`, snap 0x2a,
appended to the directory `/d/c`. -/
theorem append_oname_eq_spec_witness :
    (∀ c ∈ ".secret/with\\slash".toList, c ≠ Char.ofNat 0) ∧ 42 < 2 ^ 64 ∧
    append_oname ceph_sentinels ⟨".secret/with\\slash".toList, 42⟩ "/d/c".toList =
      c_str "/d/c".toList ++ '/' :: spec_oname ceph_sentinels ⟨".secret/with\\slash".toList, 42⟩ :=
  ⟨by decide, by decide,
    append_oname_eq_spec.1 ceph_sentinels ".secret/with\\slash".toList 42 "/d/c".toList
      (by decide) (by decide)⟩

/-- Counterexample to C2 as stated: for the three-byte name `a`, NUL, `b` the loop of
`append_oname` stops at the NUL and writes `/a_head`, whereas the reference encoding
copies all three bytes. -/
theorem append_oname_nul_counterexample :
    append_oname ceph_sentinels ⟨['a', Char.ofNat 0, 'b'], ceph_sentinels.CEPH_NOSNAP⟩ [] =
        "/a_head".toList ∧
      append_oname ceph_sentinels ⟨['a', Char.ofNat 0, 'b'], ceph_sentinels.CEPH_NOSNAP⟩ [] ≠
        c_str [] ++ '/' :: spec_oname ceph_sentinels
          ⟨['a', Char.ofNat 0, 'b'], ceph_sentinels.CEPH_NOSNAP⟩ := by
  decide

/-- C3: path safety of the encoded object name.  For every name (in particular the
empty name, `.` and `..`) and every snap, the file name that `append_oname` writes after
the `/` contains no `/`, does not begin with `.`, is neither `.` nor `..`, and is not
skipped by the dot-file test of the listing functions. -/
theorem append_oname_path_safe (K : SnapSentinels) (name : List Char) (snap : Nat)
    (s : List Char) :
    '/' ∉ (append_oname K ⟨name, snap⟩ s).drop ((c_str s).length + 1) ∧
    ((append_oname K ⟨name, snap⟩ s).drop ((c_str s).length + 1)).head? ≠ some '.' ∧
    (append_oname K ⟨name, snap⟩ s).drop ((c_str s).length + 1) ≠ ".".toList ∧
    (append_oname K ⟨name, snap⟩ s).drop ((c_str s).length + 1) ≠ "..".toList ∧
    is_dot_entry ((append_oname K ⟨name, snap⟩ s).drop ((c_str s).length + 1)) = false := by
  rw [append_oname_drop]
  obtain ⟨tag, htag, hslash⟩ := append_oname_tag_shape K snap
  simp only [htag]
  have hhead := append_oname_head_ne_dot (c_str name) tag
  have hnoslash : '/' ∉ append_oname_loop 0 (c_str name) ++ '_' :: tag := by
    simp only [List.mem_append, List.mem_cons, not_or]
    exact ⟨append_oname_loop_no_slash _ 0, by decide, hslash⟩
  refine ⟨hnoslash, hhead, ?_, ?_, ?_⟩
  · intro h; rw [h] at hhead; exact hhead rfl
  · intro h; rw [h] at hhead; exact hhead rfl
  · unfold is_dot_entry
    cases hf : append_oname_loop 0 (c_str name) ++ '_' :: tag with
    | nil => simp [c_str]
    | cons c rest =>
      rw [hf] at hhead
      have hc : c ≠ '.' := by simpa using hhead
      by_cases h0 : c = Char.ofNat 0
      · simp [c_str, h0]
      · simp [c_str, h0, hc]

/-! ## Claims C4 to C7: error handling of the apply engine and the low-level ops -/

theorem _apply_transaction_returns_zero {W : Type} (run : LowCall → W → W × Int)
    (t : Transaction) (w w' : W) (r : Int) (h : _apply_transaction run t w = .ok (r, w')) :
    r = 0 := by
  unfold _apply_transaction at h
  cases hl : _apply_transaction_loop run t.ops t.args w with
  | error e => rw [hl] at h; cases h
  | ok p =>
    rw [hl] at h
    cases h
    rfl

/-- C4 (the code at the failing input): in the Transaction `REMOVE(c1, x); TOUCH(c1, y)`
the `_remove` call returns -2, yet `_apply_transaction` goes on to make the `_touch` call
and returns 0, and `apply_transactions` on the batch of that one Transaction returns 0
and hands the batch to the journal. -/
theorem _apply_transaction_drops_error :
    (failing_remove_run (._remove coll_c1 obj_x) []).2 = -2 ∧
    _apply_transaction failing_remove_run tx_remove_touch [] =
      .ok (0, [._remove coll_c1 obj_x, ._touch coll_c1 obj_y]) ∧
    apply_transactions (posix_callees failing_remove_run) false [tx_remove_touch]
        (some 1) (some 2) [] =
      .ok (0, [._remove coll_c1 obj_x, ._touch coll_c1 obj_y],
        [.op_start, .op_journal_start,
         .journal_transactions [tx_remove_touch] (some 1) (some 2),
         .pwrite_op_seq, .op_finish]) := by
  refine ⟨rfl, rfl, rfl⟩

theorem apply_transactions_trace_cases (tls : List Transaction) (onjournal ondisk : Context)
    (r : Int) (tr : List ApplyEv)
    (h : tr = .op_start :: (if 0 ≤ r then
        [.op_journal_start, .journal_transactions tls onjournal ondisk, .pwrite_op_seq,
          .op_finish]
      else [.op_journal_start, .delete_context onjournal, .delete_context ondisk,
          .op_finish]) ∨ (r < 0 ∧ tr = [.op_start, .op_journal_start, .op_finish])) :
    (0 ≤ r → tr = [.op_start, .op_journal_start,
        .journal_transactions tls onjournal ondisk, .pwrite_op_seq, .op_finish]) ∧
    (r < 0 → ∀ ev ∈ tr, (∀ b c d, ev ≠ .journal_transactions b c d) ∧ ev ≠ .pwrite_op_seq) := by
  rcases h with h | ⟨hr, h⟩
  · by_cases hr : 0 ≤ r
    · rw [if_pos hr] at h
      exact ⟨fun _ => h, fun hneg => absurd hr (not_le.mpr hneg)⟩
    · rw [if_neg hr] at h
      refine ⟨fun h0 => absurd h0 hr, fun _ ev hev => ?_⟩
      rw [h] at hev
      simp only [List.mem_cons, List.mem_singleton, List.not_mem_nil, or_false] at hev
      rcases hev with rfl | rfl | rfl | rfl | rfl <;> simp
  · refine ⟨fun h0 => absurd h0 (not_le.mpr hr), fun _ ev hev => ?_⟩
    rw [h] at hev
    simp only [List.mem_cons, List.mem_singleton, List.not_mem_nil, or_false] at hev
    rcases hev with rfl | rfl | rfl <;> simp

/-- The events of `apply_transactions` by result.  Whatever the callees do, when
`apply_transactions` returns `r`: if `r` is non-negative the events are exactly
`op_start`, `op_journal_start`, one `journal_transactions(tls, onjournal, ondisk)`, the
rewrite of the commit-sequence file, `op_finish`; if `r` is negative there is no
`journal_transactions` call and no rewrite of the commit-sequence file.  `r` is the
result of the backend: of `_do_usertrans` under UserTrans, the negative
`_transaction_start` result when the start fails, and otherwise the result of the apply
loop. -/
theorem apply_transactions_journal_iff {W : Type} (C : Callees W) (btrfs_usertrans : Bool)
    (tls : List Transaction) (onjournal ondisk : Context) (w w' : W) (r : Int)
    (tr : List ApplyEv)
    (h : apply_transactions C btrfs_usertrans tls onjournal ondisk w = .ok (r, w', tr)) :
    (0 ≤ r → tr = [.op_start, .op_journal_start,
        .journal_transactions tls onjournal ondisk, .pwrite_op_seq, .op_finish]) ∧
    (r < 0 → ∀ ev ∈ tr, (∀ b c d, ev ≠ .journal_transactions b c d) ∧ ev ≠ .pwrite_op_seq) ∧
    (btrfs_usertrans = true → C._do_usertrans tls w = .ok (r, w')) ∧
    (btrfs_usertrans = false → ∃ id w1, C._transaction_start w = .ok (id, w1) ∧
      ((id < 0 ∧ r = id ∧ w' = w1) ∨
       (0 ≤ id ∧ ∃ w2, apply_transactions_loop C tls 0 w1 = .ok (r, w2) ∧
          w' = C._transaction_finish id w2))) := by
  unfold apply_transactions at h
  cases btrfs_usertrans with
  | true =>
    simp only [if_true] at h
    cases hd : C._do_usertrans tls w with
    | error e => rw [hd] at h; cases h
    | ok p =>
      obtain ⟨r0, w0⟩ := p
      rw [hd] at h
      simp only [bind, Except.bind, pure, Except.pure, Except.ok.injEq, Prod.mk.injEq] at h
      obtain ⟨rfl, rfl, htr⟩ := h
      have := apply_transactions_trace_cases tls onjournal ondisk r0 tr (Or.inl htr.symm)
      exact ⟨this.1, this.2, fun _ => rfl, fun hf => by cases hf⟩
  | false =>
    simp only [Bool.false_eq_true, if_false] at h
    cases hs : C._transaction_start w with
    | error e => rw [hs] at h; cases h
    | ok p =>
      obtain ⟨id, w1⟩ := p
      rw [hs] at h
      simp only [bind, Except.bind] at h
      by_cases hid : id < 0
      · rw [if_pos hid] at h
        simp only [pure, Except.pure, Except.ok.injEq, Prod.mk.injEq] at h
        obtain ⟨rfl, rfl, htr⟩ := h
        have := apply_transactions_trace_cases tls onjournal ondisk id tr
          (Or.inr ⟨hid, htr.symm⟩)
        exact ⟨this.1, this.2, (fun hf => by cases hf),
          fun _ => ⟨id, w1, rfl, Or.inl ⟨hid, rfl, rfl⟩⟩⟩
      · rw [if_neg hid] at h
        cases hl : apply_transactions_loop C tls 0 w1 with
        | error e => rw [hl] at h; cases h
        | ok q =>
          obtain ⟨r1, w2⟩ := q
          rw [hl] at h
          simp only [pure, Except.pure, Except.ok.injEq, Prod.mk.injEq] at h
          obtain ⟨rfl, rfl, htr⟩ := h
          have := apply_transactions_trace_cases tls onjournal ondisk r1 tr (Or.inl htr.symm)
          exact ⟨this.1, this.2, (fun hf => by cases hf),
            fun _ => ⟨id, w1, rfl, Or.inr ⟨not_lt.mp hid, w2, hl, rfl⟩⟩⟩

/-- C5 (the code at the failing input): on a store with the TRANS_START interface
whose TRANS_START ioctl fails with `ENOTTY` (25), `apply_transactions` of the batch
`TOUCH(c1, x)` with the callbacks 1 and 2 leaves through the early `return id` with -25:
nothing is journaled and the commit-sequence file is not rewritten, but the two callbacks
are not deleted either.  This holds for every failing `_transaction_start`, whatever the
callees do.  On the path of a failing USERTRANS ioctl the same batch ends with
`delete onjournal; delete ondisk;`. -/
theorem apply_transactions_start_failure_leaks :
    apply_transactions (store_callees ceph_sentinels "/d".toList mount_env low_ok flags_bracket)
        false [tx_touch] (some 1) (some 2) {} =
      .ok (-25, {}, [.op_start, .op_journal_start, .op_finish]) ∧
    apply_transactions (store_callees ceph_sentinels "/d".toList mount_env low_ok flags_usertrans)
        true [tx_touch] (some 1) (some 2) {} =
      .ok (-1, {}, [.op_start, .op_journal_start, .delete_context (some 1),
        .delete_context (some 2), .op_finish]) ∧
    (∀ {W : Type} (C : Callees W) (tls : List Transaction) (onjournal ondisk : Context)
      (w w1 : W) (id : Int), C._transaction_start w = .ok (id, w1) → id < 0 →
      apply_transactions C false tls onjournal ondisk w =
        .ok (id, w1, [.op_start, .op_journal_start, .op_finish])) := by
  refine ⟨rfl, rfl, ?_⟩
  intro W C tls onjournal ondisk w w1 id hs hid
  unfold apply_transactions
  simp only [Bool.false_eq_true, if_false, hs, bind, Except.bind, hid, if_true, pure,
    Except.pure]

theorem _clone_ret_zero (e : CloneEnv) : (_clone e).ret = 0 := rfl

/-- C6 (the code at the failing input): when the source cannot be opened (`open` returns
-1 with errno ENOENT = 2) the local `r` of `_clone` is -2 but the function returns 0;
the same happens when the destination cannot be opened (EACCES = 13) and when the copy
fails (EIO = 5). -/
theorem _clone_returns_zero_on_failure :
    _clone { btrfs := 0, open_old := -1, errno_open_old := 2, open_new := 4,
             errno_open_new := 0, ioctl_clone := 0, do_clone_range := 0, errno_clone := 0 } =
      { r := -2, ret := 0 } ∧
    _clone { btrfs := 0, open_old := 3, errno_open_old := 0, open_new := -1,
             errno_open_new := 13, ioctl_clone := 0, do_clone_range := 0, errno_clone := 0 } =
      { r := -13, ret := 0 } ∧
    _clone { btrfs := 0, open_old := 3, errno_open_old := 0, open_new := 4,
             errno_open_new := 0, ioctl_clone := 0, do_clone_range := -1, errno_clone := 5 } =
      { r := -5, ret := 0 } := by
  decide

/-- C7 (the code at the failing input): for the buffer list of the one buffer `abcd`,
when the `write` call fails (returns -1) `_write` returns 0, and when it writes only 2
of the 4 bytes `_write` returns 2; neither result is negative.  When the call writes all
4 bytes the result is 4. -/
theorem _write_short_write_not_error :
    _write 3 0 0 (fun _ => -1) 0 ["abcd".toList] = .ok 0 ∧
    _write 3 0 0 (fun _ => 2) 0 ["abcd".toList] = .ok 2 ∧
    _write 3 0 0 (fun _ => 4) 0 ["abcd".toList] = .ok 4 := by
  decide

theorem except_map_bind {ε α β γ : Type} (x : Except ε α) (f : α → Except ε β) (h : β → γ) :
    (x >>= f).map h = x >>= fun y => (f y).map h := by
  cases x <;> rfl

theorem except_map_pure {ε β γ : Type} (x : β) (h : β → γ) :
    (pure x : Except ε β).map h = pure (h x) := rfl

theorem except_map_error {ε β γ : Type} (e : ε) (h : β → γ) :
    (Except.error e : Except ε β).map h = Except.error e := rfl

theorem except_map_ite {ε β γ : Type} (c : Prop) [Decidable c] (x y : Except ε β)
    (h : β → γ) : (if c then x else y).map h = if c then x.map h else y.map h := by
  split_ifs <;> rfl

theorem _do_usertrans_case_acc (K : SnapSentinels) (basedir : List Char)
    (getattrs : List Char → List (List Char)) (opcode : OpCode) (a : TxArgs)
    (ops : List btrfs_ioctl_usertrans_op) (ss : Bool) :
    _do_usertrans_case K basedir getattrs opcode a ops ss =
      (_do_usertrans_case K basedir getattrs opcode a [] false).map
        (fun p => (p.1, ops ++ p.2.1, ss || p.2.2)) := by
  cases opcode <;>
    simp only [_do_usertrans_case, except_map_bind, except_map_pure, except_map_error,
      except_map_ite, List.nil_append, Bool.or_false, Bool.or_true, List.append_assoc,
      List.append_nil]

theorem _do_usertrans_ops_acc (K : SnapSentinels) (basedir : List Char)
    (getattrs : List Char → List (List Char)) (l : List OpCode) :
    ∀ (a : TxArgs) (ops : List btrfs_ioctl_usertrans_op) (ss : Bool),
    _do_usertrans_ops K basedir getattrs l a ops ss =
      (_do_usertrans_ops K basedir getattrs l a [] false).map
        (fun p => (ops ++ p.1, ss || p.2)) := by
  induction l with
  | nil => intro a ops ss; simp [_do_usertrans_ops, Except.map]
  | cons opc rest ih =>
    intro a ops ss
    rw [_do_usertrans_ops, _do_usertrans_case_acc]
    conv_rhs => rw [_do_usertrans_ops]
    cases hc : _do_usertrans_case K basedir getattrs opc a [] false with
    | error e => rfl
    | ok p =>
      obtain ⟨a', g', s'⟩ := p
      simp only [Except.map, bind, Except.bind]
      rw [ih a' (ops ++ g') (ss || s'), ih a' g' s']
      cases _do_usertrans_ops K basedir getattrs rest a' [] false <;>
        simp [Except.map, List.append_assoc, Bool.or_assoc]

theorem _do_usertrans_loop_acc (K : SnapSentinels) (basedir : List Char)
    (getattrs : List Char → List (List Char)) (ls : List Transaction) :
    ∀ (ops : List btrfs_ioctl_usertrans_op) (ss : Bool),
    _do_usertrans_loop K basedir getattrs ls ops ss =
      (_do_usertrans_loop K basedir getattrs ls [] false).map
        (fun p => (ops ++ p.1, ss || p.2)) := by
  induction ls with
  | nil => intro ops ss; simp [_do_usertrans_loop, Except.map]
  | cons t rest ih =>
    intro ops ss
    rw [_do_usertrans_loop, _do_usertrans_ops_acc]
    conv_rhs => rw [_do_usertrans_loop]
    cases hc : _do_usertrans_ops K basedir getattrs t.ops t.args [] false with
    | error e => rfl
    | ok p =>
      obtain ⟨g', s'⟩ := p
      simp only [Except.map, bind, Except.bind]
      rw [ih (ops ++ g') (ss || s'), ih g' s']
      cases _do_usertrans_loop K basedir getattrs rest [] false <;>
        simp [Except.map, List.append_assoc, Bool.or_assoc]

theorem _do_usertrans_loop_append (K : SnapSentinels) (basedir : List Char)
    (getattrs : List Char → List (List Char)) (b1 b2 : List Transaction) :
    ∀ (ops : List btrfs_ioctl_usertrans_op) (ss : Bool),
    _do_usertrans_loop K basedir getattrs (b1 ++ b2) ops ss =
      (_do_usertrans_loop K basedir getattrs b1 ops ss >>= fun p =>
        _do_usertrans_loop K basedir getattrs b2 p.1 p.2) := by
  induction b1 with
  | nil => intro ops ss; rfl
  | cons t rest ih =>
    intro ops ss
    rw [List.cons_append, _do_usertrans_loop, _do_usertrans_loop]
    cases _do_usertrans_ops K basedir getattrs t.ops t.args ops ss with
    | error e => rfl
    | ok p =>
      simp only [bind, Except.bind]
      exact ih p.1 p.2

/-- C8: order preservation of the UserTrans marshaller (the file system state read by
RMATTRS, `getattrs`, held fixed).  The op-record vector of a batch `b1 ++ b2` is the
vector of `b1` followed by the vector of `b2`; the vector of `t :: b` is the records of
`t` followed by the vector of `b`; and the records of a Transaction whose next opcode is
`opcode` are the record group of that op followed by the records of the remaining ops.
In each case a fault of the earlier part is the fault of the whole, and `start_sync` is
the disjunction of the parts. -/
theorem _do_usertrans_marshal_append (K : SnapSentinels) (basedir : List Char)
    (getattrs : List Char → List (List Char)) :
    (∀ b1 b2 : List Transaction,
      _do_usertrans_marshal K basedir getattrs (b1 ++ b2) = (do
        let p1 ← _do_usertrans_marshal K basedir getattrs b1
        let p2 ← _do_usertrans_marshal K basedir getattrs b2
        pure (p1.1 ++ p2.1, p1.2 || p2.2))) ∧
    (∀ (t : Transaction) (b : List Transaction),
      _do_usertrans_marshal K basedir getattrs (t :: b) = (do
        let g ← _do_usertrans_ops K basedir getattrs t.ops t.args [] false
        let p ← _do_usertrans_marshal K basedir getattrs b
        pure (g.1 ++ p.1, g.2 || p.2))) ∧
    (∀ (opcode : OpCode) (rest : List OpCode) (a : TxArgs),
      _do_usertrans_ops K basedir getattrs (opcode :: rest) a [] false = (do
        let c ← _do_usertrans_case K basedir getattrs opcode a [] false
        let p ← _do_usertrans_ops K basedir getattrs rest c.1 [] false
        pure (c.2.1 ++ p.1, c.2.2 || p.2))) := by
  refine ⟨?_, ?_, ?_⟩
  · intro b1 b2
    unfold _do_usertrans_marshal
    rw [_do_usertrans_loop_append]
    cases _do_usertrans_loop K basedir getattrs b1 [] false with
    | error e => rfl
    | ok p =>
      simp only [bind, Except.bind]
      rw [_do_usertrans_loop_acc]
      cases _do_usertrans_loop K basedir getattrs b2 [] false <;> rfl
  · intro t b
    unfold _do_usertrans_marshal
    rw [_do_usertrans_loop]
    cases _do_usertrans_ops K basedir getattrs t.ops t.args [] false with
    | error e => rfl
    | ok p =>
      simp only [bind, Except.bind]
      rw [_do_usertrans_loop_acc]
      cases _do_usertrans_loop K basedir getattrs b [] false <;> rfl
  · intro opcode rest a
    rw [_do_usertrans_ops]
    cases _do_usertrans_case K basedir getattrs opcode a [] false with
    | error e => rfl
    | ok p =>
      simp only [bind, Except.bind]
      rw [_do_usertrans_ops_acc]
      cases _do_usertrans_ops K basedir getattrs rest p.1 [] false <;> rfl

/-! ## Claims C9 and C10: the two backends compared -/

theorem _do_usertrans_coll_add_swapped (K : SnapSentinels) (basedir : List Char)
    (getattrs : List Char → List (List Char)) (c1 c2 : coll_t) (o : sobject_t) :
    _do_usertrans_marshal K basedir getattrs
        [{ ops := [.OP_COLL_ADD], args := { cids := [c1, c2], oids := [o] } }] =
      .ok ([{ op := .LINK, args0 := .str (get_coname K basedir c1 o),
              args1 := .str (get_coname K basedir c2 o) }], false) ∧
    _apply_transaction log_run
        { ops := [.OP_COLL_ADD], args := { cids := [c1, c2], oids := [o] } } [] =
      .ok (0, [._collection_add c1 c2 o]) ∧
    _collection_add K basedir false c1 c2 o =
      .link (get_coname K basedir c2 o) (get_coname K basedir c1 o) :=
  ⟨rfl, rfl, rfl⟩

/-- C9 (the code at the failing input): for `COLL_ADD` with the collection ids `c1`, `c2`
read in this order and the object `x`, on the store `/d`, `_do_usertrans` emits
`LINK(existing = /d/c1/x_head, new = /d/c2/x_head)`, whereas `_apply_transaction` calls
`_collection_add(c1, c2, x)`, which calls `::link(existing = /d/c2/x_head,
new = /d/c1/x_head)`: the two backends link in opposite directions. -/
theorem coll_add_backends_disagree :
    _do_usertrans_marshal ceph_sentinels "/d".toList (fun _ => []) [tx_coll_add] =
      .ok ([{ op := .LINK, args0 := .str "/d/c1/x_head".toList,
              args1 := .str "/d/c2/x_head".toList }], false) ∧
    _apply_transaction log_run tx_coll_add [] =
      .ok (0, [._collection_add coll_c1 coll_c2 obj_x]) ∧
    _collection_add ceph_sentinels "/d".toList false coll_c1 coll_c2 obj_x =
      .link "/d/c2/x_head".toList "/d/c1/x_head".toList := by
  decide

/-- C10 (the code at the failing input): for the Transaction
`TRIMCACHE(c1, x, 0, 10); TOUCH(c1, y)`, `_apply_transaction` consumes the TRIMCACHE op
with its arguments, calls `trim_from_cache` and goes on to the `_touch` call, but
`_do_usertrans` has no case for the opcode and stops at the `bad op` assertion. -/
theorem _do_usertrans_trimcache_bad_op :
    _apply_transaction log_run tx_trimcache_touch [] =
      .ok (0, [.trim_from_cache coll_c1 obj_x 0 10, ._touch coll_c1 obj_y]) ∧
    _do_usertrans_marshal ceph_sentinels "/d".toList (fun _ => []) [tx_trimcache_touch] =
      .error .bad_op ∧
    (∀ ioctl, _do_usertrans ceph_sentinels "/d".toList (fun _ => []) ioctl
      [tx_trimcache_touch] = .error .bad_op) :=
  ⟨by decide, by decide, fun _ => rfl⟩


/-! ## Claims C11 and C20: ZERO and CLONE -/

theorem _do_usertrans_zero_records (K : SnapSentinels) (basedir : List Char)
    (getattrs : List Char → List (List Char)) (cid : coll_t) (oid : sobject_t)
    (off len : Nat) :
    _do_usertrans_marshal K basedir getattrs
        [{ ops := [.OP_ZERO], args := { cids := [cid], oids := [oid], lengths := [off, len] } }] =
      .ok ([{ op := .OPEN, args0 := .str (get_coname K basedir cid oid),
              args1 := .oflags { O_WRONLY := true, O_CREAT := true }, args2 := .num 0o644,
              flags := { FD_SAVE := true }, fd_num := 0 },
            { op := .PWRITE, args0 := .num 0, args1 := .buf (List.replicate len (Char.ofNat 0)),
              args2 := .num len, args3 := .num off, flags := { FD_ARG0 := true } },
            { op := .CLOSE, args0 := .num 0, flags := { FD_ARG0 := true } }], false) := by
  simp [_do_usertrans_marshal, _do_usertrans_loop, _do_usertrans_ops, _do_usertrans_case,
    TxArgs.get_length, TxArgs.get_cid, TxArgs.get_oid, bufferlist.length, usertrans_pwrites,
    bind, Except.bind, pure, Except.pure]

/-- C11 (the code at the failing input): for `ZERO(c1, x, off = 8, len = 4)` the UserTrans
realization emits OPEN, one PWRITE of four zero bytes at offset 8, and CLOSE, but the POSIX
realization `_zero` hands `_write` the freshly allocated buffer as it is: with an allocator
whose memory holds `xxxx` the buffer list is `xxxx`, not four zero bytes. -/
theorem _zero_buffer_not_zeroed :
    _zero fresh_dirty coll_c1 obj_x 8 4 = ._write coll_c1 obj_x 8 4 ["xxxx".toList] ∧
    "xxxx".toList ≠ List.replicate 4 (Char.ofNat 0) ∧
    _do_usertrans_marshal ceph_sentinels "/d".toList (fun _ => []) [tx_zero] =
      .ok ([{ op := .OPEN, args0 := .str "/d/c1/x_head".toList,
              args1 := .oflags { O_WRONLY := true, O_CREAT := true }, args2 := .num 0o644,
              flags := { FD_SAVE := true }, fd_num := 0 },
            { op := .PWRITE, args0 := .num 0, args1 := .buf (List.replicate 4 (Char.ofNat 0)),
              args2 := .num 4, args3 := .num 8, flags := { FD_ARG0 := true } },
            { op := .CLOSE, args0 := .num 0, flags := { FD_ARG0 := true } }], false) := by
  decide

/-- C20 (amended): for every `CLONE(o, n)` in a collection, `_do_usertrans` emits exactly
five records in this order: OPEN of the path of `o` with `O_RDONLY` and `fd_num` 0, OPEN of
the path of `n` with `O_WRONLY|O_CREAT|O_TRUNC`, mode 0644 and `fd_num` 1, CLONERANGE with
flags `FD_ARG0|FD_ARG1` and args `(1, 0, 0, 0)`, that is, the slot of the destination
first and the slot of the source second, then CLOSE of slot 0 and CLOSE of slot 1. -/
theorem _do_usertrans_clone_records (K : SnapSentinels) (basedir : List Char)
    (getattrs : List Char → List (List Char)) (cid : coll_t) (o n : sobject_t) :
    _do_usertrans_marshal K basedir getattrs
        [{ ops := [.OP_CLONE], args := { cids := [cid], oids := [o, n] } }] =
      .ok ([{ op := .OPEN, args0 := .str (get_coname K basedir cid o),
              args1 := .oflags O_RDONLY, fd_num := 0 },
            { op := .OPEN, args0 := .str (get_coname K basedir cid n),
              args1 := .oflags { O_WRONLY := true, O_CREAT := true, O_TRUNC := true },
              args2 := .num 0o644, fd_num := 1 },
            { op := .CLONERANGE, args0 := .num 1, args1 := .num 0, args2 := .num 0,
              args3 := .num 0, flags := { FD_ARG0 := true, FD_ARG1 := true } },
            { op := .CLOSE, args0 := .num 0, flags := { FD_ARG0 := true } },
            { op := .CLOSE, args0 := .num 1, flags := { FD_ARG0 := true } }], false) :=
  rfl

/-- Counterexample to C20 as stated: for `CLONE(c1, x, y)` the records are not the five
of the claim, whose CLONERANGE has args `(0, 1, 0, 0)` (slot of the source `x`, slot of
the destination `y`): the CLONERANGE that is emitted has `args[0] = 1` and `args[1] = 0`. -/
theorem _do_usertrans_clone_args_counterexample :
    _do_usertrans_marshal ceph_sentinels "/d".toList (fun _ => []) [tx_clone] ≠
      .ok ([{ op := .OPEN, args0 := .str "/d/c1/x_head".toList,
              args1 := .oflags O_RDONLY, fd_num := 0 },
            { op := .OPEN, args0 := .str "/d/c1/y_head".toList,
              args1 := .oflags { O_WRONLY := true, O_CREAT := true, O_TRUNC := true },
              args2 := .num 0o644, fd_num := 1 },
            { op := .CLONERANGE, args0 := .num 0, args1 := .num 1, args2 := .num 0,
              args3 := .num 0, flags := { FD_ARG0 := true, FD_ARG1 := true } },
            { op := .CLOSE, args0 := .num 0, flags := { FD_ARG0 := true } },
            { op := .CLOSE, args0 := .num 1, flags := { FD_ARG0 := true } }], false) ∧
    (_do_usertrans_marshal ceph_sentinels "/d".toList (fun _ => []) [tx_clone]).map
        (fun p => p.1.map (fun r => (r.op, r.args0, r.args1))) =
      .ok [(.OPEN, .str "/d/c1/x_head".toList, .oflags O_RDONLY),
           (.OPEN, .str "/d/c1/y_head".toList,
             .oflags { O_WRONLY := true, O_CREAT := true, O_TRUNC := true }),
           (.CLONERANGE, .num 1, .num 0), (.CLOSE, .num 0, .num 0), (.CLOSE, .num 1, .num 0)] := by
  decide

/-! ## Claims C14 to C16: attributes -/

theorem _getattrs_names_append (n : List Char) (hn : ∀ c ∈ n, c ≠ Char.ofNat 0) :
    ∀ (cur rest : List Char),
      _getattrs_names (n ++ Char.ofNat 0 :: rest) cur =
        (cur.reverse ++ n) :: _getattrs_names rest [] := by
  induction n with
  | nil => intro cur rest; simp [_getattrs_names]
  | cons c cs ih =>
    intro cur rest
    have hc : c ≠ Char.ofNat 0 := hn c (List.mem_cons_self _ _)
    have hcs : ∀ d ∈ cs, d ≠ Char.ofNat 0 := fun d hd => hn d (List.mem_cons_of_mem _ hd)
    simp [_getattrs_names, hc, ih hcs]

theorem _getattrs_names_buf (xs : XattrList)
    (hnul : ∀ p ∈ xs, ∀ c ∈ p.1, c ≠ Char.ofNat 0) :
    _getattrs_names (xattr_names_buf xs) [] = xs.map Prod.fst := by
  induction xs with
  | nil => rfl
  | cons p rest ih =>
    have hp := hnul p (List.mem_cons_self _ _)
    have hrest : ∀ q ∈ rest, ∀ c ∈ q.1, c ≠ Char.ofNat 0 :=
      fun q hq => hnul q (List.mem_cons_of_mem _ hq)
    have : xattr_names_buf (p :: rest) = p.1 ++ Char.ofNat 0 :: xattr_names_buf rest := by
      simp [xattr_names_buf]
    rw [this, _getattrs_names_append p.1 hp, ih hrest]
    simp

theorem _getattrs_eq_loop (xs : XattrList) (user_only : Bool)
    (aset : List (List Char × bufferptr))
    (hnul : ∀ p ∈ xs, ∀ c ∈ p.1, c ≠ Char.ofNat 0) :
    _getattrs (some xs) user_only aset =
      _getattrs_loop (some xs) user_only (xs.map Prod.fst) aset := by
  unfold _getattrs do_listxattr
  by_cases h99 : (xattr_names_buf xs).length ≤ 99
  · simp only [show (99 : Nat) ≠ 0 by decide, if_false, if_pos h99]
    have h1 : ((xattr_names_buf xs).length : Int) ≠ -ERANGE := by
      unfold ERANGE; omega
    have h2 : ¬ ((xattr_names_buf xs).length : Int) < 0 := by omega
    simp only [h1, h2, if_false, Int.toNat_ofNat, List.take_length]
    rw [_getattrs_names_buf xs hnul]
  · have hne : (xattr_names_buf xs).length ≠ 0 := by omega
    have h2 : ¬ ((xattr_names_buf xs).length : Int) < 0 := by omega
    simp only [show (99 : Nat) ≠ 0 by decide, if_false, if_neg h99, if_true, h2,
      Int.toNat_ofNat, hne, le_refl, List.take_length]
    rw [_getattrs_names_buf xs hnul]

theorem lookup_of_mem_nodup (xs : XattrList) (n v : List Char)
    (hnodup : (xs.map Prod.fst).Nodup) (hmem : (n, v) ∈ xs) : xs.lookup n = some v := by
  induction xs with
  | nil => cases hmem
  | cons p rest ih =>
    obtain ⟨pn, pv⟩ := p
    simp only [List.map_cons, List.nodup_cons] at hnodup
    rcases List.mem_cons.mp hmem with h | h
    · cases h
      simp [List.lookup]
    · have hne : n ≠ pn := by
        intro e
        subst e
        exact hnodup.1 (List.mem_map.mpr ⟨(n, v), h, rfl⟩)
      rw [List.lookup_cons]
      have : (n == pn) = false := by simpa using hne
      rw [this]
      exact ih hnodup.2 h

theorem _getattr_of_lookup (xs : XattrList) (n v : List Char)
    (h : xs.lookup (c_str n) = some v) :
    _getattr (some xs) n = ((v.length : Int), some v) := by
  unfold _getattr do_getxattr
  simp only [h]
  by_cases h100 : v.length ≤ 100
  · have : (0 : Int) ≤ (v.length : Int) := by omega
    simp [h100, this]
  · have hne : v.length ≠ 0 := by omega
    have hE : ¬ (0 : Int) ≤ -ERANGE := by unfold ERANGE; omega
    simp [h100, hE, hne]

theorem _getattrs_loop_step (xs : XattrList) (u : Bool) (n v : List Char)
    (ns : List (List Char)) (aset : List (List Char × bufferptr))
    (hn : ∀ c ∈ n, c ≠ Char.ofNat 0) (hlook : xs.lookup n = some v)
    (hfresh : ∀ k w, getattrs_entry u (n, v) = some (k, w) → aset.lookup k = none) :
    _getattrs_loop (some xs) u (n :: ns) aset =
      _getattrs_loop (some xs) u ns (aset ++ (getattrs_entry u (n, v)).toList) := by
  have hc : c_str n = n := c_str_eq_self n hn
  have hga : _getattr (some xs) n = ((v.length : Int), some v) :=
    _getattr_of_lookup xs n v (by rw [hc]; exact hlook)
  have hnn : ¬ ((v.length : Int) < 0) := by omega
  rw [_getattrs_loop]
  unfold parse_attrname
  rw [hc]
  by_cases hp : n.take 10 = "user.ceph.".toList
  · rw [if_pos hp]
    cases u with
    | false =>
      by_cases hne : n.drop 10 = []
      · have he : getattrs_entry false (n, v) = none := by
          unfold getattrs_entry; simp only [hp, hne]; simp
        rw [he]
        simp [hne]
      · have he : getattrs_entry false (n, v) = some (n.drop 10, v) := by
          simp only [getattrs_entry, hp, if_true, Bool.false_eq_true, if_false, ne_eq, hne,
            not_false_eq_true]
        have hf := hfresh _ _ he
        rw [he]
        simp only [Bool.false_eq_true, if_false, ne_eq, hne, not_false_eq_true, and_self,
          if_true, hga, hnn, map_assign, hf, Option.isSome_none, Option.toList_some]
    | true =>
      have htail : (n.drop 10).tail = n.drop 11 := by simp [List.tail_drop]
      by_cases hh : (n.drop 10).head? = some '_'
      · by_cases hne : n.drop 11 = []
        · have he : getattrs_entry true (n, v) = none := by
            unfold getattrs_entry; simp only [hp, hne, hh]; simp
          rw [he]
          simp only [if_true, hh, htail, hne, ne_eq, not_true_eq_false, false_and, if_false,
            Option.toList_none, List.append_nil]
        · have he : getattrs_entry true (n, v) = some (n.drop 11, v) := by
            simp only [getattrs_entry, hp, if_true, hh, ne_eq, hne, not_false_eq_true,
              and_self]
          have hf := hfresh _ _ he
          rw [he]
          simp only [if_true, hh, htail, hne, ne_eq, not_false_eq_true, decide_True, and_self,
            hga, hnn, if_false, map_assign, hf, Option.isSome_none, Bool.false_eq_true,
            Option.toList_some]
      · have he : getattrs_entry true (n, v) = none := by
          unfold getattrs_entry; simp only [hp, hh]; simp
        rw [he]
        simp only [if_true, hh, decide_False, Bool.false_eq_true, and_false, if_false,
          Option.toList_none, List.append_nil]
  · have he : getattrs_entry u (n, v) = none := by
      unfold getattrs_entry; simp only [hp]; simp
    rw [he, if_neg hp]
    simp

theorem getattrs_entry_name (u : Bool) (n v k : List Char) (w : bufferptr)
    (h : getattrs_entry u (n, v) = some (k, w)) :
    w = v ∧ k ≠ [] ∧
      n = "user.ceph.".toList ++ (if u then '_' :: k else k) := by
  unfold getattrs_entry at h
  simp only at h
  split_ifs at h with hp hu hc hc
  · simp only [Option.some.injEq, Prod.mk.injEq] at h
    obtain ⟨hk, hw⟩ := h
    refine ⟨hw.symm, hk ▸ hc.2, ?_⟩
    have h1 : n = n.take 10 ++ n.drop 10 := (List.take_append_drop 10 n).symm
    have h2 : n.drop 10 = '_' :: n.drop 11 := by
      cases hd : n.drop 10 with
      | nil => rw [hd] at hc; simp at hc
      | cons a t =>
        rw [hd] at hc
        simp only [List.head?_cons, Option.some.injEq] at hc
        have ht : (n.drop 10).tail = n.drop 11 := by simp [List.tail_drop]
        rw [hd] at ht
        simp only [List.tail_cons] at ht
        rw [hc.1, ht]
    rw [hu, if_pos rfl, ← hk, ← h2, ← hp]
    exact h1
  · simp only [Option.some.injEq, Prod.mk.injEq] at h
    obtain ⟨hk, hw⟩ := h
    refine ⟨hw.symm, hk ▸ hc, ?_⟩
    have hu' : u = false := by simpa using hu
    rw [hu', ← hk, ← hp]
    simp

theorem lookup_eq_none_of_forall (l : List (List Char × bufferptr)) (k : List Char)
    (h : ∀ q ∈ l, q.1 ≠ k) : l.lookup k = none := by
  induction l with
  | nil => rfl
  | cons q rest ih =>
    obtain ⟨qk, qv⟩ := q
    have hq : qk ≠ k := h (qk, qv) (List.mem_cons_self _ _)
    rw [List.lookup_cons]
    have : (k == qk) = false := by simpa using fun e => hq e.symm
    rw [this]
    exact ih (fun r hr => h r (List.mem_cons_of_mem _ hr))

theorem _getattrs_loop_spec (xs : XattrList) (u : Bool)
    (hnul : ∀ p ∈ xs, ∀ c ∈ p.1, c ≠ Char.ofNat 0) (hnodup : (xs.map Prod.fst).Nodup) :
    ∀ (rest done : XattrList), xs = done ++ rest →
      _getattrs_loop (some xs) u (rest.map Prod.fst) (done.filterMap (getattrs_entry u)) =
        (0, xs.filterMap (getattrs_entry u)) := by
  intro rest
  induction rest with
  | nil =>
    intro done h
    simp only [List.append_nil] at h
    subst h
    rfl
  | cons p rest ih =>
    intro done h
    obtain ⟨n, v⟩ := p
    have hmem : (n, v) ∈ xs := by rw [h]; simp
    have hlook := lookup_of_mem_nodup xs n v hnodup hmem
    have hn := hnul (n, v) hmem
    have hfresh : ∀ k w, getattrs_entry u (n, v) = some (k, w) →
        (done.filterMap (getattrs_entry u)).lookup k = none := by
      intro k w he
      apply lookup_eq_none_of_forall
      intro q hq hqk
      obtain ⟨⟨n', v'⟩, hm', he'⟩ := List.mem_filterMap.mp hq
      obtain ⟨qk, qv⟩ := q
      simp only at hqk
      subst hqk
      have e1 := (getattrs_entry_name u n v qk w he).2.2
      have e2 := (getattrs_entry_name u n' v' qk qv he').2.2
      have hnn : n' = n := by rw [e1, e2]
      subst hnn
      rw [h, List.map_append, List.map_cons] at hnodup
      have := List.nodup_append.mp hnodup
      exact this.2.2 (List.mem_map.mpr ⟨(n', v'), hm', rfl⟩) (List.mem_cons_self _ _)
    rw [List.map_cons, _getattrs_loop_step xs u n v _ _ hn hlook hfresh]
    have hd : (done ++ [(n, v)]).filterMap (getattrs_entry u) =
        done.filterMap (getattrs_entry u) ++ (getattrs_entry u (n, v)).toList := by
      rw [List.filterMap_append]
      cases hge : getattrs_entry u (n, v) <;> simp [List.filterMap, hge]
    rw [← hd]
    exact ih (done ++ [(n, v)]) (by rw [h]; simp)

theorem _getattrs_spec (xs : XattrList) (u : Bool)
    (hnul : ∀ p ∈ xs, ∀ c ∈ p.1, c ≠ Char.ofNat 0) (hnodup : (xs.map Prod.fst).Nodup) :
    _getattrs (some xs) u [] = (0, xs.filterMap (getattrs_entry u)) := by
  rw [_getattrs_eq_loop xs u [] hnul]
  exact _getattrs_loop_spec xs u hnul hnodup xs [] rfl

theorem mem_filterMap_getattrs_entry (xs : XattrList) (u : Bool) (k v : List Char) :
    (k, v) ∈ xs.filterMap (getattrs_entry u) ↔
      k ≠ [] ∧ ("user.ceph.".toList ++ (if u then '_' :: k else k), v) ∈ xs := by
  rw [List.mem_filterMap]
  constructor
  · rintro ⟨⟨n, w⟩, hm, he⟩
    obtain ⟨hv, hk, hn⟩ := getattrs_entry_name u n w k v he
    subst hv
    rw [← hn]
    exact ⟨hk, hm⟩
  · rintro ⟨hk, hm⟩
    refine ⟨_, hm, ?_⟩
    cases u with
    | false =>
      simp only [getattrs_entry, Bool.false_eq_true, if_false]
      have h1 : ("user.ceph.".toList ++ k).take 10 = "user.ceph.".toList :=
        List.take_left' (by decide)
      have h2 : ("user.ceph.".toList ++ k).drop 10 = k := List.drop_left' (by decide)
      rw [if_pos h1, h2, if_pos hk]
    | true =>
      simp only [getattrs_entry, if_true]
      have h1 : ("user.ceph.".toList ++ '_' :: k).take 10 = "user.ceph.".toList :=
        List.take_left' (by decide)
      have h2 : ("user.ceph.".toList ++ '_' :: k).drop 10 = '_' :: k :=
        List.drop_left' (by decide)
      have h3 : ("user.ceph.".toList ++ '_' :: k).drop 11 = k := by
        have : "user.ceph.".toList ++ '_' :: k = ("user.ceph.".toList ++ ['_']) ++ k := by simp
        rw [this]
        exact List.drop_left' (by decide)
      rw [if_pos h1, h2, h3, if_pos ⟨by simp, hk⟩]

/-- C14 (amended): user-visible filtering in `_getattrs`.  With `user_only = true`, on a
file whose attribute names are distinct C strings, `_getattrs` returns 0 and exactly the
attributes whose name is the prefix `user.ceph.` followed by `_` and a non-empty key,
each under that key (prefix and `_` stripped) with its value; attributes whose
unprefixed name does not begin with `_` are hidden. -/
theorem _getattrs_user_only (xs : XattrList)
    (hnul : ∀ p ∈ xs, ∀ c ∈ p.1, c ≠ Char.ofNat 0) (hnodup : (xs.map Prod.fst).Nodup) :
    ∃ aset, _getattrs (some xs) true [] = (0, aset) ∧
      ∀ k v, (k, v) ∈ aset ↔ k ≠ [] ∧ ("user.ceph.".toList ++ '_' :: k, v) ∈ xs := by
  refine ⟨_, _getattrs_spec xs true hnul hnodup, fun k v => ?_⟩
  simpa using mem_filterMap_getattrs_entry xs true k v

/-- Witness of C14: the attributes `user.ceph.foo`, `user.ceph._bar`, `user.other`. -/
theorem _getattrs_user_only_witness :
    (∀ p ∈ xattrs_foo_bar, ∀ c ∈ p.1, c ≠ Char.ofNat 0) ∧
    (xattrs_foo_bar.map Prod.fst).Nodup ∧
    ∃ aset, _getattrs (some xattrs_foo_bar) true [] = (0, aset) ∧
      ∀ k v, (k, v) ∈ aset ↔
        k ≠ [] ∧ ("user.ceph.".toList ++ '_' :: k, v) ∈ xattrs_foo_bar :=
  ⟨by decide, by decide, _getattrs_user_only xattrs_foo_bar (by decide) (by decide)⟩

/-- Counterexample to C14 as stated: on a file with the attributes `user.ceph.foo` and
`user.ceph._bar`, `_getattrs` with `user_only = true` returns the one entry `bar`, the
value of `user.ceph._bar`; `user.ceph.foo` is not returned under the key `foo`. -/
theorem _getattrs_user_only_counterexample :
    _getattrs (some xattrs_foo_bar) true [] = (0, [("bar".toList, "2".toList)]) ∧
    (_getattrs (some xattrs_foo_bar) true []).2.lookup "foo".toList = none := by
  decide

theorem parse_attrname_iff (m r : List Char) :
    parse_attrname m = some r ↔ c_str m = "user.ceph.".toList ++ r := by
  unfold parse_attrname
  constructor
  · intro h
    split_ifs at h with hp
    simp only [Option.some.injEq] at h
    rw [← h, ← hp]
    exact (List.take_append_drop 10 (c_str m)).symm
  · intro h
    have h1 : (c_str m).take 10 = "user.ceph.".toList := by
      rw [h]; exact List.take_left' (by decide)
    have h2 : (c_str m).drop 10 = r := by
      rw [h]; exact List.drop_left' (by decide)
    rw [if_pos h1, h2]

theorem c_str_user_ceph_append (n : List Char) :
    c_str ("user.ceph.".toList ++ c_str n) = "user.ceph.".toList ++ c_str n := by
  apply c_str_eq_self
  intro c hc
  rcases List.mem_append.mp hc with h | h
  · have hp : ∀ d ∈ "user.ceph.".toList, d ≠ Char.ofNat 0 := by decide
    exact hp c h
  · exact c_str_no_nul n c h

/-- C15 (amended): prefix namespacing of attributes.  For a C string `n`,
`get_attrname(n)` is `user.ceph.` followed by `n`; `parse_attrname` succeeds exactly on
the strings that begin with that 10-byte prefix and yields the rest, so
`parse_attrname(get_attrname(n)) = n`.  On a file whose attribute names are distinct C
strings, `_getattrs` with `user_only = false` returns 0 and exactly the attributes whose
name is the prefix followed by a non-empty key, each under that key with its value;
attributes without the prefix never appear. -/
theorem _getattrs_prefix (n : List Char) (hn : ∀ c ∈ n, c ≠ Char.ofNat 0) (xs : XattrList)
    (hnul : ∀ p ∈ xs, ∀ c ∈ p.1, c ≠ Char.ofNat 0) (hnodup : (xs.map Prod.fst).Nodup) :
    get_attrname n = "user.ceph.".toList ++ n ∧
    parse_attrname (get_attrname n) = some n ∧
    (∀ m r, parse_attrname m = some r ↔ c_str m = "user.ceph.".toList ++ r) ∧
    ∃ aset, _getattrs (some xs) false [] = (0, aset) ∧
      ∀ k v, (k, v) ∈ aset ↔ k ≠ [] ∧ ("user.ceph.".toList ++ k, v) ∈ xs := by
  have hg : get_attrname n = "user.ceph.".toList ++ n := by
    unfold get_attrname; rw [c_str_eq_self n hn]
  refine ⟨hg, ?_, parse_attrname_iff, _, _getattrs_spec xs false hnul hnodup, fun k v => ?_⟩
  · rw [parse_attrname_iff, hg]
    have := c_str_user_ceph_append n
    rwa [c_str_eq_self n hn] at this
  · simpa using mem_filterMap_getattrs_entry xs false k v

/-- Witness of C15: the name `k` and the attributes `user.ceph.foo`, `user.ceph._bar`,
`user.other`. -/
theorem _getattrs_prefix_witness :
    (∀ c ∈ "k".toList, c ≠ Char.ofNat 0) ∧
    (∀ p ∈ xattrs_foo_bar, ∀ c ∈ p.1, c ≠ Char.ofNat 0) ∧
    (xattrs_foo_bar.map Prod.fst).Nodup ∧
    (get_attrname "k".toList = "user.ceph.".toList ++ "k".toList ∧
    parse_attrname (get_attrname "k".toList) = some "k".toList ∧
    (∀ m r, parse_attrname m = some r ↔ c_str m = "user.ceph.".toList ++ r) ∧
    ∃ aset, _getattrs (some xattrs_foo_bar) false [] = (0, aset) ∧
      ∀ k v, (k, v) ∈ aset ↔ k ≠ [] ∧ ("user.ceph.".toList ++ k, v) ∈ xattrs_foo_bar) :=
  ⟨by decide, by decide, by decide,
    _getattrs_prefix "k".toList (by decide) xattrs_foo_bar (by decide) (by decide)⟩

/-- Counterexample to C15 as stated: the attribute named `user.ceph.` (the prefix with
nothing after it) begins with the prefix, yet `_getattrs` with `user_only = false`
returns the empty map for a file that has it. -/
theorem _getattrs_prefix_counterexample :
    ("user.ceph.".toList).take 10 = "user.ceph.".toList ∧
    _getattrs (some [("user.ceph.".toList, "v".toList)]) false [] = (0, []) := by
  decide

/-- C16 (the code at the failing input): on the store `/d` where the object `x` of `c1`
exists without attributes, the batch `SETATTR(c1, x, "k", "v"); RMATTRS(c1, x)`.  Under
the POSIX backend `getattrs` is empty afterwards.  Under UserTrans the RMATTRS case reads
the attributes while the vector is built, before anything is applied, so the vector is
the one SETXATTR record and no REMOVEXATTR; after the kernel has applied it `getattrs`
returns the attribute `k`. -/
theorem rmattrs_usertrans_keeps_batch_attr :
    (_apply_transaction (xattr_run ceph_sentinels "/d".toList) tx_setattr_rmattrs
        fs_x_no_attrs).map
      (fun p => (p.1, getattrs ceph_sentinels "/d".toList p.2 coll_c1 obj_x false [])) =
      .ok (0, 0, []) ∧
    _do_usertrans_marshal ceph_sentinels "/d".toList
        (fun fn => (_getattrs (fs_x_no_attrs fn) false []).2.map Prod.fst)
        [tx_setattr_rmattrs] =
      .ok ([{ op := .SETXATTR, args0 := .str "/d/c1/x_head".toList,
              args1 := .str "user.ceph.k".toList, args2 := .buf "v".toList,
              args3 := .num 1, args4 := .num 0 }], false) ∧
    (_do_usertrans_marshal ceph_sentinels "/d".toList
        (fun fn => (_getattrs (fs_x_no_attrs fn) false []).2.map Prod.fst)
        [tx_setattr_rmattrs]).map
      (fun p => (usertrans_apply_xattr fs_x_no_attrs p.1).map
        (fun fs => getattrs ceph_sentinels "/d".toList fs coll_c1 obj_x false [])) =
      .ok (some (0, [("k".toList, "v".toList)])) := by
  refine ⟨?_, ?_, ?_⟩
  · rfl
  · rfl
  · rfl

/-! ## Claims C12 and C13: listing a collection -/

theorem ino_pair_key_le (obj_lt : sobject_t → sobject_t → Bool) (a b : Nat × sobject_t) :
    (ino_pair_lt obj_lt b a = false → a.1 ≤ b.1) ∧
    (¬ ino_pair_lt obj_lt b a = false → b.1 ≤ a.1) := by
  unfold ino_pair_lt
  constructor
  · intro h
    simp only [Bool.or_eq_false_iff, decide_eq_false_iff_not, not_lt] at h
    exact h.1
  · intro h
    simp only [Bool.not_eq_false, Bool.or_eq_true, decide_eq_true_eq, Bool.and_eq_true,
      Bool.not_eq_true', decide_eq_false_iff_not, not_lt] at h
    rcases h with h | h
    · exact le_of_lt h
    · exact h.1

theorem orderedInsert_ino_sorted (obj_lt : sobject_t → sobject_t → Bool)
    (a : Nat × sobject_t) (l : List (Nat × sobject_t))
    (hl : l.Pairwise (fun x y => x.1 ≤ y.1)) :
    (l.orderedInsert (fun a b => ino_pair_lt obj_lt b a = false) a).Pairwise
      (fun x y => x.1 ≤ y.1) := by
  induction l with
  | nil => simp
  | cons b rest ih =>
    rw [List.pairwise_cons] at hl
    rw [List.orderedInsert]
    split_ifs with h
    · have hab := (ino_pair_key_le obj_lt a b).1 h
      rw [List.pairwise_cons]
      refine ⟨fun y hy => ?_, List.pairwise_cons.mpr hl⟩
      rcases List.mem_cons.mp hy with rfl | hy
      · exact hab
      · exact le_trans hab (hl.1 y hy)
    · have hba := (ino_pair_key_le obj_lt a b).2 h
      rw [List.pairwise_cons]
      refine ⟨fun y hy => ?_, ih hl.2⟩
      rcases (List.mem_orderedInsert _).mp hy with rfl | hy
      · exact hba
      · exact hl.1 y hy

theorem sort_inolist_sorted (obj_lt : sobject_t → sobject_t → Bool)
    (l : List (Nat × sobject_t)) :
    (sort_inolist obj_lt l).Pairwise (fun x y => x.1 ≤ y.1) := by
  unfold sort_inolist
  induction l with
  | nil => simp
  | cons a rest ih =>
    rw [List.insertionSort]
    exact orderedInsert_ino_sorted obj_lt a _ ih

theorem take_succ_set (ls : List sobject_t) :
    ∀ (i : Nat) (v : sobject_t), i < ls.length →
      (ls.set i v).take (i + 1) = ls.take i ++ [v] := by
  induction ls with
  | nil => intro i v h; simp at h
  | cons a rest ih =>
    intro i v h
    cases i with
    | zero => simp
    | succ j =>
      simp only [List.length_cons, Nat.add_lt_add_iff_right] at h
      simp [List.set_cons_succ, List.take_succ_cons, ih j v h]

theorem collection_list_assign_eq (vals : List (Nat × sobject_t)) :
    ∀ (ls : List sobject_t) (i : Nat), ls.length = i + vals.length →
      collection_list_assign ls i vals = ls.take i ++ vals.map Prod.snd := by
  induction vals with
  | nil =>
    intro ls i h
    simp only [List.length_nil, add_zero] at h
    simp [collection_list_assign, ← h]
  | cons p rest ih =>
    intro ls i h
    simp only [List.length_cons] at h
    rw [collection_list_assign, ih (ls.set i p.2) (i + 1) (by simp; omega)]
    have hi : i < ls.length := by omega
    rw [take_succ_set ls i p.2 hi, List.map_cons]
    simp

theorem collection_list_scan_eq (K : SnapSentinels) (entries : List dirent)
    (hok : ∀ de ∈ entries, is_dot_entry de.d_name = false →
      ∃ r, parse_object K de.d_name = .ok r) :
    collection_list_scan K entries = .ok (entries.filterMap (listed_entry K)) := by
  induction entries with
  | nil => rfl
  | cons de rest ih =>
    have hrest := ih (fun d hd => hok d (List.mem_cons_of_mem _ hd))
    rw [collection_list_scan, List.filterMap_cons]
    unfold listed_entry
    by_cases hdot : is_dot_entry de.d_name = true
    · simp only [hdot, if_true]
      exact hrest
    · have hdot' : is_dot_entry de.d_name = false := by simpa using hdot
      obtain ⟨r, hr⟩ := hok de (List.mem_cons_self _ _) hdot'
      simp only [hdot', Bool.false_eq_true, if_false, hr, hrest]
      cases r <;> rfl

theorem listed_objects_cons (K : SnapSentinels) (seq : Nat) (de : dirent)
    (rest : List dirent) :
    listed_objects K seq (de :: rest) =
      (match listed_entry K de with
        | some p => if seq ≤ p.2.snap then [p.2] else []
        | none => []) ++ listed_objects K seq rest := by
  unfold listed_objects
  rw [List.filterMap_cons]
  cases h : listed_entry K de with
  | none => simp
  | some p =>
    by_cases hs : seq ≤ p.2.snap
    · simp [List.filter_cons, hs]
    · simp [List.filter_cons, hs]

theorem collection_list_partial_loop_spec (K : SnapSentinels) (seq : Nat) (max_count : Int)
    (rest : List dirent)
    (hok : ∀ de ∈ rest, is_dot_entry de.d_name = false →
      ∃ r, parse_object K de.d_name = .ok r) :
    ∀ (i : Int) (pos : Nat) (end_ : Bool) (pushed : List sobject_t),
      (i < max_count ∨ end_ = false) →
      ∃ pushed' pos' e,
        collection_list_partial_loop K seq max_count 0 rest i pos end_ pushed =
          .ok (pushed ++ pushed', pos', .left e) ∧
        pos ≤ pos' ∧ pos' ≤ pos + rest.length ∧
        pushed' ++ listed_objects K seq (rest.drop (pos' - pos)) = listed_objects K seq rest ∧
        (e = true → pos' = pos + rest.length) ∧
        (e = false → i < max_count → pos < pos') := by
  induction rest with
  | nil =>
    intro i pos end_ pushed hi
    rw [collection_list_partial_loop]
    by_cases h : i < max_count
    · exact ⟨[], pos, true, by simp [h], le_refl _, by simp, by simp, by simp, by simp⟩
    · have he : end_ = false := by rcases hi with hi | hi; exact absurd hi h; exact hi
      exact ⟨[], pos, end_, by simp [h], le_refl _, by simp, by simp, by simp [he],
        fun _ hlt => absurd hlt h⟩
  | cons de rest ih =>
    intro i pos end_ pushed hi
    have hrest := ih (fun d hd => hok d (List.mem_cons_of_mem _ hd))
    rw [collection_list_partial_loop]
    by_cases h : i < max_count
    · rw [if_pos h]
      -- the iteration that reads `de`
      have step : ∀ (i' : Int) (add : List sobject_t),
          (match listed_entry K de with
            | some p => if seq ≤ p.2.snap then [p.2] else []
            | none => []) = add →
          ∃ pushed' pos' e,
            collection_list_partial_loop K seq max_count 0 rest i' (pos + 1) false
                (pushed ++ add) = .ok (pushed ++ pushed', pos', .left e) ∧
            pos ≤ pos' ∧ pos' ≤ pos + (de :: rest).length ∧
            pushed' ++ listed_objects K seq ((de :: rest).drop (pos' - pos)) =
              listed_objects K seq (de :: rest) ∧
            (e = true → pos' = pos + (de :: rest).length) ∧
            (e = false → i < max_count → pos < pos') := by
        intro i' add hadd
        obtain ⟨p', q', e, h1, h2, h3, h4, h5, _⟩ :=
          hrest i' (pos + 1) false (pushed ++ add) (Or.inr rfl)
        refine ⟨add ++ p', q', e, by rw [h1, List.append_assoc], by omega,
          by simp only [List.length_cons]; omega, ?_, ?_, fun _ _ => by omega⟩
        · have hd : q' - pos = (q' - (pos + 1)) + 1 := by omega
          rw [hd, List.drop_succ_cons, listed_objects_cons, hadd, List.append_assoc, h4]
        · intro he
          simp only [List.length_cons]
          have := h5 he
          omega
      unfold listed_entry at step
      by_cases hdot : is_dot_entry de.d_name = true
      · simp only [hdot, if_true] at step ⊢
        have := step i [] rfl
        simpa using this
      · have hdot' : is_dot_entry de.d_name = false := by simpa using hdot
        obtain ⟨r, hr⟩ := hok de (List.mem_cons_self _ _) hdot'
        simp only [hdot', Bool.false_eq_true, if_false, hr] at step ⊢
        cases r with
        | none =>
          have := step i [] rfl
          simpa using this
        | some o =>
          by_cases hs : seq ≤ o.snap
          · simp only [hs, if_true] at step ⊢
            exact step (i + 1) [o] rfl
          · simp only [hs, if_false] at step ⊢
            have := step i [] rfl
            simpa using this
    · rw [if_neg h]
      have he : end_ = false := by rcases hi with hi | hi; exact absurd hi h; exact hi
      exact ⟨[], pos, end_, by simp, le_refl _, by omega, by simp, by simp [he],
        fun _ hlt => absurd hlt h⟩

theorem collection_list_partial_call (K : SnapSentinels) (entries : List dirent)
    (seq : Nat) (max_count : Int) (start : Nat) (hmax : 1 ≤ max_count)
    (hstart : start ≤ entries.length)
    (hok : ∀ de ∈ entries, is_dot_entry de.d_name = false →
      ∃ r, parse_object K de.d_name = .ok r) :
    ∃ page h',
      collection_list_partial K (some entries) 0 0 false seq max_count (some start) =
        .ok (0, page, some h') ∧
      ((h' = 0 ∧ page = listed_objects K seq (entries.drop start)) ∨
       (start < h' ∧ h' ≤ entries.length ∧
        page ++ listed_objects K seq (entries.drop h') =
          listed_objects K seq (entries.drop start))) := by
  have hok' : ∀ de ∈ entries.drop start, is_dot_entry de.d_name = false →
      ∃ r, parse_object K de.d_name = .ok r :=
    fun de hde => hok de (List.mem_of_mem_drop hde)
  obtain ⟨p', q', e, h1, h2, h3, h4, h5, h6⟩ :=
    collection_list_partial_loop_spec K seq max_count (entries.drop start) hok' 0 start false []
      (Or.inr rfl)
  have hlen : (entries.drop start).length = entries.length - start := List.length_drop _ _
  have hs : (if start ≠ 0 then start else 0) = start := by
    split_ifs with h
    · rfl
    · simp only [ne_eq, not_not] at h; exact h.symm
  unfold collection_list_partial
  simp only [hs, h1, List.nil_append, bind, Except.bind, Option.map_some']
  cases e with
  | true =>
    refine ⟨p', 0, rfl, Or.inl ⟨rfl, ?_⟩⟩
    have hq := h5 rfl
    have hd : (entries.drop start).drop (q' - start) = [] := by
      apply List.drop_eq_nil_of_le
      omega
    rw [hd] at h4
    simpa [listed_objects] using h4
  | false =>
    refine ⟨p', q', rfl, Or.inr ⟨h6 rfl (by omega), by omega, ?_⟩⟩
    have hd : (entries.drop start).drop (q' - start) = entries.drop q' := by
      rw [List.drop_drop]
      congr 1
      omega
    rw [hd] at h4
    exact h4

theorem list_pages_spec (K : SnapSentinels) (entries : List dirent) (seq : Nat)
    (max_count : Int) (hmax : 1 ≤ max_count)
    (hok : ∀ de ∈ entries, is_dot_entry de.d_name = false →
      ∃ r, parse_object K de.d_name = .ok r) :
    ∀ (fuel start : Nat), start ≤ entries.length → entries.length - start < fuel →
      ∃ pages, list_pages K entries seq max_count fuel start = .ok (some pages) ∧
        pages.flatten = listed_objects K seq (entries.drop start) := by
  intro fuel
  induction fuel with
  | zero => intro start _ h; omega
  | succ f ih =>
    intro start hstart hfuel
    obtain ⟨page, h', hcall, hcase⟩ :=
      collection_list_partial_call K entries seq max_count start hmax hstart hok
    rw [list_pages]
    simp only [hcall, bind, Except.bind, ne_eq, not_true_eq_false, if_false]
    rcases hcase with ⟨h0, hp⟩ | ⟨hlt, hle, hp⟩
    · subst h0
      exact ⟨[page], rfl, by simp [hp]⟩
    · obtain ⟨h, rfl⟩ : ∃ h, h' = h + 1 := ⟨h' - 1, by omega⟩
      obtain ⟨more, hmore, hflat⟩ := ih (h + 1) hle (by omega)
      refine ⟨page :: more, ?_, ?_⟩
      · simp only [hmore, pure, Except.pure, Option.map_some']
      · rw [List.flatten_cons, hflat, hp]

theorem names_readable_ok (K : SnapSentinels) (entries : List dirent)
    (h : names_readable K entries = true) :
    ∀ de ∈ entries, is_dot_entry de.d_name = false →
      ∃ r, parse_object K de.d_name = .ok r := by
  intro de hde hdot
  unfold names_readable at h
  have := List.all_eq_true.mp h de hde
  rw [hdot, Bool.false_or] at this
  cases hp : parse_object K de.d_name with
  | error e => rw [hp] at this; simp [Except.isOk, Except.toBool] at this
  | ok r => exact ⟨r, rfl⟩

/-- C12: `collection_list` returns the objects in nondecreasing inode order.  For every
directory whose non-dot names `parse_object` reads without reaching its assertion, every
order `obj_lt` of `sobject_t` and every content `ls` of the vector on entry,
`collection_list` returns 0 and the vector `sorted.map snd`, where `sorted` is a
permutation of the (inode, object) pairs of the non-dot entries that `parse_object`
accepts, one per entry, and the inode numbers along `sorted` never decrease. -/
theorem collection_list_sorted_perm (K : SnapSentinels)
    (obj_lt : sobject_t → sobject_t → Bool) (dflt : sobject_t) (entries : List dirent)
    (errno : Int) (ls : List sobject_t) (hread : names_readable K entries = true) :
    ∃ sorted : List (Nat × sobject_t),
      collection_list K obj_lt dflt (some entries) errno ls = .ok (0, sorted.map Prod.snd) ∧
      sorted.Perm (entries.filterMap (listed_entry K)) ∧
      sorted.Pairwise (fun x y => x.1 ≤ y.1) := by
  refine ⟨sort_inolist obj_lt (entries.filterMap (listed_entry K)), ?_,
    List.perm_insertionSort _ _, sort_inolist_sorted obj_lt _⟩
  have hok := names_readable_ok K entries hread
  unfold collection_list
  simp only [collection_list_scan_eq K entries hok, bind, Except.bind, pure, Except.pure]
  set inolist := entries.filterMap (listed_entry K) with hino
  have hlen : (sort_inolist obj_lt inolist).length = inolist.length :=
    List.length_insertionSort _ _
  have hres : vector_resize (ls ++ inolist.map Prod.snd) (sort_inolist obj_lt inolist).length
      dflt = (ls ++ inolist.map Prod.snd).take inolist.length := by
    unfold vector_resize
    rw [hlen]
    have : inolist.length - (ls ++ inolist.map Prod.snd).length = 0 := by
      simp
    rw [this]
    simp
  rw [hres, collection_list_assign_eq _ _ 0 (by simp [hlen])]
  simp

/-- Witness of C12: a directory with `.`, `..`, a name without `_`, and three objects
with the inode numbers 7, 3 and 7, listed into a vector that held one object. -/
theorem collection_list_sorted_perm_witness :
    names_readable ceph_sentinels [dirent.mk 1 ".".toList, ⟨2, "..".toList⟩,
        ⟨9, "zz".toList⟩, ⟨7, "a_1".toList⟩, ⟨3, "b_2".toList⟩, ⟨7, "c_head".toList⟩] = true ∧
    ∃ sorted : List (Nat × sobject_t),
      collection_list ceph_sentinels (fun _ _ => false) obj_x
          (some [dirent.mk 1 ".".toList, ⟨2, "..".toList⟩, ⟨9, "zz".toList⟩,
            ⟨7, "a_1".toList⟩, ⟨3, "b_2".toList⟩, ⟨7, "c_head".toList⟩]) 0 [obj_y] =
        .ok (0, sorted.map Prod.snd) ∧
      sorted.Perm ([dirent.mk 1 ".".toList, ⟨2, "..".toList⟩, ⟨9, "zz".toList⟩,
            ⟨7, "a_1".toList⟩, ⟨3, "b_2".toList⟩, ⟨7, "c_head".toList⟩].filterMap
          (listed_entry ceph_sentinels)) ∧
      sorted.Pairwise (fun x y => x.1 ≤ y.1) :=
  ⟨by decide,
   collection_list_sorted_perm ceph_sentinels (fun _ _ => false) obj_x _ 0 [obj_y]
     (by decide)⟩

/-- C13: partial listing coverage.  For every directory whose non-dot names
`parse_object` reads without reaching its assertion, every `seq` and every
`max_count ≥ 1`, calling `collection_list_partial` with a zero handle and then with each
returned handle ends with a zero handle after at most `length + 1` calls, and the
concatenation of the pages is the list of the objects of the directory with
`snap ≥ seq`, each once, in directory order, dot-files excluded. -/
theorem list_pages_cover (K : SnapSentinels) (entries : List dirent) (seq : Nat)
    (max_count : Int) (hmax : 1 ≤ max_count) (hread : names_readable K entries = true) :
    ∃ pages, list_pages K entries seq max_count (entries.length + 1) 0 = .ok (some pages) ∧
      pages.flatten = listed_objects K seq entries := by
  have := list_pages_spec K entries seq max_count hmax (names_readable_ok K entries hread)
    (entries.length + 1) 0
    (Nat.zero_le _) (by omega)
  simpa using this

/-- Witness of C13: a directory of six entries listed in pages of two with `seq = 2`. -/
theorem list_pages_cover_witness :
    (1 : Int) ≤ 2 ∧
    names_readable ceph_sentinels [dirent.mk 5 ".".toList, ⟨7, "a_1".toList⟩,
        ⟨3, "b_2".toList⟩, ⟨9, "zz".toList⟩, ⟨4, "c_3".toList⟩, ⟨8, "d_head".toList⟩] = true ∧
    ∃ pages, list_pages ceph_sentinels [dirent.mk 5 ".".toList, ⟨7, "a_1".toList⟩,
        ⟨3, "b_2".toList⟩, ⟨9, "zz".toList⟩, ⟨4, "c_3".toList⟩, ⟨8, "d_head".toList⟩] 2 2
        ([dirent.mk 5 ".".toList, ⟨7, "a_1".toList⟩, ⟨3, "b_2".toList⟩, ⟨9, "zz".toList⟩,
          ⟨4, "c_3".toList⟩, ⟨8, "d_head".toList⟩].length + 1) 0 = .ok (some pages) ∧
      pages.flatten = listed_objects ceph_sentinels 2 [dirent.mk 5 ".".toList,
        ⟨7, "a_1".toList⟩, ⟨3, "b_2".toList⟩, ⟨9, "zz".toList⟩, ⟨4, "c_3".toList⟩,
        ⟨8, "d_head".toList⟩] :=
  ⟨by decide, by decide, list_pages_cover ceph_sentinels _ 2 2 (by decide) (by decide)⟩

/-! ## Claim C18: the signal barrier -/

/-- Along every run `trans_running` is the number of transactions started and not
finished. -/
theorem sig_run_started (evs : List SigEvent) :
    ∀ (c c' : SigRun), c.s.trans_running = c.started → sig_run c evs = some c' →
      c'.s.trans_running = c'.started := by
  induction evs with
  | nil =>
    intro c c' h hr
    rw [sig_run] at hr
    cases hr
    exact h
  | cons ev rest ih =>
    intro c c' h hr
    cases ev with
    | start =>
      rw [sig_run] at hr
      by_cases he : c.s.exited = true
      · simp only [he, if_true] at hr
        cases hr
      · simp only [he, Bool.false_eq_true, if_false] at hr
        unfold _transaction_start_locked at hr
        split_ifs at hr with hw
        · cases hr
        · simp only [Option.bind] at hr
          exact ih _ c' (by simp only [h]; push_cast; rfl) hr
    | finish =>
      rw [sig_run] at hr
      by_cases he : c.s.exited = true
      · simp only [he, if_true] at hr
        cases hr
      · simp only [he, Bool.false_eq_true, if_false] at hr
        cases hn : c.started with
        | zero => rw [hn] at hr; cases hr
        | succ n =>
          rw [hn] at hr
          refine ih _ c' ?_ hr
          have h1 : c.s.trans_running - 1 = (n : Int) := by rw [h, hn]; push_cast; omega
          unfold _transaction_finish_locked _handle_signal
          simp only
          split_ifs <;> exact h1
    | signal_locked signo =>
      rw [sig_run] at hr
      by_cases he : c.s.exited = true
      · simp only [he, if_true] at hr
        cases hr
      · simp only [he, Bool.false_eq_true, if_false] at hr
        by_cases h0 : signo = 0
        · simp only [h0, if_true] at hr
          cases hr
        · simp only [h0, if_false] at hr
          cases hh : c.handler with
          | some p => rw [hh] at hr; cases hr
          | none =>
            rw [hh] at hr
            simp only at hr
            exact ih _ c' (by simpa [handle_signal_locked] using h) hr
    | signal_unlocked =>
      rw [sig_run] at hr
      by_cases he : c.s.exited = true
      · simp only [he, if_true] at hr
        cases hr
      · simp only [he, Bool.false_eq_true, if_false] at hr
        cases hh : c.handler with
        | none => rw [hh] at hr; cases hr
        | some p =>
          obtain ⟨running, signo⟩ := p
          rw [hh] at hr
          refine ih _ c' ?_ hr
          unfold handle_signal_unlocked _handle_signal
          simp only
          split_ifs <;> exact h

/-- C18 (the code at the failing input): `handle_signal` releases `sig_lock` before its
test `if (!running) _handle_signal(signal)`.  When SIGINT (2) arrives with no transaction
running and a `_transaction_start` runs between the unlock and the test, the start does
not wait (`trans_running` is 0), increments `trans_running`, and the handler then takes
the exit path on its stale `running = 0`: the exit is taken with `trans_running = 1`.
Without a step in between the handler exits with `trans_running = 0`; a signal that
arrives while a transaction runs is deferred, and the exit is taken by the
`_transaction_finish` that reaches 0.  In every run `trans_running` is the number of
running transactions and never negative. -/
theorem handle_signal_exits_during_transaction :
    sig_run {} [.signal_locked 2, .start, .signal_unlocked] =
      some { s := { trans_running := 1, sig_pending := 2, exited := true },
             started := 1, handler := none } ∧
    sig_run {} [.signal_locked 2, .signal_unlocked] =
      some { s := { trans_running := 0, sig_pending := 2, exited := true },
             started := 0, handler := none } ∧
    sig_run {} [.start, .signal_locked 2, .signal_unlocked] =
      some { s := { trans_running := 1, sig_pending := 2, exited := false },
             started := 1, handler := none } ∧
    sig_run {} [.start, .signal_locked 2, .signal_unlocked, .finish] =
      some { s := { trans_running := 0, sig_pending := 2, exited := true },
             started := 0, handler := none } ∧
    (∀ (evs : List SigEvent) (c : SigRun), sig_run {} evs = some c →
      0 ≤ c.s.trans_running ∧ c.s.trans_running = c.started) := by
  refine ⟨by decide, by decide, by decide, by decide, fun evs c h => ?_⟩
  have := sig_run_started evs {} c rfl h
  exact ⟨by rw [this]; omega, this⟩

/-! ## The commit sequence -/

theorem apply_transactions_trace_shape {W : Type} (C : Callees W) (btrfs_usertrans : Bool)
    (tls : List Transaction) (onjournal ondisk : Context) (w w' : W) (r : Int)
    (tr : List ApplyEv)
    (h : apply_transactions C btrfs_usertrans tls onjournal ondisk w = .ok (r, w', tr)) :
    tr = .op_start :: (if 0 ≤ r then
        [.op_journal_start, .journal_transactions tls onjournal ondisk, .pwrite_op_seq,
          .op_finish]
      else [.op_journal_start, .delete_context onjournal, .delete_context ondisk,
          .op_finish]) ∨ (r < 0 ∧ tr = [.op_start, .op_journal_start, .op_finish]) := by
  unfold apply_transactions at h
  cases btrfs_usertrans with
  | true =>
    simp only [if_true] at h
    cases hd : C._do_usertrans tls w with
    | error e => rw [hd] at h; cases h
    | ok p =>
      obtain ⟨r0, w0⟩ := p
      rw [hd] at h
      simp only [bind, Except.bind, pure, Except.pure, Except.ok.injEq, Prod.mk.injEq] at h
      obtain ⟨rfl, rfl, htr⟩ := h
      exact Or.inl htr.symm
  | false =>
    simp only [Bool.false_eq_true, if_false] at h
    cases hs : C._transaction_start w with
    | error e => rw [hs] at h; cases h
    | ok p =>
      obtain ⟨id, w1⟩ := p
      rw [hs] at h
      simp only [bind, Except.bind] at h
      by_cases hid : id < 0
      · rw [if_pos hid] at h
        simp only [pure, Except.pure, Except.ok.injEq, Prod.mk.injEq] at h
        obtain ⟨rfl, rfl, htr⟩ := h
        exact Or.inr ⟨hid, htr.symm⟩
      · rw [if_neg hid] at h
        cases hl : apply_transactions_loop C tls 0 w1 with
        | error e => rw [hl] at h; cases h
        | ok q =>
          obtain ⟨r1, w2⟩ := q
          rw [hl] at h
          simp only [pure, Except.pure, Except.ok.injEq, Prod.mk.injEq] at h
          obtain ⟨rfl, rfl, htr⟩ := h
          exact Or.inl htr.symm

/-- C19: monotonicity of the commit sequence.  Whatever the callees do, when
`apply_transactions` returns a non-negative `r` on a store whose commit-sequence file
holds at most `op_seq` (it holds exactly `op_seq` after `mount` and after every
successful call) and whose `op_seq` is not the last `u64`, the value that the call
writes to the file is `op_seq + 1`, strictly greater than the value the file held
before, and it is the `op_seq` of the store after the call. -/
theorem apply_transactions_op_seq_increases {W : Type} (C : Callees W)
    (btrfs_usertrans : Bool) (tls : List Transaction) (onjournal ondisk : Context)
    (w w' : W) (r : Int) (tr : List ApplyEv) (s : SeqState)
    (h : apply_transactions C btrfs_usertrans tls onjournal ondisk w = .ok (r, w', tr))
    (hr : 0 ≤ r) (hfile : s.file ≤ s.op_seq) (hmax : s.op_seq + 1 < 2 ^ 64) :
    s.file < (run_apply_events s tr).file ∧
    (run_apply_events s tr).file = s.op_seq + 1 ∧
    (run_apply_events s tr).op_seq = s.op_seq + 1 := by
  have htr := (apply_transactions_trace_cases tls onjournal ondisk r tr
    (apply_transactions_trace_shape C btrfs_usertrans tls onjournal ondisk w w' r tr h)).1 hr
  subst htr
  simp only [run_apply_events, List.foldl, apply_event_seq, Nat.mod_eq_of_lt hmax]
  exact ⟨Nat.lt_succ_of_le hfile, trivial, trivial⟩

/-- Witness of C19: the batch `REMOVE(c1, x); TOUCH(c1, y)` on the POSIX backend, on a store whose
file and member both hold 41: the call returns 0 and writes 42. -/
theorem apply_transactions_op_seq_increases_witness :
    apply_transactions (posix_callees log_run) false [tx_remove_touch] none none [] =
      .ok (0, [._remove coll_c1 obj_x, ._touch coll_c1 obj_y],
        [.op_start, .op_journal_start, .journal_transactions [tx_remove_touch] none none,
          .pwrite_op_seq, .op_finish]) ∧
    (41 : Nat) <
      (run_apply_events ⟨41, 41⟩ [.op_start, .op_journal_start,
        .journal_transactions [tx_remove_touch] none none, .pwrite_op_seq, .op_finish]).file ∧
    (run_apply_events ⟨41, 41⟩ [.op_start, .op_journal_start,
        .journal_transactions [tx_remove_touch] none none, .pwrite_op_seq, .op_finish]).file
      = 41 + 1 ∧
    (run_apply_events ⟨41, 41⟩ [.op_start, .op_journal_start,
        .journal_transactions [tx_remove_touch] none none, .pwrite_op_seq,
        .op_finish]).op_seq = 41 + 1 :=
  ⟨rfl, apply_transactions_op_seq_increases (posix_callees log_run) false [tx_remove_touch]
    none none [] _ 0 _ ⟨41, 41⟩ rfl (by decide) (by decide) (by decide)⟩

/-! ## `mount` -/

/-- C17 (amended claim): the error codes of `mount`.  When `stat` of the base directory
fails with `ENOENT`, `mount` returns `-ENOENT`.  When the xattr test fails and the xattr
calls left a positive `errno` behind, `mount` returns `-errno` for that `errno`, a
negative value.  When the test passes (or attributes are faked) and `fcntl` cannot take
the lock on `fsid`, `mount` returns `-EBUSY`.  When, after that, the file
`commit_op_seq` opens and `journal_replay` reports `-EINVAL`, `mount` returns `-EINVAL`.
In all four cases the barrier is left as it was. -/
theorem mount_error_codes (K : SnapSentinels) (basedir : List Char) (e : MountEnv)
    (low : LowCall → SigState → SigState × Int) (fl : StoreFlags) (s : SigState) :
    (e.stat_r ≠ 0 → e.stat_errno = ENOENT →
      ∃ fl', mount K basedir e low fl s = .ok (-ENOENT, fl', s)) ∧
    (e.stat_r = 0 → xattr_probe_failed e = true → 0 < e.probe_errno →
      (∃ fl', mount K basedir e low fl s = .ok (-e.probe_errno, fl', s)) ∧
      -e.probe_errno < 0) ∧
    (e.stat_r = 0 → xattr_probe_failed e = false → e.fcntl_r < 0 → 0 < e.fcntl_errno →
      ∃ fl', mount K basedir e low fl s = .ok (-EBUSY, fl', s)) ∧
    (e.stat_r = 0 → xattr_probe_failed e = false →
      0 ≤ lock_fsid e.fcntl_r e.fcntl_errno → 0 ≤ e.op_fd → e.journal_replay = -EINVAL →
      ∃ fl', mount K basedir e low fl s = .ok (-EINVAL, fl', s)) := by
  have hx : xattr_probe_failed e = true ↔
      (e.filestore_fake_attrs = false ∧ e.x ≠ e.y_read.getD (e.x + 1)) := by
    simp [xattr_probe_failed]
  refine ⟨fun h0 he => ?_, fun h0 hp hpos => ⟨?_, by omega⟩, fun h0 hp hf hfe => ?_,
    fun h0 hp hl hop hj => ?_⟩
  · refine ⟨fl, ?_⟩
    unfold mount
    rw [if_pos h0, he]
  · unfold mount
    rw [if_neg (not_not.mpr h0)]
    simp only []
    rw [if_pos (hx.mp hp)]
    exact ⟨_, rfl⟩
  · have hnp : ¬ (e.filestore_fake_attrs = false ∧ e.x ≠ e.y_read.getD (e.x + 1)) := by
      rw [← hx, hp]; simp
    have hlk : lock_fsid e.fcntl_r e.fcntl_errno < 0 := by
      unfold lock_fsid
      rw [if_pos hf]; omega
    unfold mount
    rw [if_neg (not_not.mpr h0)]
    simp only []
    rw [if_neg hnp, if_pos hlk]
    exact ⟨_, rfl⟩
  · have hnp : ¬ (e.filestore_fake_attrs = false ∧ e.x ≠ e.y_read.getD (e.x + 1)) := by
      rw [← hx, hp]; simp
    unfold mount
    rw [if_neg (not_not.mpr h0)]
    simp only []
    rw [if_neg hnp, if_neg (not_lt.mpr hl), if_neg (not_lt.mpr hop), if_pos hj, hj]
    exact ⟨_, rfl⟩

/-- Witness of C17: the four failures on the store of `mount_env`: base directory
missing, file system without `user_xattr` (the xattr calls leave `ENOTSUP`, 95), `fsid`
locked, journal that cannot be opened. -/
theorem mount_error_codes_witness :
    (∃ fl', mount ceph_sentinels "/d".toList mount_env_missing low_ok flags_unmounted {} =
      .ok (-ENOENT, fl', {})) ∧
    ((∃ fl', mount ceph_sentinels "/d".toList mount_env_no_xattr low_ok flags_unmounted {} =
      .ok (-mount_env_no_xattr.probe_errno, fl', {})) ∧
      -mount_env_no_xattr.probe_errno < 0) ∧
    (∃ fl', mount ceph_sentinels "/d".toList mount_env_locked low_ok flags_unmounted {} =
      .ok (-EBUSY, fl', {})) ∧
    (∃ fl', mount ceph_sentinels "/d".toList mount_env_bad_journal low_ok flags_unmounted {} =
      .ok (-EINVAL, fl', {})) :=
  ⟨(mount_error_codes ceph_sentinels "/d".toList mount_env_missing low_ok flags_unmounted
      {}).1 (by decide) rfl,
   (mount_error_codes ceph_sentinels "/d".toList mount_env_no_xattr low_ok flags_unmounted
      {}).2.1 rfl rfl (by decide),
   (mount_error_codes ceph_sentinels "/d".toList mount_env_locked low_ok flags_unmounted
      {}).2.2.1 rfl rfl (by decide) (by decide),
   (mount_error_codes ceph_sentinels "/d".toList mount_env_bad_journal low_ok flags_unmounted
      {}).2.2.2 rfl rfl (by decide) (by decide) rfl⟩

/-- C17 (counterexample): on a file system mounted without `user_xattr` the xattr calls
fail with `ENOTSUP` (95), the test fails and `mount` returns -95, which is not `-EIO`
(-5). -/
theorem mount_xattr_probe_counterexample :
    xattr_probe_failed mount_env_no_xattr = true ∧
    mount ceph_sentinels "/d".toList mount_env_no_xattr low_ok flags_unmounted {} =
      .ok (-95, flags_unmounted, {}) ∧
    (-95 : Int) ≠ - EIO := by
  refine ⟨rfl, rfl, by decide⟩

/-! ## Claim C21: the FD table -/

theorem fd_table_wf_pwrites (bl : List bufferptr) :
    ∀ off, fd_table_wf [0]
      (usertrans_pwrites bl off ++ [{ op := .CLOSE, args0 := .num 0, flags := { FD_ARG0 := true } }])
      = true := by
  induction bl with
  | nil => intro off; rfl
  | cons b rest ih =>
    intro off
    have := ih ((off + b.length) % 2 ^ 64)
    simpa [usertrans_pwrites, fd_table_wf, fd_args, usertrans_num_fds] using this

/-- C21 (the code at the failing input): for `CLONE(c1, x, y)` and for
`CLONERANGE(c1, x, y, 2, 2)` the two OPEN records carry no `FD_SAVE` (their flags are the
zeros of the `memset`), yet the CLONERANGE record takes slots 1 and 0 from the FD table
and the two CLOSE records take slots 0 and 1: no record of the group is preceded by an
OPEN that saved the slot it takes, and the group is not well-formed.  The groups of
TOUCH and of WRITE, whose OPEN carries `FD_SAVE` with `fd_num = 0`, are well-formed for
all arguments. -/
theorem _do_usertrans_clone_fd_not_saved :
    (_do_usertrans_marshal ceph_sentinels "/d".toList (fun _ => []) [tx_clone]).map
        (fun p => (p.1.map (fun r => (r.op, r.flags.FD_SAVE, r.fd_num, fd_slots r)),
          fd_table_wf [] p.1)) =
      .ok ([(.OPEN, false, 0, []), (.OPEN, false, 1, []), (.CLONERANGE, false, 0, [1, 0]),
            (.CLOSE, false, 0, [0]), (.CLOSE, false, 0, [1])], false) ∧
    (_do_usertrans_marshal ceph_sentinels "/d".toList (fun _ => []) [tx_clonerange]).map
        (fun p => (p.1.map (fun r => (r.op, r.flags.FD_SAVE, r.fd_num, fd_slots r)),
          fd_table_wf [] p.1)) =
      .ok ([(.OPEN, false, 0, []), (.OPEN, false, 1, []), (.CLONERANGE, false, 0, [1, 0]),
            (.CLOSE, false, 0, [0]), (.CLOSE, false, 0, [1])], false) ∧
    (∀ (K : SnapSentinels) (basedir : List Char) (getattrs : List Char → List (List Char))
      (cid : coll_t) (oid : sobject_t),
      (_do_usertrans_marshal K basedir getattrs
        [{ ops := [.OP_TOUCH], args := { cids := [cid], oids := [oid] } }]).map
        (fun p => fd_table_wf [] p.1) = .ok true) ∧
    (∀ (K : SnapSentinels) (basedir : List Char) (getattrs : List Char → List (List Char))
      (cid : coll_t) (oid : sobject_t) (off : Nat) (bl : bufferlist),
      (_do_usertrans_marshal K basedir getattrs
        [{ ops := [.OP_WRITE],
           args := { cids := [cid], oids := [oid], lengths := [off, bufferlist.length bl],
                     bls := [bl] } }]).map
        (fun p => fd_table_wf [] p.1) = .ok true) := by
  refine ⟨rfl, rfl, fun K basedir getattrs cid oid => rfl,
    fun K basedir getattrs cid oid off bl => ?_⟩
  have h := fd_table_wf_pwrites bl off
  simp only [_do_usertrans_marshal, _do_usertrans_loop, _do_usertrans_ops, _do_usertrans_case,
    TxArgs.get_length, TxArgs.get_cid, TxArgs.get_oid, TxArgs.get_bl, bind, Except.bind, pure,
    Except.pure, ne_eq, not_true_eq_false, if_false, List.nil_append, Except.map,
    List.append_assoc, List.singleton_append]
  simp only [fd_table_wf, fd_args, usertrans_num_fds, List.append_nil, List.all_nil,
    Bool.true_and, if_true, decide_True, List.not_mem_nil, not_false_eq_true, Bool.and_self]
  simpa using h

/-! ## Claim C22: the records of WRITE -/

/-- C23 (the code at the failing input): on a file system without any btrfs ioctl and
with `filestore_btrfs_trans` off, the USERTRANS probe fails, the second probe goes
through `_transaction_start`, which returns 0 at its first test without making the
TRANS_START ioctl, so `apply_transaction` returns 0 and `mount` latches `btrfs = 2`
with `btrfs_trans_start_end` still set, although neither ioctl succeeded.  With
`filestore_btrfs_trans` on, the same file system gives `btrfs = 0`, and a file system
whose USERTRANS ioctl succeeds keeps `btrfs_usertrans`. -/
theorem mount_probe_latches_btrfs :
    (mount_env_trans_off.usertrans_ioctl []).1 < 0 ∧
    mount_env_trans_off.ioctl_trans_start < 0 ∧
    mount ceph_sentinels "/d".toList mount_env_trans_off low_ok flags_unmounted {} =
      .ok (0, { btrfs := 2, btrfs_usertrans := false, btrfs_trans_start_end := true,
                fake_collections := false, fake_attrs := false }, {}) ∧
    mount ceph_sentinels "/d".toList mount_env_ebadf low_ok flags_unmounted {} =
      .ok (0, { btrfs := 0, btrfs_usertrans := false, btrfs_trans_start_end := true,
                fake_collections := false, fake_attrs := false }, {}) ∧
    mount ceph_sentinels "/d".toList mount_env_usertrans low_ok flags_unmounted {} =
      .ok (0, { btrfs := 2, btrfs_usertrans := true, btrfs_trans_start_end := true,
                fake_collections := false, fake_attrs := false }, {}) := by
  refine ⟨by decide, by decide, rfl, rfl, rfl⟩

/-! ## Claim C24: one page of the partial listing -/

theorem collection_list_partial_loop_count (K : SnapSentinels) (seq : Nat) (max_count : Int)
    (rest : List dirent) :
    ∀ (i : Int) (pos : Nat) (end_ : Bool) (pushed out : List sobject_t) (pos' : Nat)
      (e : Bool), i ≤ max_count →
      collection_list_partial_loop K seq max_count 0 rest i pos end_ pushed =
        .ok (out, pos', .left e) →
      (out.length : Int) + i ≤ pushed.length + max_count ∧
      (e = false → (out.length : Int) + i = pushed.length + max_count) := by
  induction rest with
  | nil =>
    intro i pos end_ pushed out pos' e hi h
    rw [collection_list_partial_loop] at h
    by_cases hlt : i < max_count
    · simp only [hlt, if_true, ne_eq, not_true_eq_false, if_false, Except.ok.injEq,
        Prod.mk.injEq, PartialExit.left.injEq] at h
      obtain ⟨rfl, -, rfl⟩ := h
      exact ⟨by omega, fun hf => by cases hf⟩
    · simp only [hlt, if_false, Except.ok.injEq, Prod.mk.injEq, PartialExit.left.injEq] at h
      obtain ⟨rfl, -, -⟩ := h
      exact ⟨by omega, fun _ => by omega⟩
  | cons de rest ih =>
    intro i pos end_ pushed out pos' e hi h
    rw [collection_list_partial_loop] at h
    by_cases hlt : i < max_count
    · rw [if_pos hlt] at h
      by_cases hdot : is_dot_entry de.d_name = true
      · rw [if_pos hdot] at h
        exact ih i (pos + 1) false pushed out pos' e hi h
      · rw [if_neg hdot] at h
        cases hp : parse_object K de.d_name with
        | error err => rw [hp] at h; cases h
        | ok r =>
          rw [hp] at h
          cases r with
          | none => exact ih i (pos + 1) false pushed out pos' e hi h
          | some o =>
            simp only at h
            by_cases hs : seq ≤ o.snap
            · rw [if_pos hs] at h
              have := ih (i + 1) (pos + 1) false (pushed ++ [o]) out pos' e (by omega) h
              simp only [List.length_append, List.length_singleton, Nat.cast_add,
                Nat.cast_one] at this
              exact ⟨by omega, fun he => by have := this.2 he; omega⟩
            · rw [if_neg hs] at h
              exact ih i (pos + 1) false pushed out pos' e hi h
    · rw [if_neg hlt] at h
      simp only [Except.ok.injEq, Prod.mk.injEq, PartialExit.left.injEq] at h
      obtain ⟨rfl, -, -⟩ := h
      exact ⟨by omega, fun _ => by omega⟩

theorem mem_listed_objects (K : SnapSentinels) (seq : Nat) (l : List dirent)
    (o : sobject_t) (h : o ∈ listed_objects K seq l) :
    seq ≤ o.snap ∧ ∃ de ∈ l, is_dot_entry de.d_name = false ∧
      parse_object K de.d_name = .ok (some o) := by
  unfold listed_objects at h
  simp only [List.mem_filter, List.mem_map, List.mem_filterMap, decide_eq_true_eq] at h
  obtain ⟨⟨p, ⟨de, hde, hle⟩, rfl⟩, hs⟩ := h
  refine ⟨hs, de, hde, ?_⟩
  unfold listed_entry at hle
  by_cases hdot : is_dot_entry de.d_name = true
  · rw [if_pos hdot] at hle; cases hle
  · rw [if_neg hdot] at hle
    refine ⟨by simpa using hdot, ?_⟩
    cases hp : parse_object K de.d_name with
    | error err => rw [hp] at hle; cases hle
    | ok r =>
      rw [hp] at hle
      cases r with
      | none => cases hle
      | some o' =>
        simp only [Option.some.injEq] at hle
        rw [← hle]

/-- C24: the page contract of `collection_list_partial`.  For every directory whose
non-dot names `parse_object` reads without reaching its assertion and whose reads do not
fail, every `seq`, every `max_count ≥ 1` and every handle `start`, one call returns 0
and appends a page of at most `max_count` objects, each with `snap ≥ seq` and parsed
from a non-dot entry after the cursor.  The handle is left zero exactly when the loop
was left at the end of the directory (`readdir_r` returned no entry), and the page is
then all that remained to list; otherwise the page is full and the handle is the
`telldir` cursor, behind `start`, from which the rest of the listing follows. -/
theorem collection_list_partial_page (K : SnapSentinels) (entries : List dirent)
    (seq : Nat) (max_count : Int) (start : Nat) (uninit_end : Bool)
    (hmax : 1 ≤ max_count) (hread : names_readable K entries = true) :
    ∃ page pos e h',
      collection_list_partial_loop K seq max_count 0 (entries.drop start) 0 start
        uninit_end [] = .ok (page, pos, .left e) ∧
      collection_list_partial K (some entries) 0 0 uninit_end seq max_count (some start) =
        .ok (0, page, some h') ∧
      (page.length : Int) ≤ max_count ∧
      (∀ o ∈ page, seq ≤ o.snap ∧ ∃ de ∈ entries.drop start,
        is_dot_entry de.d_name = false ∧ parse_object K de.d_name = .ok (some o)) ∧
      (h' = 0 ↔ e = true) ∧
      (e = true → page = listed_objects K seq (entries.drop start)) ∧
      (e = false → h' = pos ∧ start < h' ∧ (page.length : Int) = max_count ∧
        page ++ listed_objects K seq (entries.drop h') =
          listed_objects K seq (entries.drop start)) := by
  have hok := names_readable_ok K entries hread
  have hok' : ∀ de ∈ entries.drop start, is_dot_entry de.d_name = false →
      ∃ r, parse_object K de.d_name = .ok r :=
    fun de hde => hok de (List.mem_of_mem_drop hde)
  obtain ⟨p', q', e, h1, h2, h3, h4, h5, h6⟩ :=
    collection_list_partial_loop_spec K seq max_count (entries.drop start) hok' 0 start
      uninit_end [] (Or.inl (by omega))
  rw [List.nil_append] at h1
  have hcount := collection_list_partial_loop_count K seq max_count (entries.drop start) 0
    start uninit_end [] p' q' e (by omega) h1
  simp only [List.length_nil, Nat.cast_zero, add_zero, zero_add] at hcount
  have hs : (if start ≠ 0 then start else 0) = start := by
    split_ifs with h
    · rfl
    · simp only [ne_eq, not_not] at h; exact h.symm
  have hmem : ∀ o ∈ p', o ∈ listed_objects K seq (entries.drop start) := by
    intro o ho
    rw [← h4]
    exact List.mem_append_left _ ho
  have hcall : collection_list_partial K (some entries) 0 0 uninit_end seq max_count
      (some start) = .ok (0, p', some (if e then 0 else q')) := by
    unfold collection_list_partial
    simp only [hs, h1, bind, Except.bind, Option.map_some']
    cases e <;> rfl
  refine ⟨p', q', e, if e then 0 else q', h1, hcall, hcount.1,
    fun o ho => mem_listed_objects K seq _ o (hmem o ho), ?_, ?_, ?_⟩
  · cases e with
    | true => simp
    | false =>
      have := h6 rfl (by omega)
      simp only [Bool.false_eq_true, if_false, iff_false]
      omega
  · intro he
    have hq := h5 he
    have hd : (entries.drop start).drop (q' - start) = [] := by
      apply List.drop_eq_nil_of_le
      omega
    rw [hd] at h4
    simpa [listed_objects] using h4
  · intro he
    subst he
    have hlt := h6 rfl (by omega)
    refine ⟨rfl, hlt, hcount.2 rfl, ?_⟩
    have hd : (entries.drop start).drop (q' - start) = entries.drop q' := by
      rw [List.drop_drop]
      congr 1
      omega
    simp only [Bool.false_eq_true, if_false]
    rw [hd] at h4
    exact h4

/-- Witness of C24: a directory of six entries, `seq = 2`, pages of two: the call from
the handle 0 stops behind the fifth entry, the call from the handle 5 reaches the end. -/
theorem collection_list_partial_page_witness :
    collection_list_partial ceph_sentinels (some [dirent.mk 5 ".".toList,
        ⟨7, "a_1".toList⟩, ⟨3, "b_2".toList⟩, ⟨9, "zz".toList⟩, ⟨4, "c_3".toList⟩,
        ⟨8, "d_head".toList⟩]) 0 0 false 2 2 (some 0) =
      .ok (0, [⟨"b".toList, 2⟩, ⟨"c".toList, 3⟩], some 5) ∧
    collection_list_partial ceph_sentinels (some [dirent.mk 5 ".".toList,
        ⟨7, "a_1".toList⟩, ⟨3, "b_2".toList⟩, ⟨9, "zz".toList⟩, ⟨4, "c_3".toList⟩,
        ⟨8, "d_head".toList⟩]) 0 0 false 2 2 (some 5) =
      .ok (0, [⟨"d".toList, ceph_sentinels.CEPH_NOSNAP⟩], some 0) ∧
    ∃ page pos e h',
      collection_list_partial_loop ceph_sentinels 2 2 0 ([dirent.mk 5 ".".toList,
        ⟨7, "a_1".toList⟩, ⟨3, "b_2".toList⟩, ⟨9, "zz".toList⟩, ⟨4, "c_3".toList⟩,
        ⟨8, "d_head".toList⟩].drop 0) 0 0 false [] = .ok (page, pos, .left e) ∧
      collection_list_partial ceph_sentinels (some [dirent.mk 5 ".".toList,
        ⟨7, "a_1".toList⟩, ⟨3, "b_2".toList⟩, ⟨9, "zz".toList⟩, ⟨4, "c_3".toList⟩,
        ⟨8, "d_head".toList⟩]) 0 0 false 2 2 (some 0) = .ok (0, page, some h') ∧
      (page.length : Int) ≤ 2 ∧
      (∀ o ∈ page, 2 ≤ o.snap ∧ ∃ de ∈ [dirent.mk 5 ".".toList,
        ⟨7, "a_1".toList⟩, ⟨3, "b_2".toList⟩, ⟨9, "zz".toList⟩, ⟨4, "c_3".toList⟩,
        ⟨8, "d_head".toList⟩].drop 0,
        is_dot_entry de.d_name = false ∧
          parse_object ceph_sentinels de.d_name = .ok (some o)) ∧
      (h' = 0 ↔ e = true) ∧
      (e = true → page = listed_objects ceph_sentinels 2 ([dirent.mk 5 ".".toList,
        ⟨7, "a_1".toList⟩, ⟨3, "b_2".toList⟩, ⟨9, "zz".toList⟩, ⟨4, "c_3".toList⟩,
        ⟨8, "d_head".toList⟩].drop 0)) ∧
      (e = false → h' = pos ∧ 0 < h' ∧ (page.length : Int) = 2 ∧
        page ++ listed_objects ceph_sentinels 2 ([dirent.mk 5 ".".toList,
          ⟨7, "a_1".toList⟩, ⟨3, "b_2".toList⟩, ⟨9, "zz".toList⟩, ⟨4, "c_3".toList⟩,
          ⟨8, "d_head".toList⟩].drop h') =
          listed_objects ceph_sentinels 2 ([dirent.mk 5 ".".toList,
          ⟨7, "a_1".toList⟩, ⟨3, "b_2".toList⟩, ⟨9, "zz".toList⟩, ⟨4, "c_3".toList⟩,
          ⟨8, "d_head".toList⟩].drop 0)) :=
  ⟨by decide, by decide,
    collection_list_partial_page ceph_sentinels _ 2 2 0 false (by decide) (by decide)⟩

/-! ## Claims C25, C26 and C27: copying a range -/

/-- C25 (the code at the failing input): `_clone_range` of the range `[2, 4)` from a
source `abcd` into an existing destination `wxyz` on a store with `btrfs < 2`.  The
buffered copy sets `pos = off` but never seeks: it reads at the position of `from` and
writes at the position of `to`, both 0 after the `open` calls, so it copies `ab` to
`[0, 2)` and leaves `abyz`.  The claim, like the ioctl path with
`src_offset = dest_offset = off`, gives `wxcd`. -/
theorem _do_clone_range_ignores_off :
    (_do_clone_range 0 (clone_range_ioctl_ok "abcd".toList) 0 "abcd".toList
        (file_read "abcd".toList clone_buflen) full_write 2 2 10
        (clone_state_opened "wxyz".toList)).map (fun p => (p.1, p.2.dst, p.2.calls)) =
      some (2, "abyz".toList, [.read 2 2, .write 2 2]) ∧
    spec_clone_range "abcd".toList "wxyz".toList 2 2 = "wxcd".toList ∧
    (_do_clone_range 2 (clone_range_ioctl_ok "abcd".toList) 0 "abcd".toList
        (file_read "abcd".toList clone_buflen) full_write 2 2 10
        (clone_state_opened "wxyz".toList)).map (fun p => (p.1, p.2.dst, p.2.calls)) =
      some (0, "wxcd".toList, []) ∧
    "abyz".toList ≠ "wxcd".toList := by
  refine ⟨by decide, by decide, by decide, by decide⟩

/-- C26 (the code at the failing input): for every `CLONERANGE(o, n, off, len)` the
UserTrans realization opens the destination with `O_WRONLY|O_CREAT|O_TRUNC`, whereas
`_clone_range` opens it with `O_CREAT|O_WRONLY`: the flags differ in `O_TRUNC`, and an
existing destination `wxyz` is cut to length 0 by the first and kept by the second. -/
theorem clonerange_dest_flags_differ (K : SnapSentinels) (basedir : List Char)
    (getattrs : List Char → List (List Char)) (cid : coll_t) (o n : sobject_t)
    (off len : Nat) (do_clone_range : Int → Int → Nat → Nat → Int) :
    _do_usertrans_marshal K basedir getattrs
        [{ ops := [.OP_CLONERANGE],
           args := { cids := [cid], oids := [o, n], lengths := [off, len] } }] =
      .ok ([{ op := .OPEN, args0 := .str (get_coname K basedir cid o),
              args1 := .oflags O_RDONLY, fd_num := 0 },
            { op := .OPEN, args0 := .str (get_coname K basedir cid n),
              args1 := .oflags { O_WRONLY := true, O_CREAT := true, O_TRUNC := true },
              args2 := .num 0o644, fd_num := 1 },
            { op := .CLONERANGE, args0 := .num 1, args1 := .num 0, args2 := .num off,
              args3 := .num len, flags := { FD_ARG0 := true, FD_ARG1 := true } },
            { op := .CLOSE, args0 := .num 0, flags := { FD_ARG0 := true } },
            { op := .CLOSE, args0 := .num 1, flags := { FD_ARG0 := true } }], false) ∧
    _clone_range K basedir 3 0 4 0 do_clone_range cid o n off len =
      (do_clone_range 3 4 off len,
        [.open_ (get_coname K basedir cid o) O_RDONLY none,
         .open_ (get_coname K basedir cid n) { O_CREAT := true, O_WRONLY := true }
           (some 0o644),
         ._do_clone_range 3 4 off len, .close 4, .close 3]) ∧
    ({ O_WRONLY := true, O_CREAT := true, O_TRUNC := true } : OpenFlags) ≠
      { O_CREAT := true, O_WRONLY := true } ∧
    open_content { O_WRONLY := true, O_CREAT := true, O_TRUNC := true }
      (some "wxyz".toList) = some [] ∧
    open_content { O_CREAT := true, O_WRONLY := true } (some "wxyz".toList) =
      some "wxyz".toList := by
  refine ⟨rfl, rfl, by decide, rfl, rfl⟩

theorem _do_clone_range_write_full (l : Nat) :
    ∀ (fuel op : Nat) (st : CloneState),
      _do_clone_range_write full_write l fuel op st = none ∨
      ∃ st', _do_clone_range_write full_write l fuel op st = some (none, st') ∧
        st'.from_pos = st.from_pos := by
  intro fuel
  induction fuel with
  | zero => intro op st; exact Or.inl rfl
  | succ f ih =>
    intro op st
    rw [_do_clone_range_write]
    by_cases h : op < l
    · have hr : ¬ (full_write st.to_pos (l - op) < 0) := by
        unfold full_write; omega
      simp only [h, if_true, hr, if_false]
      rcases ih _ _ with h1 | ⟨st', h1, h2⟩
      · exact Or.inl h1
      · exact Or.inr ⟨st', h1, h2⟩
    · simp only [h, if_false]
      exact Or.inr ⟨st, rfl, rfl⟩

theorem _do_clone_range_loop_eof (src : List Char) (cap : Nat) (end_ : Int) :
    ∀ (fuel : Nat) (pos r : Int) (st : CloneState), pos < end_ → src.length ≤ st.from_pos →
      _do_clone_range_loop src (file_read src cap) full_write end_ fuel pos r st = none := by
  intro fuel
  induction fuel with
  | zero => intro pos r st _ _; rfl
  | succ f ih =>
    intro pos r st hpos hsrc
    rw [_do_clone_range_loop]
    have hr : ∀ l, file_read src cap st.from_pos l = 0 := by
      intro l
      unfold file_read
      have : src.length - st.from_pos = 0 := by omega
      simp [this]
    simp only [hpos, if_true, hr, lt_self_iff_false, if_false, Int.toNat_zero, add_zero]
    rcases _do_clone_range_write_full _ f 0 _ with h1 | ⟨st', h1, h2⟩
    · rw [h1]
    · rw [h1]
      exact ih pos 0 st' hpos (by rw [h2]; exact hsrc)

/-- C27 (the code at the failing input): the buffered copy of the range `[0, 1)` from
an empty source does not end: every read returns 0, `pos` stays 0 and each iteration
writes one byte of `buf`, whatever the number of iterations allowed.  With a source
`abcd` whose reads return one byte at a time, the copy of `[0, 4)` ends, but each
iteration writes the whole chunk `l` and not the `r` bytes read: the reads return 4
bytes and the writes put 10 bytes into the destination. -/
theorem _do_clone_range_eof_never_ends :
    (∀ fuel, (_do_clone_range 0 (clone_range_ioctl_ok []) 0 [] (file_read [] clone_buflen)
        full_write 0 1 fuel (clone_state_opened [])).isNone = true) ∧
    (_do_clone_range 0 (clone_range_ioctl_ok []) 0 [] (file_read [] clone_buflen)
        full_write 0 1 3 (clone_state_opened [])).isNone = true ∧
    (_do_clone_range 0 (clone_range_ioctl_ok "abcd".toList) 0 "abcd".toList
        (file_read "abcd".toList 1) full_write 0 4 10
        (clone_state_opened [])).map
          (fun p => (p.1, p.2.dst, bytes_read p.2.calls, bytes_written p.2.calls)) =
      some (1, "axxxbxxcxd".toList, 4, 10) := by
  refine ⟨fun fuel => ?_, by decide, by decide⟩
  have := _do_clone_range_loop_eof [] clone_buflen (to_loff (0 + 1)) fuel (to_loff 0) 0
    (clone_state_opened []) (by decide) (by simp [clone_state_opened])
  unfold _do_clone_range
  simp only [show ¬ (2 ≤ 0) by decide, if_false]
  rw [this]
  rfl

end FileStore
